import Mathlib

/-! DBSCAN (serial and OpenMP "indivisible" variants)

Shallow embedding of `src/dbscan_serial.cpp` and `src/dbscan_omp_indivisible.cpp`.

Modelling conventions

* `double` is embedded twice.  The clustering functions are embedded over exact
  rationals (`Point`, `distancia_euclidiana`, `vecinosObj` over `ℚ`): what is proved of
  them uses the neighbour lists only through their index range, irreflexivity and
  symmetry.  The numeric comparison of the neighbour query is embedded over IEEE 754
  binary64 values (`Doble`, `Point64`, `distancia_euclidiana64`, `vecinosObj64`): a value
  is finite, an infinity or a NaN, and every `-`, `*` and `+` of the source is rounded
  once, to nearest with ties to even, with gradual underflow and overflow to infinity.
  That is the evaluation of the expression in `double` precision, operation by
  operation (no fused multiply-add, no wider intermediate format).  The two zeros are
  not distinguished: the source only adds, subtracts, multiplies and compares, and none
  of these tells them apart.
* `vector<T>` is `List T`; an index is a `Nat`.  The source indexes with `int`
  (`static_cast<int>(puntos.size())`), which coincides with the `Nat` index for
  collections of fewer than `2^31` points; that is the range the model covers.
* A read `v[i]` is `List.getD v i d`.  An out-of-range read is undefined behaviour in
  the source; the default `d` only makes the model total (for the label array it is `0`,
  so an out-of-range index popped from the queue is skipped).
* `queue<int>` is a `List Nat`: `front`/`pop` take the head, `push` appends at the end.
* `minimoPuntos` is the value of a C `int`, an `Int`.  The serial file compares
  `static_cast<int>(size) + 1` with it as signed integers; the OpenMP file compares
  `size() + 1` (a `size_t`) with it after the usual conversion to the unsigned 64-bit
  type, i.e. with `minimoPuntos % 2^64`.
* `Point`, `distancia_euclidiana` and `vecinosObj` are textually the same in both files
  and are embedded once.  The functions of the serial file are under `Serial.`, those of
  the OpenMP file under `Omp.`.
-/

/-! ## Definitions -/

set_option linter.unusedVariables false

/-- A 2D point (`struct Point`). -/
structure Point where
  x : ℚ
  y : ℚ
  deriving DecidableEq, Repr

/-- Squared euclidean distance between two points. -/
def distancia_euclidiana (p1 p2 : Point) : ℚ :=
  (p1.x - p2.x) * (p1.x - p2.x) + (p1.y - p2.y) * (p1.y - p2.y)

/-- Read `puntos[i]`. -/
def leerPunto (puntos : List Point) (i : Nat) : Point :=
  puntos.getD i ⟨0, 0⟩

/-- Body of the `for` loop of `vecinosObj`: one iteration at index `i`. -/
def vecinosPaso (puntos : List Point) (idxObj : Nat) (eps2 : ℚ)
    (vecinos : List Nat) (i : Nat) : List Nat :=
  if idxObj = i then vecinos
  else if distancia_euclidiana (leerPunto puntos idxObj) (leerPunto puntos i) ≤ eps2 then
    vecinos ++ [i]
  else vecinos

/-- Indices of the neighbours of `idxObj` within radius `eps` (compared squared). -/
def vecinosObj (puntos : List Point) (idxObj : Nat) (eps : ℚ) : List Nat :=
  let n := puntos.length
  let eps2 := eps * eps
  (List.range n).foldl (vecinosPaso puntos idxObj eps2) []

/-- Read `clusterPertenezco[i]`. -/
def leer (clusterPertenezco : List Int) (i : Nat) : Int :=
  clusterPertenezco.getD i 0

/-- Number of entries of the label array that are still negative (unvisited or noise). -/
def pendientes (clusterPertenezco : List Int) : Nat :=
  clusterPertenezco.countP (fun l => decide (l < 0))

/-- Termination measure of the `while` loops: labelling a negative entry with a cluster
id lowers the number of negative entries. -/
theorem pendientes_set_lt (cp : List Int) (v : Nat) (c : Nat) (h : leer cp v < 0) :
    pendientes (cp.set v (c : Int)) < pendientes cp := by
  induction cp generalizing v with
  | nil => simp [leer] at h
  | cons a t ih =>
    cases v with
    | zero =>
      have ha : a < 0 := by simpa [leer] using h
      have hc : ¬ ((c : Int) < 0) := by omega
      simp [pendientes, List.countP_cons, ha, hc]
    | succ v =>
      have h2 : leer t v < 0 := by simpa [leer] using h
      have := ih v h2
      simp only [pendientes, List.set_cons_succ, List.countP_cons] at this ⊢
      omega

/-- The `while (!q.empty())` loop of the serial `dbscan`: pops the head of the queue,
labels it when its label is negative and, when it is a core point (neighbours recomputed
by a live `vecinosObj` call), pushes its unvisited neighbours. -/
def Serial.expandir (puntos : List Point) (eps : ℚ) (minimoPuntos : Int) (clusterID : Nat)
    (clusterPertenezco : List Int) (q : List Nat) : List Int :=
  match q with
  | [] => clusterPertenezco
  | nodoAct :: q1 =>
    if h : leer clusterPertenezco nodoAct < 0 then
      let cp1 := clusterPertenezco.set nodoAct (clusterID : Int)
      let vecinosNodoAct := vecinosObj puntos nodoAct eps
      if (vecinosNodoAct.length : Int) + 1 ≥ minimoPuntos then
        expandir puntos eps minimoPuntos clusterID cp1
          (q1 ++ vecinosNodoAct.filter (fun v => decide (leer cp1 v = -1)))
      else
        expandir puntos eps minimoPuntos clusterID cp1 q1
    else
      expandir puntos eps minimoPuntos clusterID clusterPertenezco q1
termination_by (pendientes clusterPertenezco, q.length)
decreasing_by
  · exact Prod.Lex.left _ _ (pendientes_set_lt _ _ _ h)
  · exact Prod.Lex.left _ _ (pendientes_set_lt _ _ _ h)
  · exact Prod.Lex.right _ (by simp)

/-- Body of the outer `for` loop of the serial `dbscan` at index `i`; the state is the
label array and `clusterID`. -/
def Serial.paso (puntos : List Point) (eps : ℚ) (minimoPuntos : Int)
    (st : List Int × Nat) (i : Nat) : List Int × Nat :=
  if leer st.1 i = -1 then
    let vecinos := vecinosObj puntos i eps
    if (vecinos.length : Int) + 1 < minimoPuntos then
      (st.1.set i (-2), st.2)
    else
      (expandir puntos eps minimoPuntos st.2 (st.1.set i (st.2 : Int)) vecinos, st.2 + 1)
  else st

/-- The serial `dbscan` run to the end of the outer loop: final label array and final
value of `clusterID`. -/
def Serial.dbscanEstado (puntos : List Point) (eps : ℚ) (minimoPuntos : Int) : List Int × Nat :=
  let n := puntos.length
  (List.range n).foldl (paso puntos eps minimoPuntos) (List.replicate n (-1), 0)

/-- The serial `dbscan`: the returned label array. -/
def Serial.dbscan (puntos : List Point) (eps : ℚ) (minimoPuntos : Int) : List Int :=
  (dbscanEstado puntos eps minimoPuntos).1

/-- Number of clusters started by the outer loop (final `clusterID`). -/
def Serial.clusterCount (puntos : List Point) (eps : ℚ) (minimoPuntos : Int) : Nat :=
  (dbscanEstado puntos eps minimoPuntos).2

/-- One iteration `i` of the precompute loop (`#pragma omp parallel for`): writes
`vecinosLista[i]`, then `esCore[i] = 1` when `vecinosLista[i].size() + 1 >= minimoPuntos`,
the right-hand side converted to the unsigned 64-bit size type. -/
def Omp.precalcPaso (puntos : List Point) (eps : ℚ) (minimoPuntos : Int)
    (st : List (List Nat) × List Int) (i : Nat) : List (List Nat) × List Int :=
  let vecinosLista := st.1.set i (vecinosObj puntos i eps)
  if (((vecinosLista.getD i []).length : Int) + 1) ≥ minimoPuntos % 2 ^ 64 then
    (vecinosLista, st.2.set i 1)
  else
    (vecinosLista, st.2)

/-- The precompute loop with its iterations executed in the order `orden`, from
`vecinosLista(n, vector<int>())` and `esCore(n, 0)`. -/
def Omp.precalcular (orden : List Nat) (puntos : List Point) (eps : ℚ) (minimoPuntos : Int) :
    List (List Nat) × List Int :=
  let n := puntos.length
  orden.foldl (precalcPaso puntos eps minimoPuntos) (List.replicate n [], List.replicate n 0)

/-- The `while (!q.empty())` loop of the OpenMP `dbscan`, reading the precomputed
`vecinosLista` and `esCore`. -/
def Omp.expandir (vecinosLista : List (List Nat)) (esCore : List Int) (clusterID : Nat)
    (clusterPertenezco : List Int) (q : List Nat) : List Int :=
  match q with
  | [] => clusterPertenezco
  | nodoAct :: q1 =>
    if h : leer clusterPertenezco nodoAct < 0 then
      let cp1 := clusterPertenezco.set nodoAct (clusterID : Int)
      if esCore.getD nodoAct 0 ≠ 0 then
        expandir vecinosLista esCore clusterID cp1
          (q1 ++ (vecinosLista.getD nodoAct []).filter (fun v => decide (leer cp1 v = -1)))
      else
        expandir vecinosLista esCore clusterID cp1 q1
    else
      expandir vecinosLista esCore clusterID clusterPertenezco q1
termination_by (pendientes clusterPertenezco, q.length)
decreasing_by
  · exact Prod.Lex.left _ _ (pendientes_set_lt _ _ _ h)
  · exact Prod.Lex.left _ _ (pendientes_set_lt _ _ _ h)
  · exact Prod.Lex.right _ (by simp)

/-- Body of the second (sequential) `for` loop of the OpenMP `dbscan` at index `i`. -/
def Omp.paso (vecinosLista : List (List Nat)) (esCore : List Int)
    (st : List Int × Nat) (i : Nat) : List Int × Nat :=
  if leer st.1 i = -1 then
    if esCore.getD i 0 = 0 then
      (st.1.set i (-2), st.2)
    else
      (expandir vecinosLista esCore st.2 (st.1.set i (st.2 : Int)) (vecinosLista.getD i []),
        st.2 + 1)
  else st

/-- The OpenMP `dbscan` with the precompute iterations executed in the order `orden`:
final label array and final `clusterID`. -/
def Omp.dbscanEstadoCon (orden : List Nat) (puntos : List Point) (eps : ℚ) (minimoPuntos : Int) :
    List Int × Nat :=
  let n := puntos.length
  let pre := precalcular orden puntos eps minimoPuntos
  (List.range n).foldl (paso pre.1 pre.2) (List.replicate n (-1), 0)

/-- The OpenMP `dbscan` (precompute iterations in index order): final label array and
final `clusterID`. -/
def Omp.dbscanEstado (puntos : List Point) (eps : ℚ) (minimoPuntos : Int) : List Int × Nat :=
  dbscanEstadoCon (List.range puntos.length) puntos eps minimoPuntos

/-- The OpenMP `dbscan`: the returned label array. -/
def Omp.dbscan (puntos : List Point) (eps : ℚ) (minimoPuntos : Int) : List Int :=
  (dbscanEstado puntos eps minimoPuntos).1

/-- Number of clusters started by the sequential loop (final `clusterID`). -/
def Omp.clusterCount (puntos : List Point) (eps : ℚ) (minimoPuntos : Int) : Nat :=
  (dbscanEstado puntos eps minimoPuntos).2

/-! ### A reference engine over an abstract neighbour function

`Gen` is the loop nest of both files with the neighbour lists and the core test taken
as functions `nb` and `core`, and with the list of seeds (indices at which a cluster is
started) as state in place of the counter `clusterID`, which is its length.  Both
variants are shown to be instances of it, and the graph-theoretic facts are proved once,
for `Gen`. -/

/-- One iteration of the `while` loop: the label array and the queue after popping `v`. -/
def Gen.siguiente (nb : Nat → List Nat) (core : Nat → Bool) (cid : Nat)
    (cp : List Int) (v : Nat) (q1 : List Nat) : List Int × List Nat :=
  if leer cp v < 0 then
    if core v = true then
      (cp.set v (cid : Int),
        q1 ++ (nb v).filter (fun w => decide (leer (cp.set v (cid : Int)) w = -1)))
    else (cp.set v (cid : Int), q1)
  else (cp, q1)

/-- Termination of the `while` loop: every iteration lowers (negative entries, queue
length) in the lexicographic order. -/
theorem Gen.siguiente_decrece (nb : Nat → List Nat) (core : Nat → Bool) (cid : Nat)
    (cp : List Int) (v : Nat) (q1 : List Nat) :
    Prod.Lex (· < ·) (· < ·)
      (pendientes (siguiente nb core cid cp v q1).1, (siguiente nb core cid cp v q1).2.length)
      (pendientes cp, (v :: q1).length) := by
  unfold siguiente
  split
  · rename_i h
    split
    · exact Prod.Lex.left _ _ (pendientes_set_lt _ _ _ h)
    · exact Prod.Lex.left _ _ (pendientes_set_lt _ _ _ h)
  · exact Prod.Lex.right _ (by simp)

/-- The `while` loop. -/
def Gen.expandir (nb : Nat → List Nat) (core : Nat → Bool) (cid : Nat)
    (cp : List Int) (q : List Nat) : List Int :=
  match q with
  | [] => cp
  | v :: q1 =>
    expandir nb core cid (siguiente nb core cid cp v q1).1 (siguiente nb core cid cp v q1).2
termination_by (pendientes cp, q.length)
decreasing_by exact siguiente_decrece _ _ _ _ _ _

/-- Body of the outer loop; the state is the label array and the list of the indices
at which a cluster was started so far (`clusterID` is its length). -/
def Gen.paso (nb : Nat → List Nat) (core : Nat → Bool)
    (st : List Int × List Nat) (i : Nat) : List Int × List Nat :=
  if leer st.1 i = -1 then
    if core i = true then
      (expandir nb core st.2.length (st.1.set i (st.2.length : Int)) (nb i), st.2 ++ [i])
    else (st.1.set i (-2), st.2)
  else st

/-- State after the first `k` iterations of the outer loop on `n` points. -/
def Gen.estado (nb : Nat → List Nat) (core : Nat → Bool) (n k : Nat) : List Int × List Nat :=
  (List.range k).foldl (paso nb core) (List.replicate n (-1), [])

/-- Labels and cluster counter of a state. -/
def Gen.proy (st : List Int × List Nat) : List Int × Nat := (st.1, st.2.length)

/-- Neighbour function of the serial variant: a live `vecinosObj` call. -/
def Serial.nb (puntos : List Point) (eps : ℚ) (i : Nat) : List Nat :=
  vecinosObj puntos i eps

/-- Core test of the serial variant (signed comparison). -/
def Serial.core (puntos : List Point) (eps : ℚ) (minimoPuntos : Int) (i : Nat) : Bool :=
  decide (((vecinosObj puntos i eps).length : Int) + 1 ≥ minimoPuntos)

/-- Neighbour function of the OpenMP variant: a read of `vecinosLista`. -/
def Omp.nb (vecinosLista : List (List Nat)) (i : Nat) : List Nat :=
  vecinosLista.getD i []

/-- Core test of the OpenMP variant: a read of `esCore`. -/
def Omp.core (esCore : List Int) (i : Nat) : Bool :=
  decide (esCore.getD i 0 ≠ 0)

/-- The test of `vecinosObj` at index `i`. -/
def esVecino (puntos : List Point) (idxObj : Nat) (eps : ℚ) (i : Nat) : Bool :=
  decide (idxObj ≠ i ∧
    distancia_euclidiana (leerPunto puntos idxObj) (leerPunto puntos i) ≤ eps * eps)

/-- Link between two core points: `b` is in the neighbour list of `a`. -/
def Gen.enlace (nb : Nat → List Nat) (core : Nat → Bool) (n : Nat) (a b : Nat) : Prop :=
  a < n ∧ b < n ∧ core a = true ∧ core b = true ∧ b ∈ nb a

/-- The neighbour lists hold valid indices and the neighbour relation is symmetric. -/
def Gen.Simetrica (nb : Nat → List Nat) (n : Nat) : Prop :=
  ∀ u, u < n → ∀ v ∈ nb u, v < n ∧ u ∈ nb v

/-- Invariant of the outer loop after `k` iterations, on the labels `st.1` and the
seeds `st.2`. -/
structure Gen.Inv (nb : Nat → List Nat) (core : Nat → Bool) (n k : Nat)
    (st : List Int × List Nat) : Prop where
  largo : st.1.length = n
  visitado : ∀ v, v < k → leer st.1 v ≠ -1
  ruido : ∀ v, v < n → leer st.1 v = -2 → v < k ∧ core v = false
  rango : ∀ v, v < n → leer st.1 v = -1 ∨ leer st.1 v = -2 ∨
    (0 ≤ leer st.1 v ∧ leer st.1 v < (st.2.length : Int))
  semilla : ∀ c, c < st.2.length → st.2.getD c 0 < k ∧ st.2.getD c 0 < n ∧
    core (st.2.getD c 0) = true ∧ leer st.1 (st.2.getD c 0) = (c : Int)
  primero : ∀ u, u < n → core u = true → ∀ c, c < st.2.length →
    leer st.1 u = (c : Int) → st.2.getD c 0 ≤ u
  sinPendiente : ∀ u, u < n → core u = true → 0 ≤ leer st.1 u →
    ∀ w ∈ nb u, leer st.1 w ≠ -1
  cerrado : ∀ u v, Gen.enlace nb core n u v → 0 ≤ leer st.1 u →
    leer st.1 v = leer st.1 u
  alcanza : ∀ u, u < n → core u = true → ∀ c, c < st.2.length →
    leer st.1 u = (c : Int) → Relation.ReflTransGen (Gen.enlace nb core n) (st.2.getD c 0) u
  origen : ∀ p, p < n → 0 ≤ leer st.1 p → core p = true ∨
    ∃ u, u < n ∧ core u = true ∧ p ∈ nb u ∧ leer st.1 u = leer st.1 p
  creciente : ∀ c d, c < d → d < st.2.length → st.2.getD c 0 < st.2.getD d 0
  vecinoSemilla : ∀ c, c < st.2.length → ∀ w ∈ nb (st.2.getD c 0), 0 ≤ leer st.1 w
  vecinoMenor : ∀ u, u < k → u < n → core u = true → ∀ w ∈ nb u, u < w → 0 ≤ leer st.1 w

/-- Value of `esCore[i]` decided by iteration `i` of the precompute loop. -/
def Omp.coreVal (puntos : List Point) (eps : ℚ) (minimoPuntos : Int) (i : Nat) : Int :=
  if (((vecinosObj puntos i eps).length : Int) + 1) ≥ minimoPuntos % 2 ^ 64 then 1 else 0

/-- Core test of the OpenMP variant as a function of the index (unsigned comparison). -/
def Omp.coreDe (puntos : List Point) (eps : ℚ) (minimoPuntos : Int) (i : Nat) : Bool :=
  decide ((((vecinosObj puntos i eps).length : Int) + 1) ≥ minimoPuntos % 2 ^ 64)

/-- Body of the outer loop of the serial `dbscan` together with a record of the indices
at which it takes the branch `clusterPertenezco[i] = clusterID` (a cluster is started). -/
def Serial.pasoSemillas (puntos : List Point) (eps : ℚ) (minimoPuntos : Int)
    (st : (List Int × Nat) × List Nat) (i : Nat) : (List Int × Nat) × List Nat :=
  (Serial.paso puntos eps minimoPuntos st.1 i,
    if leer st.1.1 i = -1 ∧ ¬ (((vecinosObj puntos i eps).length : Int) + 1 < minimoPuntos)
    then st.2 ++ [i] else st.2)

/-- Seeds of the serial `dbscan`, in the order in which the clusters are started. -/
def Serial.semillas (puntos : List Point) (eps : ℚ) (minimoPuntos : Int) : List Nat :=
  ((List.range puntos.length).foldl (Serial.pasoSemillas puntos eps minimoPuntos)
    ((List.replicate puntos.length (-1), 0), [])).2

/-- Body of the sequential loop of the OpenMP `dbscan` together with a record of the
indices at which a cluster is started. -/
def Omp.pasoSemillas (vecinosLista : List (List Nat)) (esCore : List Int)
    (st : (List Int × Nat) × List Nat) (i : Nat) : (List Int × Nat) × List Nat :=
  (Omp.paso vecinosLista esCore st.1 i,
    if leer st.1.1 i = -1 ∧ ¬ (esCore.getD i 0 = 0) then st.2 ++ [i] else st.2)

/-- Seeds of the OpenMP `dbscan`, in the order in which the clusters are started. -/
def Omp.semillas (puntos : List Point) (eps : ℚ) (minimoPuntos : Int) : List Nat :=
  let pre := Omp.precalcular (List.range puntos.length) puntos eps minimoPuntos
  ((List.range puntos.length).foldl (Omp.pasoSemillas pre.1 pre.2)
    ((List.replicate puntos.length (-1), 0), [])).2

/-- The final state of the reference engine for the serial variant. -/
def Serial.final (puntos : List Point) (eps : ℚ) (minimoPuntos : Int) : List Int × List Nat :=
  Gen.estado (Serial.nb puntos eps) (Serial.core puntos eps minimoPuntos)
    puntos.length puntos.length

/-- The final state of the reference engine for the OpenMP variant. -/
def Omp.final (puntos : List Point) (eps : ℚ) (minimoPuntos : Int) : List Int × List Nat :=
  Gen.estado (Serial.nb puntos eps) (Omp.coreDe puntos eps minimoPuntos)
    puntos.length puntos.length

/-- Link of the eps-neighbour graph on core points (core test of the claims:
`|N(i)| + 1 ≥ minimoPuntos`): `a` and `b` are core points and `b` is in `N(a)`. -/
def enlaceNucleo (puntos : List Point) (eps : ℚ) (minimoPuntos : Int) (a b : Nat) : Prop :=
  a < puntos.length ∧ b < puntos.length ∧ Serial.core puntos eps minimoPuntos a = true ∧
    Serial.core puntos eps minimoPuntos b = true ∧ b ∈ vecinosObj puntos a eps

/-- Four points on the x-axis at 0, 2, 1, 3 (in index order). -/
def puntosBorde : List Point := [⟨0, 0⟩, ⟨2, 0⟩, ⟨1, 0⟩, ⟨3, 0⟩]

/-- The scenario of the spec: three points close together and an isolated one. -/
def puntosEscenario : List Point := [⟨0, 0⟩, ⟨1 / 100, 0⟩, ⟨2 / 100, 0⟩, ⟨5, 5⟩]

/-- C4 as stated, for a label array `out`: every non-core point with a core point in its
eps-neighbourhood has a label other than Noise. -/
def bordeAsignado (puntos : List Point) (eps : ℚ) (minimoPuntos : Int)
    (out : List Int) : Prop :=
  ∀ p, p < puntos.length → Serial.core puntos eps minimoPuntos p = false →
    (∃ u, u ∈ vecinosObj puntos p eps ∧ Serial.core puntos eps minimoPuntos u = true) →
    leer out p ≠ -2

/-- C4 as amended, for a label array `out` and the list `ss` of seeds: a non-core point
with a core eps-neighbour that has a lower index or is a seed gets a cluster id, the id of
one of its core eps-neighbours; a Noise point is non-core and none of its core
eps-neighbours has a lower index or is a seed. -/
def bordeAsignadoSi (puntos : List Point) (eps : ℚ) (minimoPuntos : Int)
    (out : List Int) (ss : List Nat) : Prop :=
  (∀ p u, p < puntos.length → Serial.core puntos eps minimoPuntos p = false →
    u ∈ vecinosObj puntos p eps → Serial.core puntos eps minimoPuntos u = true →
    (u < p ∨ u ∈ ss) →
    0 ≤ leer out p ∧ ∃ w, w ∈ vecinosObj puntos p eps ∧
      Serial.core puntos eps minimoPuntos w = true ∧ leer out w = leer out p) ∧
  (∀ p, p < puntos.length → leer out p = -2 →
    Serial.core puntos eps minimoPuntos p = false ∧
    ∀ u ∈ vecinosObj puntos p eps, Serial.core puntos eps minimoPuntos u = true →
      ¬ (u < p) ∧ u ∉ ss)

/-- C6 for a label array `out` and the list `ss` of seeds: the seed of cluster `c` is the
lowest-index core point labelled `c`, seeds increase with the id, and before a core point
labelled `c` every smaller id already labels a core point. -/
def semillasEnOrden (puntos : List Point) (eps : ℚ) (minimoPuntos : Int)
    (out : List Int) (ss : List Nat) : Prop :=
  (∀ c, c < ss.length →
    ss.getD c 0 < puntos.length ∧ Serial.core puntos eps minimoPuntos (ss.getD c 0) = true ∧
    leer out (ss.getD c 0) = (c : Int) ∧
    ∀ u, u < puntos.length → Serial.core puntos eps minimoPuntos u = true →
      leer out u = (c : Int) → ss.getD c 0 ≤ u) ∧
  (∀ c d, c < d → d < ss.length → ss.getD c 0 < ss.getD d 0) ∧
  (∀ u (c d : Nat), u < puntos.length → Serial.core puntos eps minimoPuntos u = true →
    leer out u = (c : Int) → d < c →
    ∃ w, w < u ∧ Serial.core puntos eps minimoPuntos w = true ∧ leer out w = (d : Int))

/-- Six points on the x-axis at 0, 10, 10.5, 11, 1, 2 (in index order). -/
def puntosOrden : List Point := [⟨0, 0⟩, ⟨10, 0⟩, ⟨21 / 2, 0⟩, ⟨11, 0⟩, ⟨1, 0⟩, ⟨2, 0⟩]

/-- Allowed change of one label between two moments of a run: none, Unvisited to Noise,
Unvisited to a cluster id, Noise to a cluster id. -/
def transicionValida (a b : Int) : Prop :=
  a = b ∨ (a = -1 ∧ b = -2) ∨ (a = -1 ∧ 0 ≤ b) ∨ (a = -2 ∧ 0 ≤ b)

/-- State (label array, `clusterID`) of the serial `dbscan` after the first `k` iterations
of the outer loop. -/
def Serial.estadoTras (puntos : List Point) (eps : ℚ) (minimoPuntos : Int) (k : Nat) :
    List Int × Nat :=
  (List.range k).foldl (Serial.paso puntos eps minimoPuntos)
    (List.replicate puntos.length (-1), 0)

/-- State (label array, `clusterID`) of the OpenMP `dbscan` after the precompute loop and
the first `k` iterations of the sequential loop. -/
def Omp.estadoTras (puntos : List Point) (eps : ℚ) (minimoPuntos : Int) (k : Nat) :
    List Int × Nat :=
  let pre := Omp.precalcular (List.range puntos.length) puntos eps minimoPuntos
  (List.range k).foldl (Omp.paso pre.1 pre.2) (List.replicate puntos.length (-1), 0)

/-! ### Checked runs: explicit bounds checks and an iteration budget

The functions below are the same loops with every array access checked (`v[i]?`) and with
a budget `fuel` of iterations for each `while` loop.  They return `sinFuel` when a `while`
loop needs more than `fuel` iterations, and `fueraDeRango` when an index outside its array
is accessed; an access to the front of the queue happens only in the branch where the
queue is not empty. -/

/-- Why a checked run stops without a result: the iteration budget of a `while` loop ran
out, or an index outside its array was accessed. -/
inductive Fallo where
  | sinFuel : Fallo
  | fueraDeRango : Fallo
  deriving DecidableEq, Repr

/-- Body of the `for` loop of `vecinosObj` with the reads `puntos[idxObj]` and `puntos[i]`
checked. -/
def vecinosPasoOk (puntos : List Point) (idxObj : Nat) (eps2 : ℚ)
    (acc : Except Fallo (List Nat)) (i : Nat) : Except Fallo (List Nat) :=
  match acc with
  | .error e => .error e
  | .ok vecinos =>
    if idxObj = i then .ok vecinos
    else
      match puntos[idxObj]?, puntos[i]? with
      | some p1, some p2 =>
        if distancia_euclidiana p1 p2 ≤ eps2 then .ok (vecinos ++ [i]) else .ok vecinos
      | _, _ => .error Fallo.fueraDeRango

/-- Checked `vecinosObj`. -/
def vecinosObjOk (puntos : List Point) (idxObj : Nat) (eps : ℚ) : Except Fallo (List Nat) :=
  let n := puntos.length
  let eps2 := eps * eps
  (List.range n).foldl (vecinosPasoOk puntos idxObj eps2) (.ok [])

/-- Sum of the lengths of the `n` neighbour lists. -/
def sumaVecinos (puntos : List Point) (eps : ℚ) : Nat :=
  ((List.range puntos.length).map (fun v => (vecinosObj puntos v eps).length)).sum

/-- Checked `while` loop of the serial `dbscan` with a budget of `fuel` iterations. -/
def Serial.expandirN (puntos : List Point) (eps : ℚ) (minimoPuntos : Int) (clusterID : Nat) :
    Nat → List Int → List Nat → Except Fallo (List Int)
  | _, clusterPertenezco, [] => .ok clusterPertenezco
  | 0, _, _ :: _ => .error Fallo.sinFuel
  | fuel + 1, clusterPertenezco, nodoAct :: q1 =>
    match clusterPertenezco[nodoAct]? with
    | none => .error Fallo.fueraDeRango
    | some l =>
      if l < 0 then
        let cp1 := clusterPertenezco.set nodoAct (clusterID : Int)
        match vecinosObjOk puntos nodoAct eps with
        | .error e => .error e
        | .ok vecinosNodoAct =>
          if (vecinosNodoAct.length : Int) + 1 ≥ minimoPuntos then
            if vecinosNodoAct.all (fun v => decide (v < cp1.length)) then
              Serial.expandirN puntos eps minimoPuntos clusterID fuel cp1
                (q1 ++ vecinosNodoAct.filter (fun v => decide (leer cp1 v = -1)))
            else .error Fallo.fueraDeRango
          else
            Serial.expandirN puntos eps minimoPuntos clusterID fuel cp1 q1
      else
        Serial.expandirN puntos eps minimoPuntos clusterID fuel clusterPertenezco q1

/-- Checked body of the outer loop of the serial `dbscan`. -/
def Serial.pasoOk (puntos : List Point) (eps : ℚ) (minimoPuntos : Int) (fuel : Nat)
    (st : List Int × Nat) (i : Nat) : Except Fallo (List Int × Nat) :=
  match st.1[i]? with
  | none => .error Fallo.fueraDeRango
  | some l =>
    if l = -1 then
      match vecinosObjOk puntos i eps with
      | .error e => .error e
      | .ok vecinos =>
        if (vecinos.length : Int) + 1 < minimoPuntos then
          .ok (st.1.set i (-2), st.2)
        else
          match Serial.expandirN puntos eps minimoPuntos st.2 fuel
              (st.1.set i (st.2 : Int)) vecinos with
          | .error e => .error e
          | .ok cp => .ok (cp, st.2 + 1)
    else .ok st

/-- Checked outer loop of the serial `dbscan` over the indices of `l`. -/
def Serial.bucleOk (puntos : List Point) (eps : ℚ) (minimoPuntos : Int) (fuel : Nat) :
    List Nat → List Int × Nat → Except Fallo (List Int × Nat)
  | [], st => .ok st
  | i :: t, st =>
    match Serial.pasoOk puntos eps minimoPuntos fuel st i with
    | .error e => .error e
    | .ok st1 => Serial.bucleOk puntos eps minimoPuntos fuel t st1

/-- Checked serial `dbscan`; every `while` loop may run `fuel` iterations. -/
def Serial.dbscanOk (puntos : List Point) (eps : ℚ) (minimoPuntos : Int) (fuel : Nat) :
    Except Fallo (List Int) :=
  let n := puntos.length
  match Serial.bucleOk puntos eps minimoPuntos fuel (List.range n)
      (List.replicate n (-1), 0) with
  | .error e => .error e
  | .ok st => .ok st.1

/-- Checked iteration `i` of the precompute loop of the OpenMP `dbscan`. -/
def Omp.precalcPasoOk (puntos : List Point) (eps : ℚ) (minimoPuntos : Int)
    (st : List (List Nat) × List Int) (i : Nat) : Except Fallo (List (List Nat) × List Int) :=
  if i < st.1.length then
    match vecinosObjOk puntos i eps with
    | .error e => .error e
    | .ok vecinos =>
      let vecinosLista := st.1.set i vecinos
      if ((vecinos.length : Int) + 1) ≥ minimoPuntos % 2 ^ 64 then
        if i < st.2.length then .ok (vecinosLista, st.2.set i 1)
        else .error Fallo.fueraDeRango
      else .ok (vecinosLista, st.2)
  else .error Fallo.fueraDeRango

/-- Checked precompute loop over the indices of `l`. -/
def Omp.precalcularOk (puntos : List Point) (eps : ℚ) (minimoPuntos : Int) :
    List Nat → List (List Nat) × List Int → Except Fallo (List (List Nat) × List Int)
  | [], st => .ok st
  | i :: t, st =>
    match Omp.precalcPasoOk puntos eps minimoPuntos st i with
    | .error e => .error e
    | .ok st1 => Omp.precalcularOk puntos eps minimoPuntos t st1

/-- Checked `while` loop of the OpenMP `dbscan` with a budget of `fuel` iterations. -/
def Omp.expandirN (vecinosLista : List (List Nat)) (esCore : List Int) (clusterID : Nat) :
    Nat → List Int → List Nat → Except Fallo (List Int)
  | _, clusterPertenezco, [] => .ok clusterPertenezco
  | 0, _, _ :: _ => .error Fallo.sinFuel
  | fuel + 1, clusterPertenezco, nodoAct :: q1 =>
    match clusterPertenezco[nodoAct]? with
    | none => .error Fallo.fueraDeRango
    | some l =>
      if l < 0 then
        let cp1 := clusterPertenezco.set nodoAct (clusterID : Int)
        match esCore[nodoAct]? with
        | none => .error Fallo.fueraDeRango
        | some c =>
          if c ≠ 0 then
            match vecinosLista[nodoAct]? with
            | none => .error Fallo.fueraDeRango
            | some vecinos =>
              if vecinos.all (fun v => decide (v < cp1.length)) then
                Omp.expandirN vecinosLista esCore clusterID fuel cp1
                  (q1 ++ vecinos.filter (fun v => decide (leer cp1 v = -1)))
              else .error Fallo.fueraDeRango
          else
            Omp.expandirN vecinosLista esCore clusterID fuel cp1 q1
      else
        Omp.expandirN vecinosLista esCore clusterID fuel clusterPertenezco q1

/-- Checked body of the sequential loop of the OpenMP `dbscan`. -/
def Omp.pasoOk (vecinosLista : List (List Nat)) (esCore : List Int) (fuel : Nat)
    (st : List Int × Nat) (i : Nat) : Except Fallo (List Int × Nat) :=
  match st.1[i]? with
  | none => .error Fallo.fueraDeRango
  | some l =>
    if l = -1 then
      match esCore[i]? with
      | none => .error Fallo.fueraDeRango
      | some c =>
        if c = 0 then .ok (st.1.set i (-2), st.2)
        else
          match vecinosLista[i]? with
          | none => .error Fallo.fueraDeRango
          | some vecinos =>
            match Omp.expandirN vecinosLista esCore st.2 fuel
                (st.1.set i (st.2 : Int)) vecinos with
            | .error e => .error e
            | .ok cp => .ok (cp, st.2 + 1)
    else .ok st

/-- Checked sequential loop of the OpenMP `dbscan` over the indices of `l`. -/
def Omp.bucleOk (vecinosLista : List (List Nat)) (esCore : List Int) (fuel : Nat) :
    List Nat → List Int × Nat → Except Fallo (List Int × Nat)
  | [], st => .ok st
  | i :: t, st =>
    match Omp.pasoOk vecinosLista esCore fuel st i with
    | .error e => .error e
    | .ok st1 => Omp.bucleOk vecinosLista esCore fuel t st1

/-- Checked OpenMP `dbscan`; every `while` loop may run `fuel` iterations. -/
def Omp.dbscanOk (puntos : List Point) (eps : ℚ) (minimoPuntos : Int) (fuel : Nat) :
    Except Fallo (List Int) :=
  let n := puntos.length
  match Omp.precalcularOk puntos eps minimoPuntos (List.range n)
      (List.replicate n [], List.replicate n 0) with
  | .error e => .error e
  | .ok pre =>
    match Omp.bucleOk pre.1 pre.2 fuel (List.range n) (List.replicate n (-1), 0) with
    | .error e => .error e
    | .ok st => .ok st.1

/-- Checked `while` loop of the reference engine with a budget of `fuel` iterations;
`f v` is the checked computation of the neighbour list of `v` when `v` is a core point
(`none` when it is not). -/
def Gen.expandirN (f : Nat → Except Fallo (Option (List Nat))) (cid : Nat) :
    Nat → List Int → List Nat → Except Fallo (List Int)
  | _, cp, [] => .ok cp
  | 0, _, _ :: _ => .error Fallo.sinFuel
  | fuel + 1, cp, v :: q1 =>
    match cp[v]? with
    | none => .error Fallo.fueraDeRango
    | some l =>
      if l < 0 then
        match f v with
        | .error e => .error e
        | .ok none => Gen.expandirN f cid fuel (cp.set v (cid : Int)) q1
        | .ok (some vec) =>
          if vec.all (fun w => decide (w < (cp.set v (cid : Int)).length)) then
            Gen.expandirN f cid fuel (cp.set v (cid : Int))
              (q1 ++ vec.filter (fun w => decide (leer (cp.set v (cid : Int)) w = -1)))
          else .error Fallo.fueraDeRango
      else Gen.expandirN f cid fuel cp q1

/-- Checked body of the outer loop of the reference engine. -/
def Gen.pasoOk (f : Nat → Except Fallo (Option (List Nat))) (fuel : Nat)
    (st : List Int × List Nat) (i : Nat) : Except Fallo (List Int × List Nat) :=
  match st.1[i]? with
  | none => .error Fallo.fueraDeRango
  | some l =>
    if l = -1 then
      match f i with
      | .error e => .error e
      | .ok none => .ok (st.1.set i (-2), st.2)
      | .ok (some vec) =>
        match Gen.expandirN f st.2.length fuel (st.1.set i (st.2.length : Int)) vec with
        | .error e => .error e
        | .ok cp => .ok (cp, st.2 ++ [i])
    else .ok st

/-- Checked outer loop of the reference engine over the indices of `l`. -/
def Gen.bucleOk (f : Nat → Except Fallo (Option (List Nat))) (fuel : Nat) :
    List Nat → List Int × List Nat → Except Fallo (List Int × List Nat)
  | [], st => .ok st
  | i :: t, st =>
    match Gen.pasoOk f fuel st i with
    | .error e => .error e
    | .ok st1 => Gen.bucleOk f fuel t st1

/-- Pushes still possible in an expansion: sum of the lengths of the neighbour lists of
the core points whose label is negative. -/
def Gen.potencial (nb : Nat → List Nat) (core : Nat → Bool) (cp : List Int) : Nat :=
  Finset.sum (Finset.range cp.length)
    (fun v => if leer cp v < 0 ∧ core v = true then (nb v).length else 0)

/-- Checked neighbour list of `v` in the serial variant, when `v` is a core point. -/
def Serial.vecinosSi (puntos : List Point) (eps : ℚ) (minimoPuntos : Int) (v : Nat) :
    Except Fallo (Option (List Nat)) :=
  match vecinosObjOk puntos v eps with
  | .error e => .error e
  | .ok vecinos => if (vecinos.length : Int) + 1 ≥ minimoPuntos then .ok (some vecinos) else .ok none

/-- Checked neighbour list of `v` in the OpenMP variant, when `esCore[v]` is set. -/
def Omp.vecinosSi (vecinosLista : List (List Nat)) (esCore : List Int) (v : Nat) :
    Except Fallo (Option (List Nat)) :=
  match esCore[v]? with
  | none => .error Fallo.fueraDeRango
  | some c =>
    if c ≠ 0 then
      match vecinosLista[v]? with
      | none => .error Fallo.fueraDeRango
      | some vecinos => .ok (some vecinos)
    else .ok none

/-! ### The neighbour query in IEEE 754 binary64 arithmetic

The same source functions `distancia_euclidiana` and `vecinosObj`, with `double` embedded
as binary64 values and each `-`, `*`, `+` rounded to nearest, ties to even. -/

/-- A `double`: a finite value (held as the rational it denotes), an infinity with its
sign, or a NaN. -/
inductive Doble where
  | fin (x : ℚ) : Doble
  | inf (negativo : Bool) : Doble
  | nan : Doble
  deriving DecidableEq, Repr

/-- Number of binary digits of `n` (fuel `n` always suffices). -/
def numBits : Nat → Nat → Nat
  | 0, _ => 0
  | fuel + 1, n => if n = 0 then 0 else numBits fuel (n / 2) + 1

/-- Floor of the base-2 logarithm of a positive `n`. -/
def log2Piso (n : Nat) : Nat := numBits n n - 1

/-- Round the positive rational `p / q` to the nearest binary64 value, ties to even.
`e` is the binary exponent of `p / q` (`2^e ≤ p / q < 2^(e+1)`), `2^t` the spacing of
binary64 values there (53-bit significand, least exponent -1022, so subnormals have
spacing `2^-1074`), `m` the rounded multiple of `2^t`.  A rounded value of `2^1024` or
more overflows (`none`). -/
def redondearPos (p q : Nat) : Option ℚ :=
  let k : Int := (log2Piso p : Int) - (log2Piso q : Int)
  let e : Int := if q * 2 ^ k.toNat ≤ p * 2 ^ (-k).toNat then k else k - 1
  let t : Int := max e (-1022) - 52
  let num : Nat := p * 2 ^ (-t).toNat
  let den : Nat := q * 2 ^ t.toNat
  let m0 : Nat := num / den
  let r : Nat := num % den
  let m : Nat :=
    if 2 * r < den then m0
    else if den < 2 * r then m0 + 1
    else if m0 % 2 = 0 then m0 else m0 + 1
  let valor : ℚ := ((m * 2 ^ t.toNat : Nat) : ℚ) / ((2 ^ (-t).toNat : Nat) : ℚ)
  if (2 : ℚ) ^ 1024 ≤ valor then none else some valor

/-- Round a rational to binary64: round to nearest, ties to even, overflow to the
infinity of the same sign. -/
def redondear (x : ℚ) : Doble :=
  if x = 0 then Doble.fin 0
  else
    match redondearPos x.num.natAbs x.den with
    | none => Doble.inf (decide (x < 0))
    | some v => Doble.fin (if x < 0 then -v else v)

/-- Unary minus. -/
def Doble.neg : Doble → Doble
  | Doble.fin x => Doble.fin (-x)
  | Doble.inf s => Doble.inf (!s)
  | Doble.nan => Doble.nan

/-- The operator `+` of `double`. -/
def Doble.suma : Doble → Doble → Doble
  | Doble.nan, _ => Doble.nan
  | _, Doble.nan => Doble.nan
  | Doble.inf s, Doble.inf t => if s = t then Doble.inf s else Doble.nan
  | Doble.inf s, Doble.fin _ => Doble.inf s
  | Doble.fin _, Doble.inf t => Doble.inf t
  | Doble.fin a, Doble.fin b => redondear (a + b)

/-- The operator `-` of `double`. -/
def Doble.resta (a b : Doble) : Doble := Doble.suma a (Doble.neg b)

/-- The operator `*` of `double`. -/
def Doble.mult : Doble → Doble → Doble
  | Doble.nan, _ => Doble.nan
  | _, Doble.nan => Doble.nan
  | Doble.inf s, Doble.inf t => Doble.inf (s != t)
  | Doble.inf s, Doble.fin b => if b = 0 then Doble.nan else Doble.inf (s != decide (b < 0))
  | Doble.fin a, Doble.inf t => if a = 0 then Doble.nan else Doble.inf (decide (a < 0) != t)
  | Doble.fin a, Doble.fin b => redondear (a * b)

/-- The operator `<=` of `double` (false when an operand is NaN). -/
def Doble.le : Doble → Doble → Bool
  | Doble.nan, _ => false
  | _, Doble.nan => false
  | Doble.inf s, Doble.inf t => s || !t
  | Doble.inf s, Doble.fin _ => s
  | Doble.fin _, Doble.inf t => !t
  | Doble.fin a, Doble.fin b => decide (a ≤ b)

/-- The operator `<` of `double`, for the hypothesis `0 < eps`. -/
def Doble.lt (a b : Doble) : Bool := Doble.le a b && !Doble.le b a

/-- A value a `double` can hold: rounding leaves it unchanged. -/
def Doble.representable : Doble → Bool
  | Doble.fin x => decide (redondear x = Doble.fin x)
  | Doble.inf _ => true
  | Doble.nan => true

/-- A 2D point (`struct Point`) with `double` coordinates. -/
structure Point64 where
  x : Doble
  y : Doble
  deriving DecidableEq, Repr

/-- Both coordinates are values a `double` can hold. -/
def Point64.representable (p : Point64) : Bool :=
  p.x.representable && p.y.representable

/-- Squared euclidean distance between two points, as the source computes it: two
subtractions, two products and one sum, each rounded. -/
def distancia_euclidiana64 (p1 p2 : Point64) : Doble :=
  Doble.suma (Doble.mult (Doble.resta p1.x p2.x) (Doble.resta p1.x p2.x))
    (Doble.mult (Doble.resta p1.y p2.y) (Doble.resta p1.y p2.y))

/-- Read `puntos[i]`. -/
def leerPunto64 (puntos : List Point64) (i : Nat) : Point64 :=
  puntos.getD i ⟨Doble.fin 0, Doble.fin 0⟩

/-- Body of the `for` loop of `vecinosObj`: one iteration at index `i`. -/
def vecinosPaso64 (puntos : List Point64) (idxObj : Nat) (eps2 : Doble)
    (vecinos : List Nat) (i : Nat) : List Nat :=
  if idxObj = i then vecinos
  else if Doble.le (distancia_euclidiana64 (leerPunto64 puntos idxObj) (leerPunto64 puntos i))
      eps2 = true then
    vecinos ++ [i]
  else vecinos

/-- Indices of the neighbours of `idxObj` within radius `eps` (compared squared, with
`eps2 = eps * eps` rounded). -/
def vecinosObj64 (puntos : List Point64) (idxObj : Nat) (eps : Doble) : List Nat :=
  let n := puntos.length
  let eps2 := Doble.mult eps eps
  (List.range n).foldl (vecinosPaso64 puntos idxObj eps2) []

/-- The test of one loop iteration of `vecinosObj` as a predicate on the index. -/
def esVecino64 (puntos : List Point64) (idxObj : Nat) (eps : Doble) (i : Nat) : Bool :=
  decide (idxObj ≠ i) &&
    Doble.le (distancia_euclidiana64 (leerPunto64 puntos idxObj) (leerPunto64 puntos i))
      (Doble.mult eps eps)

/-- A value that is NaN, plus infinity, or finite and not negative. -/
def Doble.noNegativo (d : Doble) : Prop :=
  d = Doble.nan ∨ d = Doble.inf false ∨ ∃ x : ℚ, 0 ≤ x ∧ d = Doble.fin x

/-- The real number a finite `double` denotes (0 for an infinity or a NaN). -/
def Doble.exacto : Doble → ℚ
  | Doble.fin x => x
  | Doble.inf _ => 0
  | Doble.nan => 0

/-- The squared distance of the specification, `(x1 - x2)^2 + (y1 - y2)^2` over the
reals, without rounding. -/
def distanciaExacta (p1 p2 : Point64) : ℚ :=
  (p1.x.exacto - p2.x.exacto) ^ 2 + (p1.y.exacto - p2.y.exacto) ^ 2

/-- The result the specification describes for `vecinosObj`: the indices `j ≠ q` with
`(xq - xj)^2 + (yq - yj)^2 <= eps^2` over the reals, in increasing order. -/
def vecinosExactos (puntos : List Point64) (q : Nat) (eps : Doble) : List Nat :=
  (List.range puntos.length).filter (fun j =>
    decide (j ≠ q) &&
      decide (distanciaExacta (leerPunto64 puntos q) (leerPunto64 puntos j) ≤ eps.exacto ^ 2))

/-- The points (0,0) and (1, 2^-27): exact squared distance 1 + 2^-54. -/
def puntosCasi : List Point64 :=
  [⟨Doble.fin 0, Doble.fin 0⟩, ⟨Doble.fin 1, Doble.fin (1 / 2 ^ 27)⟩]

/-- The points (0,0) and (2^-600, 0): the square of the difference underflows. -/
def puntosDiminutos : List Point64 :=
  [⟨Doble.fin 0, Doble.fin 0⟩, ⟨Doble.fin (1 / 2 ^ 600), Doble.fin 0⟩]

/-- The points (0,0), (3,4), (6,8): distances 5 and 10 from the first. -/
def puntosTerna : List Point64 :=
  [⟨Doble.fin 0, Doble.fin 0⟩, ⟨Doble.fin 3, Doble.fin 4⟩, ⟨Doble.fin 6, Doble.fin 8⟩]

/-- Two points with the same coordinates. -/
def puntosIguales64 : List Point64 :=
  [⟨Doble.fin 0, Doble.fin 0⟩, ⟨Doble.fin 0, Doble.fin 0⟩]

/-! ## Lemmas -/

theorem Gen.expandir_nil (nb : Nat → List Nat) (core : Nat → Bool) (cid : Nat)
    (cp : List Int) : Gen.expandir nb core cid cp [] = cp := by
  rw [Gen.expandir]

theorem Gen.expandir_cons (nb : Nat → List Nat) (core : Nat → Bool) (cid : Nat)
    (cp : List Int) (v : Nat) (q1 : List Nat) :
    Gen.expandir nb core cid cp (v :: q1) =
      Gen.expandir nb core cid (Gen.siguiente nb core cid cp v q1).1
        (Gen.siguiente nb core cid cp v q1).2 := by
  rw [Gen.expandir]

/-- Invariant rule for the `while` loop: a property of (labels, queue) kept by every
iteration holds, with the empty queue, when the loop exits. -/
theorem Gen.expandir_inv (nb : Nat → List Nat) (core : Nat → Bool) (cid : Nat)
    (P : List Int → List Nat → Prop)
    (hstep : ∀ cp v q1, P cp (v :: q1) →
      P (Gen.siguiente nb core cid cp v q1).1 (Gen.siguiente nb core cid cp v q1).2)
    (cp : List Int) (q : List Nat) (h0 : P cp q) :
    P (Gen.expandir nb core cid cp q) [] := by
  induction cp, q using Gen.expandir.induct nb core cid with
  | case1 cp => rw [Gen.expandir_nil]; exact h0
  | case2 cp v q1 ih => rw [Gen.expandir_cons]; exact ih (hstep cp v q1 h0)

theorem Serial.serial_expandir_eq_gen (puntos : List Point) (eps : ℚ) (minimoPuntos : Int)
    (cid : Nat) (cp : List Int) (q : List Nat) :
    Serial.expandir puntos eps minimoPuntos cid cp q =
      Gen.expandir (Serial.nb puntos eps) (Serial.core puntos eps minimoPuntos) cid cp q := by
  induction cp, q using Gen.expandir.induct (Serial.nb puntos eps)
    (Serial.core puntos eps minimoPuntos) cid with
  | case1 cp => rw [Gen.expandir_nil, Serial.expandir]
  | case2 cp v q1 ih =>
    rw [Gen.expandir_cons, Serial.expandir, ← ih]
    unfold Gen.siguiente
    by_cases h : leer cp v < 0
    · by_cases hc : ((vecinosObj puntos v eps).length : Int) + 1 ≥ minimoPuntos
      · simp [h, hc, Serial.core, Serial.nb]
      · simp [h, hc, Serial.core]
    · simp [h]

theorem Omp.omp_expandir_eq_gen (vecinosLista : List (List Nat)) (esCore : List Int)
    (cid : Nat) (cp : List Int) (q : List Nat) :
    Omp.expandir vecinosLista esCore cid cp q =
      Gen.expandir (Omp.nb vecinosLista) (Omp.core esCore) cid cp q := by
  induction cp, q using Gen.expandir.induct (Omp.nb vecinosLista) (Omp.core esCore) cid with
  | case1 cp => rw [Gen.expandir_nil, Omp.expandir]
  | case2 cp v q1 ih =>
    rw [Gen.expandir_cons, Omp.expandir, ← ih]
    unfold Gen.siguiente
    by_cases h : leer cp v < 0
    · by_cases hc : esCore.getD v 0 = 0
      · have hc2 := hc
        simp only [List.getD_eq_getElem?_getD] at hc2
        simp [h, hc2, Omp.core]
      · have hc2 := hc
        simp only [List.getD_eq_getElem?_getD] at hc2
        simp [h, hc2, Omp.core, Omp.nb]
    · simp [h]

theorem Serial.serial_paso_eq_gen (puntos : List Point) (eps : ℚ) (minimoPuntos : Int)
    (g : List Int × List Nat) (i : Nat) :
    Serial.paso puntos eps minimoPuntos (Gen.proy g) i =
      Gen.proy (Gen.paso (Serial.nb puntos eps) (Serial.core puntos eps minimoPuntos) g i) := by
  unfold Serial.paso Gen.paso Gen.proy
  by_cases h : leer g.1 i = -1
  · by_cases hc : ((vecinosObj puntos i eps).length : Int) + 1 < minimoPuntos
    · have : ¬ (minimoPuntos ≤ ((vecinosObj puntos i eps).length : Int) + 1) := by omega
      simp [h, hc, Serial.core, this]
    · have : minimoPuntos ≤ ((vecinosObj puntos i eps).length : Int) + 1 := by omega
      simp [h, hc, Serial.core, this, Serial.serial_expandir_eq_gen, Serial.nb]
  · simp [h]

theorem Omp.omp_paso_eq_gen (vecinosLista : List (List Nat)) (esCore : List Int)
    (g : List Int × List Nat) (i : Nat) :
    Omp.paso vecinosLista esCore (Gen.proy g) i =
      Gen.proy (Gen.paso (Omp.nb vecinosLista) (Omp.core esCore) g i) := by
  unfold Omp.paso Gen.paso Gen.proy
  by_cases h : leer g.1 i = -1
  · by_cases hc : esCore.getD i 0 = 0
    · have hc2 := hc
      simp only [List.getD_eq_getElem?_getD] at hc2
      simp [h, hc2, Omp.core]
    · have hc2 := hc
      simp only [List.getD_eq_getElem?_getD] at hc2
      simp [h, hc2, Omp.core, Omp.omp_expandir_eq_gen, Omp.nb]
  · simp [h]

theorem Serial.serial_foldl_eq_gen (puntos : List Point) (eps : ℚ) (minimoPuntos : Int)
    (l : List Nat) (g : List Int × List Nat) :
    l.foldl (Serial.paso puntos eps minimoPuntos) (Gen.proy g) =
      Gen.proy (l.foldl (Gen.paso (Serial.nb puntos eps)
        (Serial.core puntos eps minimoPuntos)) g) := by
  induction l generalizing g with
  | nil => rfl
  | cons a t ih => rw [List.foldl_cons, List.foldl_cons, Serial.serial_paso_eq_gen, ih]

theorem Omp.omp_foldl_eq_gen (vecinosLista : List (List Nat)) (esCore : List Int)
    (l : List Nat) (g : List Int × List Nat) :
    l.foldl (Omp.paso vecinosLista esCore) (Gen.proy g) =
      Gen.proy (l.foldl (Gen.paso (Omp.nb vecinosLista) (Omp.core esCore)) g) := by
  induction l generalizing g with
  | nil => rfl
  | cons a t ih => rw [List.foldl_cons, List.foldl_cons, Omp.omp_paso_eq_gen, ih]

theorem Serial.serial_dbscanEstado_eq_gen (puntos : List Point) (eps : ℚ) (minimoPuntos : Int) :
    Serial.dbscanEstado puntos eps minimoPuntos =
      Gen.proy (Gen.estado (Serial.nb puntos eps) (Serial.core puntos eps minimoPuntos)
        puntos.length puntos.length) := by
  unfold Serial.dbscanEstado Gen.estado
  exact Serial.serial_foldl_eq_gen puntos eps minimoPuntos _ (List.replicate puntos.length (-1), [])

theorem Omp.dbscanEstadoCon_eq_gen (orden : List Nat) (puntos : List Point) (eps : ℚ)
    (minimoPuntos : Int) :
    Omp.dbscanEstadoCon orden puntos eps minimoPuntos =
      Gen.proy (Gen.estado (Omp.nb (Omp.precalcular orden puntos eps minimoPuntos).1)
        (Omp.core (Omp.precalcular orden puntos eps minimoPuntos).2)
        puntos.length puntos.length) := by
  unfold Omp.dbscanEstadoCon Gen.estado
  exact Omp.omp_foldl_eq_gen _ _ _ (List.replicate puntos.length (-1), [])

/-! ## Basic facts on reads and writes of the label array -/

theorem leer_lt_of_ne_zero (cp : List Int) (v : Nat) (h : leer cp v ≠ 0) : v < cp.length := by
  by_contra hv
  apply h
  have hle : cp.length ≤ v := Nat.le_of_not_lt hv
  simp [leer, List.getD_eq_getElem?_getD, List.getElem?_eq_none hle]

theorem leer_lt_of_neg (cp : List Int) (v : Nat) (h : leer cp v < 0) : v < cp.length :=
  leer_lt_of_ne_zero cp v (by omega)

theorem leer_set_eq (cp : List Int) (v : Nat) (x : Int) (h : v < cp.length) :
    leer (cp.set v x) v = x := by
  simp [leer, List.getD_eq_getElem?_getD, List.getElem?_set, h]

theorem leer_set_ne (cp : List Int) (u v : Nat) (x : Int) (h : v ≠ u) :
    leer (cp.set v x) u = leer cp u := by
  simp [leer, List.getD_eq_getElem?_getD, List.getElem?_set, h]

theorem leer_replicate (n v : Nat) (x : Int) (h : v < n) :
    leer (List.replicate n x) v = x := by
  simp [leer, List.getD_eq_getElem?_getD, List.getElem?_replicate, h]

theorem leer_mem (cp : List Int) (v : Nat) (h : v < cp.length) : leer cp v ∈ cp := by
  have : leer cp v = cp[v] := by
    simp [leer, List.getD_eq_getElem?_getD, List.getElem?_eq_getElem h]
  rw [this]
  exact List.getElem_mem h

theorem mem_leer (cp : List Int) (l : Int) (h : l ∈ cp) : ∃ v, v < cp.length ∧ leer cp v = l := by
  obtain ⟨v, hv, hl⟩ := List.getElem_of_mem h
  refine ⟨v, hv, ?_⟩
  simp [leer, List.getD_eq_getElem?_getD, List.getElem?_eq_getElem hv, hl]

/-! ## The neighbour query -/

theorem vecinos_foldl (puntos : List Point) (idxObj : Nat) (eps : ℚ) (l acc : List Nat) :
    l.foldl (vecinosPaso puntos idxObj (eps * eps)) acc =
      acc ++ l.filter (esVecino puntos idxObj eps) := by
  induction l generalizing acc with
  | nil => simp
  | cons a t ih =>
    rw [List.foldl_cons, ih]
    unfold vecinosPaso esVecino
    by_cases h1 : idxObj = a
    · simp [h1]
    · by_cases h2 : distancia_euclidiana (leerPunto puntos idxObj) (leerPunto puntos a) ≤ eps * eps
      · simp [h1, h2]
      · simp [h1, h2]

theorem vecinosObj_eq_filter (puntos : List Point) (idxObj : Nat) (eps : ℚ) :
    vecinosObj puntos idxObj eps =
      (List.range puntos.length).filter (esVecino puntos idxObj eps) := by
  unfold vecinosObj
  simp only [vecinos_foldl, List.nil_append]

theorem mem_vecinosObj (puntos : List Point) (idxObj : Nat) (eps : ℚ) (j : Nat) :
    j ∈ vecinosObj puntos idxObj eps ↔
      j < puntos.length ∧ idxObj ≠ j ∧
        distancia_euclidiana (leerPunto puntos idxObj) (leerPunto puntos j) ≤ eps * eps := by
  simp [vecinosObj_eq_filter, esVecino]

theorem distancia_comm (p1 p2 : Point) :
    distancia_euclidiana p1 p2 = distancia_euclidiana p2 p1 := by
  unfold distancia_euclidiana
  ring

theorem vecinosObj_symm (puntos : List Point) (eps : ℚ) (i j : Nat)
    (hi : i < puntos.length) (h : j ∈ vecinosObj puntos i eps) :
    i ∈ vecinosObj puntos j eps := by
  rw [mem_vecinosObj] at h ⊢
  exact ⟨hi, fun e => h.2.1 e.symm, by rw [distancia_comm]; exact h.2.2⟩

theorem vecinosObj_lt (puntos : List Point) (eps : ℚ) (i j : Nat)
    (h : j ∈ vecinosObj puntos i eps) : j < puntos.length :=
  ((mem_vecinosObj puntos i eps j).1 h).1

theorem vecinosObj_sorted (puntos : List Point) (idxObj : Nat) (eps : ℚ) :
    (vecinosObj puntos idxObj eps).Sorted (· < ·) := by
  rw [vecinosObj_eq_filter]
  exact List.Pairwise.filter _ (List.pairwise_lt_range _)

/-! ## The `while` loop: what one expansion does -/

theorem Gen.siguiente_fst (nb : Nat → List Nat) (core : Nat → Bool) (cid : Nat)
    (cp : List Int) (v : Nat) (q1 : List Nat) :
    (Gen.siguiente nb core cid cp v q1).1 =
      if leer cp v < 0 then cp.set v (cid : Int) else cp := by
  unfold Gen.siguiente
  split <;> [split; skip] <;> rfl

theorem Gen.mem_siguiente_snd (nb : Nat → List Nat) (core : Nat → Bool) (cid : Nat)
    (cp : List Int) (v : Nat) (q1 : List Nat) (w : Nat) :
    w ∈ (Gen.siguiente nb core cid cp v q1).2 ↔
      w ∈ q1 ∨ (leer cp v < 0 ∧ core v = true ∧ w ∈ nb v ∧
        leer (cp.set v (cid : Int)) w = -1) := by
  unfold Gen.siguiente
  by_cases h : leer cp v < 0
  · by_cases hc : core v = true
    · simp [h, hc]
    · simp [h, hc]
  · simp [h]

/-- Reads of the label array after one iteration of the `while` loop. -/
theorem Gen.leer_siguiente (nb : Nat → List Nat) (core : Nat → Bool) (cid : Nat)
    (cp : List Int) (v : Nat) (q1 : List Nat) (u : Nat) :
    leer (Gen.siguiente nb core cid cp v q1).1 u =
      if leer cp v < 0 ∧ u = v then (cid : Int) else leer cp u := by
  rw [Gen.siguiente_fst]
  by_cases h : leer cp v < 0
  · by_cases hu : u = v
    · subst hu
      simp [h, leer_set_eq cp u cid (leer_lt_of_neg cp u h)]
    · have : v ≠ u := fun e => hu e.symm
      simp [h, hu, leer_set_ne cp u v cid this]
  · simp [h]

theorem Gen.expandir_length (nb : Nat → List Nat) (core : Nat → Bool) (cid : Nat)
    (cp : List Int) (q : List Nat) :
    (Gen.expandir nb core cid cp q).length = cp.length := by
  refine Gen.expandir_inv nb core cid (fun c _ => c.length = cp.length) ?_ cp q rfl
  intro c v q1 h
  rw [Gen.siguiente_fst]
  split
  · simpa using h
  · exact h

/-- Frame of one expansion: a label is either untouched, or it was negative and is now
the current cluster id. -/
theorem Gen.expandir_frame (nb : Nat → List Nat) (core : Nat → Bool) (cid : Nat)
    (cp : List Int) (q : List Nat) (u : Nat) :
    leer (Gen.expandir nb core cid cp q) u = leer cp u ∨
      (leer cp u < 0 ∧ leer (Gen.expandir nb core cid cp q) u = (cid : Int)) := by
  refine Gen.expandir_inv nb core cid
    (fun c _ => leer c u = leer cp u ∨ (leer cp u < 0 ∧ leer c u = (cid : Int))) ?_ cp q
    (Or.inl rfl)
  intro c v q1 h
  rw [Gen.leer_siguiente]
  by_cases hv : leer c v < 0 ∧ u = v
  · obtain ⟨h1, h2⟩ := hv
    subst h2
    rw [if_pos ⟨h1, rfl⟩]
    rcases h with h | h
    · right; exact ⟨by omega, rfl⟩
    · omega
  · rw [if_neg hv]; exact h

/-- Every index of the initial queue has a non-negative label when the loop exits. -/
theorem Gen.expandir_cola (nb : Nat → List Nat) (core : Nat → Bool) (cid : Nat)
    (cp : List Int) (q : List Nat) (w : Nat) (hw : w ∈ q) :
    0 ≤ leer (Gen.expandir nb core cid cp q) w := by
  have := Gen.expandir_inv nb core cid
    (fun c q2 => w ∈ q2 ∨ 0 ≤ leer c w) ?_ cp q (Or.inl hw)
  · simpa using this
  intro c v q1 h
  rw [Gen.leer_siguiente, Gen.mem_siguiente_snd]
  rcases h with h | h
  · rcases List.mem_cons.1 h with e | e
    · subst e
      by_cases hv : leer c w < 0
      · right; simp [hv]
      · right; simp [hv]; omega
    · left; left; exact e
  · right
    by_cases hv : leer c v < 0 ∧ w = v
    · simp [hv]
    · simp only [hv, if_false]; exact h

/-- When the loop exits, no neighbour of a core point labelled with the current id is
still unvisited, provided this held for the queue at entry. -/
theorem Gen.expandir_cerrado (nb : Nat → List Nat) (core : Nat → Bool) (cid n : Nat)
    (cp : List Int) (q : List Nat)
    (h0 : ∀ u, u < n → core u = true → leer cp u = (cid : Int) →
      ∀ w ∈ nb u, leer cp w = -1 → w ∈ q) :
    ∀ u, u < n → core u = true → leer (Gen.expandir nb core cid cp q) u = (cid : Int) →
      ∀ w ∈ nb u, leer (Gen.expandir nb core cid cp q) w ≠ -1 := by
  have := Gen.expandir_inv nb core cid
    (fun c q2 => ∀ u, u < n → core u = true → leer c u = (cid : Int) →
      ∀ w ∈ nb u, leer c w = -1 → w ∈ q2) ?_ cp q h0
  · intro u hu hc hl w hw hneg
    simpa using this u hu hc hl w hw hneg
  intro c v q1 h u hu hc hl w hw hneg
  rw [Gen.leer_siguiente] at hl hneg
  rw [Gen.mem_siguiente_snd]
  have hwv : ¬ (leer c v < 0 ∧ w = v) := by
    intro hh
    rw [if_pos hh] at hneg
    omega
  rw [if_neg hwv] at hneg
  by_cases huv : leer c v < 0 ∧ u = v
  · obtain ⟨h1, h2⟩ := huv
    subst h2
    right
    refine ⟨h1, hc, hw, ?_⟩
    have hne : u ≠ w := fun e => hwv ⟨h1, e.symm⟩
    rw [leer_set_ne c w u cid hne]
    exact hneg
  · rw [if_neg huv] at hl
    have := h u hu hc hl w hw hneg
    rcases List.mem_cons.1 this with e | e
    · exfalso
      apply hwv
      subst e
      exact ⟨by omega, rfl⟩
    · left; exact e

/-- Every label changed by the loop belongs to any set that contains the initial queue
and is closed under "neighbour of a core member". -/
theorem Gen.expandir_origen (nb : Nat → List Nat) (core : Nat → Bool) (cid : Nat)
    (T : Nat → Prop) (hT : ∀ v w, T v → core v = true → w ∈ nb v → T w)
    (cp : List Int) (q : List Nat) (hq : ∀ v ∈ q, T v) :
    ∀ u, leer (Gen.expandir nb core cid cp q) u ≠ leer cp u → T u := by
  have := Gen.expandir_inv nb core cid
    (fun c q2 => (∀ v ∈ q2, T v) ∧ ∀ u, leer c u ≠ leer cp u → T u) ?_ cp q
    ⟨hq, fun u hu => absurd rfl hu⟩
  · exact this.2
  intro c v q1 h
  obtain ⟨h1, h2⟩ := h
  have hv : T v := h1 v (List.mem_cons_self _ _)
  constructor
  · intro w hw
    rw [Gen.mem_siguiente_snd] at hw
    rcases hw with hw | ⟨_, hc, hw, _⟩
    · exact h1 w (List.mem_cons_of_mem _ hw)
    · exact hT v w hv hc hw
  · intro u hu
    rw [Gen.leer_siguiente] at hu
    by_cases huv : leer c v < 0 ∧ u = v
    · rw [huv.2]; exact hv
    · rw [if_neg huv] at hu
      exact h2 u hu

/-- A noise label outside the initial queue is left as it is by the loop. -/
theorem Gen.expandir_ruido (nb : Nat → List Nat) (core : Nat → Bool) (cid : Nat)
    (cp : List Int) (q : List Nat) (u : Nat) (hu : leer cp u = -2) (hq : u ∉ q) :
    leer (Gen.expandir nb core cid cp q) u = -2 := by
  have := Gen.expandir_inv nb core cid
    (fun c q2 => leer c u = -2 ∧ u ∉ q2) ?_ cp q ⟨hu, hq⟩
  · exact this.1
  intro c v q1 h
  obtain ⟨h1, h2⟩ := h
  have huv : u ≠ v := fun e => h2 (by rw [e]; exact List.mem_cons_self _ _)
  have hl : leer (Gen.siguiente nb core cid c v q1).1 u = -2 := by
    rw [Gen.leer_siguiente, if_neg (fun hh => huv hh.2)]
    exact h1
  refine ⟨hl, ?_⟩
  rw [Gen.mem_siguiente_snd]
  rintro (hm | ⟨hv, _, _, hneg⟩)
  · exact h2 (List.mem_cons_of_mem _ hm)
  · rw [Gen.siguiente_fst, if_pos hv] at hl
    omega

/-! ## The outer loop: invariant -/

theorem Gen.inv_inicial (nb : Nat → List Nat) (core : Nat → Bool) (n : Nat) :
    Gen.Inv nb core n 0 (List.replicate n (-1), []) := by
  have hr : ∀ v, v < n → leer (List.replicate n (-1)) v = -1 :=
    fun v hv => leer_replicate n v (-1) hv
  constructor
  · simp
  · intro v hv; omega
  · intro v hv h; rw [hr v hv] at h; omega
  · intro v hv; left; exact hr v hv
  · intro c hc; simp at hc
  · intro u _ _ c hc; simp at hc
  · intro u hu _ h; rw [hr u hu] at h; omega
  · intro u v h h0; rw [hr u h.1] at h0; omega
  · intro u _ _ c hc; simp at hc
  · intro p hp h; rw [hr p hp] at h; omega
  · intro c d _ hd; simp at hd
  · intro c hc; simp at hc
  · intro u hu; omega

theorem Gen.inv_saltar (nb : Nat → List Nat) (core : Nat → Bool) (n k : Nat)
    (hsym : Gen.Simetrica nb n)
    (st : List Int × List Nat) (h : Gen.Inv nb core n k st) (hk : leer st.1 k ≠ -1) :
    Gen.Inv nb core n (k + 1) st := by
  refine { h with visitado := ?_, ruido := ?_, semilla := ?_, vecinoMenor := ?_ }
  · intro v hv
    rcases Nat.lt_succ_iff_lt_or_eq.1 hv with h1 | h1
    · exact h.visitado v h1
    · rw [h1]; exact hk
  · intro v hv hl
    exact ⟨Nat.lt_succ_of_lt (h.ruido v hv hl).1, (h.ruido v hv hl).2⟩
  · intro c hc
    obtain ⟨h1, h2⟩ := h.semilla c hc
    exact ⟨Nat.lt_succ_of_lt h1, h2⟩
  · intro u hu hun hc w hw huw
    rcases Nat.lt_succ_iff_lt_or_eq.1 hu with h1 | h1
    · exact h.vecinoMenor u h1 hun hc w hw huw
    · subst h1
      have hwn : w < n := (hsym u hun w hw).1
      have h2 : leer st.1 u ≠ -2 := by
        intro e
        have := (h.ruido u hun e).2
        rw [hc] at this
        exact Bool.noConfusion this
      have h3 := h.rango u hun
      have h4 := h.sinPendiente u hun hc (by omega) w hw
      have h5 : leer st.1 w ≠ -2 := by
        intro e
        have := (h.ruido w hwn e).1
        omega
      have h6 := h.rango w hwn
      omega

theorem leer_set (cp : List Int) (u v : Nat) (x : Int) (h : v < cp.length) :
    leer (cp.set v x) u = if u = v then x else leer cp u := by
  by_cases e : u = v
  · subst e; rw [if_pos rfl]; exact leer_set_eq cp u x h
  · rw [if_neg e]; exact leer_set_ne cp u v x (fun e2 => e e2.symm)

theorem Gen.inv_ruido (nb : Nat → List Nat) (core : Nat → Bool) (n k : Nat)
    (st : List Int × List Nat) (h : Gen.Inv nb core n k st) (hk : leer st.1 k = -1)
    (hcore : core k = false) :
    Gen.Inv nb core n (k + 1) (st.1.set k (-2), st.2) := by
  have hlen : k < st.1.length := leer_lt_of_neg st.1 k (by omega)
  have hs : ∀ u, leer (st.1.set k (-2)) u = if u = k then -2 else leer st.1 u :=
    fun u => leer_set st.1 u k (-2) hlen
  have hpos : ∀ u, 0 ≤ leer (st.1.set k (-2)) u →
      u ≠ k ∧ leer (st.1.set k (-2)) u = leer st.1 u := by
    intro u hu
    rw [hs u] at hu ⊢
    by_cases e : u = k
    · rw [if_pos e] at hu; omega
    · rw [if_neg e]; exact ⟨e, rfl⟩
  have hold : ∀ u, 0 ≤ leer st.1 u → leer (st.1.set k (-2)) u = leer st.1 u := by
    intro u hu
    rw [hs u]
    by_cases e : u = k
    · rw [e] at hu; omega
    · rw [if_neg e]
  constructor
  · simpa using h.largo
  · intro v hv
    show leer (st.1.set k (-2)) v ≠ -1
    rw [hs v]
    by_cases e : v = k
    · rw [if_pos e]; omega
    · rw [if_neg e]; exact h.visitado v (by omega)
  · intro v hv hl
    change leer (st.1.set k (-2)) v = -2 at hl
    rw [hs v] at hl
    by_cases e : v = k
    · rw [e]; exact ⟨Nat.lt_succ_self k, hcore⟩
    · rw [if_neg e] at hl
      exact ⟨Nat.lt_succ_of_lt (h.ruido v hv hl).1, (h.ruido v hv hl).2⟩
  · intro v hv
    show leer (st.1.set k (-2)) v = -1 ∨ leer (st.1.set k (-2)) v = -2 ∨ _
    rw [hs v]
    by_cases e : v = k
    · rw [if_pos e]; right; left; rfl
    · rw [if_neg e]; exact h.rango v hv
  · intro c hc
    obtain ⟨h1, h2, h3, h4⟩ := h.semilla c hc
    refine ⟨Nat.lt_succ_of_lt h1, h2, h3, ?_⟩
    show leer (st.1.set k (-2)) _ = _
    rw [hold _ (by rw [h4]; omega)]
    exact h4
  · intro u hu hc c hcl hl
    change leer (st.1.set k (-2)) u = c at hl
    have := hpos u (by rw [hl]; omega)
    rw [this.2] at hl
    exact h.primero u hu hc c hcl hl
  · intro u hu hc h0 w hw
    change 0 ≤ leer (st.1.set k (-2)) u at h0
    show leer (st.1.set k (-2)) w ≠ -1
    have hu2 := hpos u h0
    rw [hu2.2] at h0
    have := h.sinPendiente u hu hc h0 w hw
    rw [hs w]
    by_cases e : w = k
    · rw [if_pos e]; omega
    · rw [if_neg e]; exact this
  · intro u v he h0
    change 0 ≤ leer (st.1.set k (-2)) u at h0
    show leer (st.1.set k (-2)) v = leer (st.1.set k (-2)) u
    have hu2 := hpos u h0
    rw [hu2.2] at h0 ⊢
    have := h.cerrado u v he h0
    rw [hold v (by rw [this]; exact h0)]
    exact this
  · intro u hu hc c hcl hl
    change leer (st.1.set k (-2)) u = c at hl
    have := hpos u (by rw [hl]; omega)
    rw [this.2] at hl
    exact h.alcanza u hu hc c hcl hl
  · intro p hp h0
    change 0 ≤ leer (st.1.set k (-2)) p at h0
    have hp2 := hpos p h0
    rw [hp2.2] at h0
    rcases h.origen p hp h0 with h1 | ⟨u, hu, hc, hm, hl⟩
    · left; exact h1
    · right
      refine ⟨u, hu, hc, hm, ?_⟩
      show leer (st.1.set k (-2)) u = leer (st.1.set k (-2)) p
      rw [hp2.2, hold u (by rw [hl]; exact h0)]
      exact hl
  · exact h.creciente
  · intro c hc w hw
    show 0 ≤ leer (st.1.set k (-2)) w
    have := h.vecinoSemilla c hc w hw
    rw [hold w this]
    exact this
  · intro u hu hun hc w hw huw
    show 0 ≤ leer (st.1.set k (-2)) w
    rcases Nat.lt_succ_iff_lt_or_eq.1 hu with h1 | h1
    · have := h.vecinoMenor u h1 hun hc w hw huw
      rw [hold w this]
      exact this
    · rw [h1, hcore] at hc
      exact Bool.noConfusion hc

theorem Gen.inv_cluster (nb : Nat → List Nat) (core : Nat → Bool) (n k : Nat)
    (hsym : Gen.Simetrica nb n)
    (st : List Int × List Nat) (h : Gen.Inv nb core n k st) (hkn : k < n)
    (hk : leer st.1 k = -1) (hcore : core k = true) :
    Gen.Inv nb core n (k + 1)
      (Gen.expandir nb core st.2.length (st.1.set k (st.2.length : Int)) (nb k),
        st.2 ++ [k]) := by
  obtain ⟨cp, ss⟩ := st
  simp only at h hk ⊢
  have hlen : k < cp.length := leer_lt_of_neg cp k (by omega)
  generalize hout : Gen.expandir nb core ss.length (cp.set k (ss.length : Int)) (nb k) = out
  have hcp1 : ∀ u, leer (cp.set k (ss.length : Int)) u =
      if u = k then (ss.length : Int) else leer cp u :=
    fun u => leer_set cp u k _ hlen
  -- frame with respect to the labels before the seed was written
  have F : ∀ u, leer out u = leer cp u ∨ (leer cp u < 0 ∧ leer out u = (ss.length : Int)) := by
    intro u
    have := Gen.expandir_frame nb core ss.length (cp.set k (ss.length : Int)) (nb k) u
    rw [hout, hcp1 u] at this
    by_cases e : u = k
    · subst e
      simp only [if_true] at this
      right
      refine ⟨by omega, ?_⟩
      rcases this with h1 | h1
      · exact h1
      · exact h1.2
    · simp only [e, if_false] at this
      exact this
  have hold : ∀ u, 0 ≤ leer cp u → leer out u = leer cp u := by
    intro u hu
    rcases F u with h1 | h1
    · exact h1
    · omega
  have hnew : ∀ u, u < n → leer out u = (ss.length : Int) → leer cp u < 0 := by
    intro u hu hl
    rcases F u with h1 | h1
    · have := h.rango u hu
      simp only at this
      omega
    · exact h1.1
  have hlt : ∀ u (c : Nat), c < ss.length → leer out u = (c : Int) → leer cp u = (c : Int) := by
    intro u c hc hl
    rcases F u with h1 | h1
    · rw [← h1]; exact hl
    · omega
  have hk_out : leer out k = (ss.length : Int) := by
    rcases F k with h1 | h1
    · have := Gen.expandir_frame nb core ss.length (cp.set k (ss.length : Int)) (nb k) k
      rw [hout, hcp1 k] at this
      simp only [if_true] at this
      rcases this with h2 | h2
      · exact h2
      · exact h2.2
    · exact h1.2
  have hgetOld : ∀ c, c < ss.length → (ss ++ [k]).getD c 0 = ss.getD c 0 :=
    fun c hc => List.getD_append ss [k] 0 c hc
  have hgetNew : (ss ++ [k]).getD ss.length 0 = k := by
    rw [List.getD_append_right ss [k] 0 ss.length (le_refl _)]
    simp
  -- closure of the cluster just built
  have Lc : ∀ u, u < n → core u = true → leer out u = (ss.length : Int) →
      ∀ w ∈ nb u, leer out w ≠ -1 := by
    rw [← hout]
    apply Gen.expandir_cerrado
    intro u hu _ hl w hw _
    rw [hcp1 u] at hl
    by_cases e : u = k
    · rw [e] at hw; exact hw
    · rw [if_neg e] at hl
      have := h.rango u hu
      simp only at this
      omega
  -- origin of the labels written by the expansion
  have Lo : ∀ u, u ≠ k → leer out u ≠ leer cp u →
      ∃ w, w < n ∧ core w = true ∧
        Relation.ReflTransGen (Gen.enlace nb core n) k w ∧ u ∈ nb w := by
    intro u hu hne
    have := Gen.expandir_origen nb core ss.length
      (fun u => ∃ w, w < n ∧ core w = true ∧
        Relation.ReflTransGen (Gen.enlace nb core n) k w ∧ u ∈ nb w) ?_
      (cp.set k (ss.length : Int)) (nb k) ?_ u ?_
    · exact this
    · rintro v w ⟨w1, hw1, hc1, hr1, hm1⟩ hcv hwv
      have hvn : v < n := (hsym w1 hw1 v hm1).1
      exact ⟨v, hvn, hcv, hr1.tail ⟨hw1, hvn, hc1, hcv, hm1⟩, hwv⟩
    · intro v hv
      exact ⟨k, hkn, hcore, Relation.ReflTransGen.refl, hv⟩
    · rw [hout, hcp1 u, if_neg hu]
      exact hne
  have hreach : ∀ u, u < n → core u = true → leer out u = (ss.length : Int) →
      Relation.ReflTransGen (Gen.enlace nb core n) k u := by
    intro u hu hc hl
    by_cases e : u = k
    · rw [e]
    · have hneg := hnew u hu hl
      obtain ⟨w, hw, hcw, hr, hm⟩ := Lo u e (by omega)
      exact hr.tail ⟨hw, hu, hcw, hc, hm⟩
  have hruido : ∀ v, v < n → leer out v = -2 → v < k ∧ core v = false := by
    intro v hv hl
    rcases F v with h1 | h1
    · rw [h1] at hl; exact h.ruido v hv hl
    · omega
  have hrango : ∀ v, v < n → leer out v = -1 ∨ leer out v = -2 ∨
      (0 ≤ leer out v ∧ leer out v < ((ss.length + 1 : Nat) : Int)) := by
    intro v hv
    rcases F v with h1 | h1
    · rw [h1]
      have := h.rango v hv
      simp only at this
      omega
    · omega
  have hsin : ∀ u, u < n → core u = true → 0 ≤ leer out u →
      ∀ w ∈ nb u, leer out w ≠ -1 := by
    intro u hu hc h0 w hw
    rcases F u with h1 | h1
    · rw [h1] at h0
      have := h.sinPendiente u hu hc h0 w hw
      simp only at this
      rcases F w with h2 | h2
      · rw [h2]; exact this
      · omega
    · exact Lc u hu hc h1.2 w hw
  have hcerr : ∀ u v, Gen.enlace nb core n u v → 0 ≤ leer out u → leer out v = leer out u := by
    intro u v he h0
    obtain ⟨hu, hv, hcu, hcv, hm⟩ := he
    have hvu : Gen.enlace nb core n v u := ⟨hv, hu, hcv, hcu, (hsym u hu v hm).2⟩
    rcases F u with h1 | h1
    · rw [h1] at h0
      have := h.cerrado u v ⟨hu, hv, hcu, hcv, hm⟩ h0
      simp only at this
      rw [h1, hold v (by omega)]
      exact this
    · rcases F v with h2 | h2
      · have hv1 := hsin u hu hcu h0 v hm
        have hv2 : leer out v ≠ -2 := by
          intro e
          have := (hruido v hv e).2
          rw [hcv] at this
          exact Bool.noConfusion this
        have hv0 : 0 ≤ leer cp v := by
          have := hrango v hv
          omega
        have := h.cerrado v u hvu hv0
        simp only at this
        omega
      · omega
  have hlabel : ∀ w, Relation.ReflTransGen (Gen.enlace nb core n) k w →
      leer out w = (ss.length : Int) := by
    intro w hw
    induction hw with
    | refl => exact hk_out
    | tail _ hab ih => rw [hcerr _ _ hab (by omega)]; exact ih
  constructor
  · show out.length = n
    rw [← hout, Gen.expandir_length]
    simpa using h.largo
  · intro v hv
    show leer out v ≠ -1
    rcases F v with h1 | h1
    · rcases Nat.lt_succ_iff_lt_or_eq.1 hv with h2 | h2
      · rw [h1]; exact h.visitado v h2
      · rw [h2, hk_out]; omega
    · omega
  · intro v hv hl
    exact ⟨Nat.lt_succ_of_lt (hruido v hv hl).1, (hruido v hv hl).2⟩
  · intro v hv
    show leer out v = -1 ∨ leer out v = -2 ∨ (0 ≤ leer out v ∧ leer out v < ((ss ++ [k]).length : Int))
    have := hrango v hv
    simpa using this
  · intro c hc
    simp only [List.length_append, List.length_singleton] at hc
    show (ss ++ [k]).getD c 0 < k + 1 ∧ (ss ++ [k]).getD c 0 < n ∧
      core ((ss ++ [k]).getD c 0) = true ∧ leer out ((ss ++ [k]).getD c 0) = (c : Int)
    rcases Nat.lt_succ_iff_lt_or_eq.1 hc with h1 | h1
    · rw [hgetOld c h1]
      obtain ⟨a1, a2, a3, a4⟩ := h.semilla c h1
      simp only at a1 a2 a3 a4
      refine ⟨Nat.lt_succ_of_lt a1, a2, a3, ?_⟩
      rw [hold _ (by rw [a4]; omega)]
      exact a4
    · rw [h1, hgetNew]
      exact ⟨Nat.lt_succ_self k, hkn, hcore, hk_out⟩
  · intro u hu hc c hcl hl
    simp only [List.length_append, List.length_singleton] at hcl
    change leer out u = (c : Int) at hl
    show (ss ++ [k]).getD c 0 ≤ u
    rcases Nat.lt_succ_iff_lt_or_eq.1 hcl with h1 | h1
    · rw [hgetOld c h1]
      exact h.primero u hu hc c h1 (hlt u c h1 hl)
    · rw [h1, hgetNew]
      rw [h1] at hl
      have hneg := hnew u hu hl
      by_contra hcon
      have h3 := h.visitado u (by omega)
      have h4 := h.rango u hu
      simp only at h3 h4
      have h5 : leer cp u = -2 := by omega
      have := (h.ruido u hu h5).2
      rw [hc] at this
      exact Bool.noConfusion this
  · exact hsin
  · exact hcerr
  · intro u hu hc c hcl hl
    simp only [List.length_append, List.length_singleton] at hcl
    change leer out u = (c : Int) at hl
    show Relation.ReflTransGen _ ((ss ++ [k]).getD c 0) u
    rcases Nat.lt_succ_iff_lt_or_eq.1 hcl with h1 | h1
    · rw [hgetOld c h1]
      exact h.alcanza u hu hc c h1 (hlt u c h1 hl)
    · rw [h1, hgetNew]
      rw [h1] at hl
      exact hreach u hu hc hl
  · intro p hp h0
    change 0 ≤ leer out p at h0
    show core p = true ∨ ∃ u, u < n ∧ core u = true ∧ p ∈ nb u ∧ leer out u = leer out p
    rcases F p with h1 | h1
    · rw [h1] at h0
      rcases h.origen p hp h0 with h2 | ⟨u, hu, hc, hm, hl⟩
      · left; exact h2
      · right
        simp only at hl
        refine ⟨u, hu, hc, hm, ?_⟩
        rw [h1, hold u (by omega)]
        exact hl
    · by_cases e : p = k
      · left; rw [e]; exact hcore
      · right
        obtain ⟨w, hw, hcw, hr, hm⟩ := Lo p e (by omega)
        exact ⟨w, hw, hcw, hm, by rw [hlabel w hr, h1.2]⟩
  · intro c d hcd hd
    simp only [List.length_append, List.length_singleton] at hd
    show (ss ++ [k]).getD c 0 < (ss ++ [k]).getD d 0
    rcases Nat.lt_succ_iff_lt_or_eq.1 hd with h1 | h1
    · rw [hgetOld c (by omega), hgetOld d h1]
      exact h.creciente c d hcd h1
    · subst h1
      rw [hgetNew, hgetOld c hcd]
      exact (h.semilla c hcd).1
  · intro c hc w hw
    simp only [List.length_append, List.length_singleton] at hc
    show 0 ≤ leer out w
    rcases Nat.lt_succ_iff_lt_or_eq.1 hc with h1 | h1
    · rw [hgetOld c h1] at hw
      have := h.vecinoSemilla c h1 w hw
      simp only at this
      rw [hold w this]
      exact this
    · rw [h1, hgetNew] at hw
      rw [← hout]
      exact Gen.expandir_cola nb core ss.length _ (nb k) w hw
  · intro u hu hun hc w hw huw
    show 0 ≤ leer out w
    rcases Nat.lt_succ_iff_lt_or_eq.1 hu with h1 | h1
    · have := h.vecinoMenor u h1 hun hc w hw huw
      simp only at this
      rw [hold w this]
      exact this
    · rw [h1] at hw
      rw [← hout]
      exact Gen.expandir_cola nb core ss.length _ (nb k) w hw

theorem Gen.inv_paso (nb : Nat → List Nat) (core : Nat → Bool) (n k : Nat)
    (hsym : Gen.Simetrica nb n)
    (st : List Int × List Nat) (h : Gen.Inv nb core n k st) (hkn : k < n) :
    Gen.Inv nb core n (k + 1) (Gen.paso nb core st k) := by
  unfold Gen.paso
  by_cases hk : leer st.1 k = -1
  · by_cases hc : core k = true
    · rw [if_pos hk, if_pos hc]
      exact Gen.inv_cluster nb core n k hsym st h hkn hk hc
    · rw [if_pos hk, if_neg hc]
      exact Gen.inv_ruido nb core n k st h hk (by simpa using hc)
  · rw [if_neg hk]
    exact Gen.inv_saltar nb core n k hsym st h hk

theorem Gen.estado_succ (nb : Nat → List Nat) (core : Nat → Bool) (n k : Nat) :
    Gen.estado nb core n (k + 1) = Gen.paso nb core (Gen.estado nb core n k) k := by
  unfold Gen.estado
  rw [List.range_succ, List.foldl_append]
  rfl

/-- The invariant holds after every prefix of the outer loop. -/
theorem Gen.inv_estado (nb : Nat → List Nat) (core : Nat → Bool) (n : Nat)
    (hsym : Gen.Simetrica nb n) (k : Nat) (hk : k ≤ n) :
    Gen.Inv nb core n k (Gen.estado nb core n k) := by
  induction k with
  | zero => exact Gen.inv_inicial nb core n
  | succ k ih =>
    rw [Gen.estado_succ]
    exact Gen.inv_paso nb core n k hsym _ (ih (by omega)) (by omega)

/-! ## The engine only reads `nb` and `core` at valid indices -/

theorem Gen.expandir_congr (nb nb2 : Nat → List Nat) (core core2 : Nat → Bool) (cid n : Nat)
    (hnb : ∀ i, i < n → nb i = nb2 i) (hcore : ∀ i, i < n → core i = core2 i)
    (cp : List Int) (q : List Nat) (hlen : cp.length = n) :
    Gen.expandir nb core cid cp q = Gen.expandir nb2 core2 cid cp q := by
  induction cp, q using Gen.expandir.induct nb core cid with
  | case1 cp => rw [Gen.expandir_nil, Gen.expandir_nil]
  | case2 cp v q1 ih =>
    rw [Gen.expandir_cons, Gen.expandir_cons]
    have hs : Gen.siguiente nb2 core2 cid cp v q1 = Gen.siguiente nb core cid cp v q1 := by
      unfold Gen.siguiente
      by_cases hv : leer cp v < 0
      · have hvn : v < n := hlen ▸ leer_lt_of_neg cp v hv
        rw [hnb v hvn, hcore v hvn]
      · rw [if_neg hv, if_neg hv]
    rw [hs]
    apply ih
    rw [Gen.siguiente_fst]
    split
    · simpa using hlen
    · exact hlen

theorem Gen.paso_congr (nb nb2 : Nat → List Nat) (core core2 : Nat → Bool) (n : Nat)
    (hnb : ∀ i, i < n → nb i = nb2 i) (hcore : ∀ i, i < n → core i = core2 i)
    (st : List Int × List Nat) (hlen : st.1.length = n) (i : Nat) :
    Gen.paso nb core st i = Gen.paso nb2 core2 st i := by
  unfold Gen.paso
  by_cases hk : leer st.1 i = -1
  · have hin : i < n := hlen ▸ leer_lt_of_neg st.1 i (by omega)
    rw [if_pos hk, if_pos hk, hnb i hin, hcore i hin]
    by_cases hc : core2 i = true
    · rw [if_pos hc, if_pos hc,
        Gen.expandir_congr nb nb2 core core2 _ n hnb hcore _ _ (by simpa using hlen)]
    · rw [if_neg hc, if_neg hc]
  · rw [if_neg hk, if_neg hk]

theorem Gen.paso_length (nb : Nat → List Nat) (core : Nat → Bool)
    (st : List Int × List Nat) (i : Nat) :
    (Gen.paso nb core st i).1.length = st.1.length := by
  unfold Gen.paso
  split
  · split
    · simp [Gen.expandir_length]
    · simp
  · rfl

theorem Gen.estado_length (nb : Nat → List Nat) (core : Nat → Bool) (n k : Nat) :
    (Gen.estado nb core n k).1.length = n := by
  induction k with
  | zero => simp [Gen.estado]
  | succ k ih => rw [Gen.estado_succ, Gen.paso_length, ih]

theorem Gen.estado_congr (nb nb2 : Nat → List Nat) (core core2 : Nat → Bool) (n : Nat)
    (hnb : ∀ i, i < n → nb i = nb2 i) (hcore : ∀ i, i < n → core i = core2 i) (k : Nat) :
    Gen.estado nb core n k = Gen.estado nb2 core2 n k := by
  induction k with
  | zero => rfl
  | succ k ih =>
    rw [Gen.estado_succ, Gen.estado_succ, ← ih]
    exact Gen.paso_congr nb nb2 core core2 n hnb hcore _ (Gen.estado_length nb core n k) k

/-! ## The precompute loop of the OpenMP variant -/

theorem Omp.precalcPaso_spec (puntos : List Point) (eps : ℚ) (minimoPuntos : Int)
    (st : List (List Nat) × List Int) (i : Nat) (n : Nat)
    (h1 : st.1.length = n) (h2 : st.2.length = n)
    (hz : ∀ j, st.2.getD j 0 = 0 ∨ st.2.getD j 0 = Omp.coreVal puntos eps minimoPuntos j) :
    (Omp.precalcPaso puntos eps minimoPuntos st i).1.length = n ∧
    (Omp.precalcPaso puntos eps minimoPuntos st i).2.length = n ∧
    (∀ j, (Omp.precalcPaso puntos eps minimoPuntos st i).1.getD j [] =
      if j = i ∧ i < n then vecinosObj puntos i eps else st.1.getD j []) ∧
    (∀ j, (Omp.precalcPaso puntos eps minimoPuntos st i).2.getD j 0 =
      if j = i ∧ i < n then Omp.coreVal puntos eps minimoPuntos i else st.2.getD j 0) := by
  have hget : ∀ j, (st.1.set i (vecinosObj puntos i eps)).getD j [] =
      if j = i ∧ i < n then vecinosObj puntos i eps else st.1.getD j [] := by
    intro j
    simp only [List.getD_eq_getElem?_getD, List.getElem?_set, h1]
    by_cases e : i = j
    · subst e
      by_cases hi : i < n
      · simp [hi]
      · simp [hi, List.getElem?_eq_none (by omega : st.1.length ≤ i)]
    · have : ¬ (j = i ∧ i < n) := fun hh => e hh.1.symm
      simp [e, this]
  unfold Omp.precalcPaso
  by_cases hi : i < n
  · have hgi := hget i
    simp only [hi, and_self, if_true] at hgi
    by_cases hc : (((vecinosObj puntos i eps).length : Int) + 1) ≥ minimoPuntos % 2 ^ 64
    · simp only [hgi, hc, if_true]
      refine ⟨by simpa using h1, by simpa using h2, hget, ?_⟩
      intro j
      simp only [List.getD_eq_getElem?_getD, List.getElem?_set, h2, Omp.coreVal, hc, if_true]
      by_cases e : i = j
      · subst e; simp [hi]
      · have : ¬ (j = i ∧ i < n) := fun hh => e hh.1.symm
        simp [e, this]
    · simp only [hgi, hc, if_false]
      refine ⟨by simpa using h1, h2, hget, ?_⟩
      intro j
      by_cases e : j = i
      · subst e
        simp only [hi, and_self, if_true, Omp.coreVal, hc, if_false]
        rcases hz j with h3 | h3
        · exact h3
        · rw [h3]; unfold Omp.coreVal; rw [if_neg hc]
      · have : ¬ (j = i ∧ i < n) := fun hh => e hh.1
        simp [this]
  · have hnil : (st.1.set i (vecinosObj puntos i eps)) = st.1 := by
      apply List.set_eq_of_length_le; omega
    have hnil2 : (st.2.set i 1) = st.2 := by
      apply List.set_eq_of_length_le; omega
    have hno : ∀ j, ¬ (j = i ∧ i < n) := fun j hh => hi hh.2
    simp only [hnil, hnil2, ite_self, hno, if_false]
    exact ⟨h1, h2, fun _ => trivial, fun _ => trivial⟩

theorem Omp.precalcular_spec (orden : List Nat) (puntos : List Point) (eps : ℚ)
    (minimoPuntos : Int) :
    (Omp.precalcular orden puntos eps minimoPuntos).1.length = puntos.length ∧
    (Omp.precalcular orden puntos eps minimoPuntos).2.length = puntos.length ∧
    (∀ j, (Omp.precalcular orden puntos eps minimoPuntos).1.getD j [] =
      if j ∈ orden ∧ j < puntos.length then vecinosObj puntos j eps else []) ∧
    (∀ j, (Omp.precalcular orden puntos eps minimoPuntos).2.getD j 0 =
      if j ∈ orden ∧ j < puntos.length then Omp.coreVal puntos eps minimoPuntos j else 0) := by
  induction orden using List.reverseRecOn with
  | nil => simp [Omp.precalcular]
  | append_singleton l a ih =>
    obtain ⟨h1, h2, h3, h4⟩ := ih
    have hstep : Omp.precalcular (l ++ [a]) puntos eps minimoPuntos =
        Omp.precalcPaso puntos eps minimoPuntos
          (Omp.precalcular l puntos eps minimoPuntos) a := by
      simp [Omp.precalcular, List.foldl_append]
    have hz : ∀ j, (Omp.precalcular l puntos eps minimoPuntos).2.getD j 0 = 0 ∨
        (Omp.precalcular l puntos eps minimoPuntos).2.getD j 0 =
          Omp.coreVal puntos eps minimoPuntos j := by
      intro j
      rw [h4 j]
      split
      · right; rfl
      · left; rfl
    obtain ⟨g1, g2, g3, g4⟩ := Omp.precalcPaso_spec puntos eps minimoPuntos
      (Omp.precalcular l puntos eps minimoPuntos) a puntos.length h1 h2 hz
    rw [hstep]
    refine ⟨g1, g2, ?_, ?_⟩
    · intro j
      rw [g3 j, h3 j]
      by_cases e : j = a
      · subst e
        by_cases hj : j < puntos.length
        · simp [hj]
        · simp [hj]
      · simp [e]
    · intro j
      rw [g4 j, h4 j]
      by_cases e : j = a
      · subst e
        by_cases hj : j < puntos.length
        · simp [hj]
        · simp [hj]
      · simp [e]

theorem list_ext_getD {α : Type} (d : α) (l1 l2 : List α) (hlen : l1.length = l2.length)
    (h : ∀ j, l1.getD j d = l2.getD j d) : l1 = l2 := by
  apply List.ext_getElem hlen
  intro i h1 h2
  have := h i
  simpa [List.getD_eq_getElem?_getD, List.getElem?_eq_getElem h1,
    List.getElem?_eq_getElem h2] using this

/-- The arrays written by the precompute loop depend only on the set of indices
executed, not on the order. -/
theorem Omp.precalcular_orden (orden : List Nat) (puntos : List Point) (eps : ℚ)
    (minimoPuntos : Int) (hperm : orden.Perm (List.range puntos.length)) :
    Omp.precalcular orden puntos eps minimoPuntos =
      Omp.precalcular (List.range puntos.length) puntos eps minimoPuntos := by
  obtain ⟨a1, a2, a3, a4⟩ := Omp.precalcular_spec orden puntos eps minimoPuntos
  obtain ⟨b1, b2, b3, b4⟩ :=
    Omp.precalcular_spec (List.range puntos.length) puntos eps minimoPuntos
  have hmem : ∀ j, j ∈ orden ↔ j ∈ List.range puntos.length := fun j => hperm.mem_iff
  apply Prod.ext
  · apply list_ext_getD [] _ _ (by rw [a1, b1])
    intro j
    rw [a3 j, b3 j]
    simp only [hmem j]
  · apply list_ext_getD 0 _ _ (by rw [a2, b2])
    intro j
    rw [a4 j, b4 j]
    simp only [hmem j]

/-- The OpenMP variant is the reference engine on the live neighbour lists with the
unsigned core test. -/
theorem Omp.omp_dbscanEstado_eq_gen (puntos : List Point) (eps : ℚ) (minimoPuntos : Int) :
    Omp.dbscanEstado puntos eps minimoPuntos =
      Gen.proy (Gen.estado (Serial.nb puntos eps) (Omp.coreDe puntos eps minimoPuntos)
        puntos.length puntos.length) := by
  unfold Omp.dbscanEstado
  rw [Omp.dbscanEstadoCon_eq_gen]
  obtain ⟨_, _, b3, b4⟩ :=
    Omp.precalcular_spec (List.range puntos.length) puntos eps minimoPuntos
  congr 1
  apply Gen.estado_congr
  · intro i hi
    unfold Omp.nb Serial.nb
    rw [b3 i]
    simp [hi]
  · intro i hi
    unfold Omp.core Omp.coreDe
    rw [b4 i]
    have : i ∈ List.range puntos.length ∧ i < puntos.length := ⟨by simpa using hi, hi⟩
    rw [if_pos this]
    unfold Omp.coreVal
    by_cases hc : (((vecinosObj puntos i eps).length : Int) + 1) ≥ minimoPuntos % 2 ^ 64
    · simp [hc]
    · simp [hc]

theorem Serial.nb_simetrica (puntos : List Point) (eps : ℚ) :
    Gen.Simetrica (Serial.nb puntos eps) puntos.length := by
  intro u hu v hv
  exact ⟨vecinosObj_lt puntos eps u v hv, vecinosObj_symm puntos eps u v hu hv⟩

/-- The loop invariant at the end of the serial `dbscan`. -/
theorem Serial.serial_inv_final (puntos : List Point) (eps : ℚ) (minimoPuntos : Int) :
    Gen.Inv (Serial.nb puntos eps) (Serial.core puntos eps minimoPuntos) puntos.length
      puntos.length
      (Gen.estado (Serial.nb puntos eps) (Serial.core puntos eps minimoPuntos)
        puntos.length puntos.length) :=
  Gen.inv_estado _ _ _ (Serial.nb_simetrica puntos eps) _ (le_refl _)

/-- The loop invariant at the end of the OpenMP `dbscan`. -/
theorem Omp.omp_inv_final (puntos : List Point) (eps : ℚ) (minimoPuntos : Int) :
    Gen.Inv (Serial.nb puntos eps) (Omp.coreDe puntos eps minimoPuntos) puntos.length
      puntos.length
      (Gen.estado (Serial.nb puntos eps) (Omp.coreDe puntos eps minimoPuntos)
        puntos.length puntos.length) :=
  Gen.inv_estado _ _ _ (Serial.nb_simetrica puntos eps) _ (le_refl _)

/-! ## The seeds: indices at which the outer loop starts a cluster -/

theorem Gen.paso_snd (nb : Nat → List Nat) (core : Nat → Bool)
    (g : List Int × List Nat) (i : Nat) :
    (Gen.paso nb core g i).2 = if leer g.1 i = -1 ∧ core i = true then g.2 ++ [i] else g.2 := by
  unfold Gen.paso
  by_cases h : leer g.1 i = -1
  · by_cases hc : core i = true
    · simp [h, hc]
    · simp [h, hc]
  · simp [h]

theorem Serial.serial_foldl_semillas (puntos : List Point) (eps : ℚ) (minimoPuntos : Int)
    (l : List Nat) (g : List Int × List Nat) :
    l.foldl (Serial.pasoSemillas puntos eps minimoPuntos) (Gen.proy g, g.2) =
      (Gen.proy (l.foldl (Gen.paso (Serial.nb puntos eps)
          (Serial.core puntos eps minimoPuntos)) g),
        (l.foldl (Gen.paso (Serial.nb puntos eps)
          (Serial.core puntos eps minimoPuntos)) g).2) := by
  induction l generalizing g with
  | nil => rfl
  | cons a t ih =>
    rw [List.foldl_cons, List.foldl_cons, ← ih]
    congr 1
    unfold Serial.pasoSemillas
    rw [Serial.serial_paso_eq_gen, Gen.paso_snd]
    congr 1
    have : (Serial.core puntos eps minimoPuntos a = true) ↔
        ¬ (((vecinosObj puntos a eps).length : Int) + 1 < minimoPuntos) := by
      simp [Serial.core]
    simp only [Gen.proy, this]

theorem Omp.omp_foldl_semillas (vecinosLista : List (List Nat)) (esCore : List Int)
    (l : List Nat) (g : List Int × List Nat) :
    l.foldl (Omp.pasoSemillas vecinosLista esCore) (Gen.proy g, g.2) =
      (Gen.proy (l.foldl (Gen.paso (Omp.nb vecinosLista) (Omp.core esCore)) g),
        (l.foldl (Gen.paso (Omp.nb vecinosLista) (Omp.core esCore)) g).2) := by
  induction l generalizing g with
  | nil => rfl
  | cons a t ih =>
    rw [List.foldl_cons, List.foldl_cons, ← ih]
    congr 1
    unfold Omp.pasoSemillas
    rw [Omp.omp_paso_eq_gen, Gen.paso_snd]
    congr 1
    have : (Omp.core esCore a = true) ↔ ¬ (esCore.getD a 0 = 0) := by
      simp [Omp.core]
    simp only [Gen.proy, this]

theorem Serial.serial_dbscan_eq (puntos : List Point) (eps : ℚ) (minimoPuntos : Int) :
    Serial.dbscan puntos eps minimoPuntos = (Serial.final puntos eps minimoPuntos).1 := by
  unfold Serial.dbscan
  rw [Serial.serial_dbscanEstado_eq_gen]
  rfl

theorem Serial.serial_clusterCount_eq (puntos : List Point) (eps : ℚ) (minimoPuntos : Int) :
    Serial.clusterCount puntos eps minimoPuntos =
      (Serial.final puntos eps minimoPuntos).2.length := by
  unfold Serial.clusterCount
  rw [Serial.serial_dbscanEstado_eq_gen]
  rfl

theorem Serial.serial_semillas_eq (puntos : List Point) (eps : ℚ) (minimoPuntos : Int) :
    Serial.semillas puntos eps minimoPuntos = (Serial.final puntos eps minimoPuntos).2 := by
  unfold Serial.semillas
  have := Serial.serial_foldl_semillas puntos eps minimoPuntos (List.range puntos.length)
    (List.replicate puntos.length (-1), [])
  simp only [Gen.proy, List.length_nil] at this
  rw [this]
  rfl

theorem Omp.omp_dbscan_eq (puntos : List Point) (eps : ℚ) (minimoPuntos : Int) :
    Omp.dbscan puntos eps minimoPuntos = (Omp.final puntos eps minimoPuntos).1 := by
  unfold Omp.dbscan
  rw [Omp.omp_dbscanEstado_eq_gen]
  rfl

theorem Omp.omp_clusterCount_eq (puntos : List Point) (eps : ℚ) (minimoPuntos : Int) :
    Omp.clusterCount puntos eps minimoPuntos =
      (Omp.final puntos eps minimoPuntos).2.length := by
  unfold Omp.clusterCount
  rw [Omp.omp_dbscanEstado_eq_gen]
  rfl

theorem Omp.omp_semillas_eq (puntos : List Point) (eps : ℚ) (minimoPuntos : Int) :
    Omp.semillas puntos eps minimoPuntos = (Omp.final puntos eps minimoPuntos).2 := by
  unfold Omp.semillas
  have := Omp.omp_foldl_semillas
    (Omp.precalcular (List.range puntos.length) puntos eps minimoPuntos).1
    (Omp.precalcular (List.range puntos.length) puntos eps minimoPuntos).2
    (List.range puntos.length) (List.replicate puntos.length (-1), [])
  simp only [Gen.proy, List.length_nil] at this
  simp only [this]
  obtain ⟨_, _, b3, b4⟩ :=
    Omp.precalcular_spec (List.range puntos.length) puntos eps minimoPuntos
  unfold Omp.final
  change (Gen.estado _ _ puntos.length puntos.length).2 = _
  congr 1
  apply Gen.estado_congr
  · intro i hi
    unfold Omp.nb Serial.nb
    rw [b3 i]
    simp [hi]
  · intro i hi
    unfold Omp.core Omp.coreDe
    rw [b4 i]
    have : i ∈ List.range puntos.length ∧ i < puntos.length := ⟨by simpa using hi, hi⟩
    rw [if_pos this]
    unfold Omp.coreVal
    by_cases hc : (((vecinosObj puntos i eps).length : Int) + 1) ≥ minimoPuntos % 2 ^ 64
    · simp [hc]
    · simp [hc]

/-! ## Consequences of the invariant at the end of the outer loop -/

theorem Gen.inv_etiquetas (nb : Nat → List Nat) (core : Nat → Bool) (n : Nat)
    (st : List Int × List Nat) (h : Gen.Inv nb core n n st) :
    st.1.length = n ∧
      ∀ l ∈ st.1, l ≠ -1 ∧ (l = -2 ∨ (0 ≤ l ∧ l < (st.2.length : Int))) := by
  refine ⟨h.largo, ?_⟩
  intro l hl
  obtain ⟨v, hv, hlv⟩ := mem_leer st.1 l hl
  rw [h.largo] at hv
  have h1 := h.visitado v hv
  have h2 := h.rango v hv
  rw [hlv] at h1 h2
  exact ⟨h1, by omega⟩

theorem Gen.inv_ids (nb : Nat → List Nat) (core : Nat → Bool) (n : Nat)
    (st : List Int × List Nat) (h : Gen.Inv nb core n n st) (c : Int) :
    (c ∈ st.1 ∧ 0 ≤ c) ↔ (0 ≤ c ∧ c < (st.2.length : Int)) := by
  constructor
  · rintro ⟨hc, h0⟩
    have := (Gen.inv_etiquetas nb core n st h).2 c hc
    omega
  · rintro ⟨h0, hc⟩
    refine ⟨?_, h0⟩
    obtain ⟨_, h2, _, h4⟩ := h.semilla c.toNat (by omega)
    have : ((c.toNat : Nat) : Int) = c := Int.toNat_of_nonneg h0
    rw [this] at h4
    rw [← h4]
    exact leer_mem st.1 _ (by rw [h.largo]; exact h2)

theorem Gen.inv_sin_ruido (nb : Nat → List Nat) (core : Nat → Bool) (n : Nat)
    (st : List Int × List Nat) (h : Gen.Inv nb core n n st)
    (hcore : ∀ i, i < n → core i = true) : ∀ l ∈ st.1, 0 ≤ l := by
  intro l hl
  obtain ⟨v, hv, hlv⟩ := mem_leer st.1 l hl
  rw [h.largo] at hv
  have h1 := h.visitado v hv
  have h2 := h.rango v hv
  have h3 : leer st.1 v ≠ -2 := by
    intro e
    have := (h.ruido v hv e).2
    rw [hcore v hv] at this
    exact Bool.noConfusion this
  rw [hlv] at h1 h2 h3
  omega

theorem Omp.coreDe_eq_serial (puntos : List Point) (eps : ℚ) (minimoPuntos : Int)
    (h1 : 0 ≤ minimoPuntos) (h2 : minimoPuntos ≤ 2147483647) (i : Nat) :
    Omp.coreDe puntos eps minimoPuntos i = Serial.core puntos eps minimoPuntos i := by
  unfold Omp.coreDe Serial.core
  have : minimoPuntos % 2 ^ 64 = minimoPuntos :=
    Int.emod_eq_of_lt h1 (by omega)
  rw [this]

theorem Omp.final_eq_serial (puntos : List Point) (eps : ℚ) (minimoPuntos : Int)
    (h1 : 0 ≤ minimoPuntos) (h2 : minimoPuntos ≤ 2147483647) :
    Omp.final puntos eps minimoPuntos = Serial.final puntos eps minimoPuntos := by
  unfold Omp.final Serial.final
  have : Omp.coreDe puntos eps minimoPuntos = Serial.core puntos eps minimoPuntos :=
    funext (Omp.coreDe_eq_serial puntos eps minimoPuntos h1 h2)
  rw [this]

/-! ## The claims -/

/-- C1: for every point sequence, radius and `minimoPuntos`, both variants of `dbscan`
return exactly one label per input index; no label is -1 (unvisited), every label is -2
(noise) or a cluster id `c` with `0 ≤ c < clusterCount`; the empty point sequence gives
the empty label array and `clusterCount` 0. -/
theorem dbscan_etiquetas_validas (puntos : List Point) (eps : ℚ) (minimoPuntos : Int) :
    ((Serial.dbscan puntos eps minimoPuntos).length = puntos.length ∧
      ∀ l ∈ Serial.dbscan puntos eps minimoPuntos, l ≠ -1 ∧
        (l = -2 ∨ (0 ≤ l ∧ l < (Serial.clusterCount puntos eps minimoPuntos : Int)))) ∧
    ((Omp.dbscan puntos eps minimoPuntos).length = puntos.length ∧
      ∀ l ∈ Omp.dbscan puntos eps minimoPuntos, l ≠ -1 ∧
        (l = -2 ∨ (0 ≤ l ∧ l < (Omp.clusterCount puntos eps minimoPuntos : Int)))) ∧
    Serial.dbscanEstado [] eps minimoPuntos = ([], 0) ∧
    Omp.dbscanEstado [] eps minimoPuntos = ([], 0) := by
  refine ⟨?_, ?_, rfl, rfl⟩
  · rw [Serial.serial_dbscan_eq, Serial.serial_clusterCount_eq]
    exact Gen.inv_etiquetas _ _ _ _ (Serial.serial_inv_final puntos eps minimoPuntos)
  · rw [Omp.omp_dbscan_eq, Omp.omp_clusterCount_eq]
    exact Gen.inv_etiquetas _ _ _ _ (Omp.omp_inv_final puntos eps minimoPuntos)

/-- C2: for every point sequence, every radius and every `minimoPuntos ≥ 1` (a C `int`,
so at most 2147483647), the OpenMP `dbscan` (precomputed neighbour lists and core flags)
returns exactly the label array of the serial `dbscan` (live `vecinosObj` calls). -/
theorem dbscan_omp_eq_serial (puntos : List Point) (eps : ℚ) (minimoPuntos : Int)
    (h1 : 1 ≤ minimoPuntos) (h2 : minimoPuntos ≤ 2147483647) :
    Omp.dbscan puntos eps minimoPuntos = Serial.dbscan puntos eps minimoPuntos := by
  rw [Omp.omp_dbscan_eq, Serial.serial_dbscan_eq,
    Omp.final_eq_serial puntos eps minimoPuntos (by omega) h2]

/-- C5: in both variants the non-negative labels of the output are exactly
`0, ..., clusterCount - 1`; one seed is recorded per cluster started, and the seed of the
`c`-th cluster started carries the id `c` in the output. -/
theorem dbscan_ids_contiguos (puntos : List Point) (eps : ℚ) (minimoPuntos : Int) :
    ((∀ c : Int, (c ∈ Serial.dbscan puntos eps minimoPuntos ∧ 0 ≤ c) ↔
        (0 ≤ c ∧ c < (Serial.clusterCount puntos eps minimoPuntos : Int))) ∧
      (Serial.semillas puntos eps minimoPuntos).length =
        Serial.clusterCount puntos eps minimoPuntos ∧
      ∀ c, c < Serial.clusterCount puntos eps minimoPuntos →
        leer (Serial.dbscan puntos eps minimoPuntos)
          ((Serial.semillas puntos eps minimoPuntos).getD c 0) = (c : Int)) ∧
    ((∀ c : Int, (c ∈ Omp.dbscan puntos eps minimoPuntos ∧ 0 ≤ c) ↔
        (0 ≤ c ∧ c < (Omp.clusterCount puntos eps minimoPuntos : Int))) ∧
      (Omp.semillas puntos eps minimoPuntos).length =
        Omp.clusterCount puntos eps minimoPuntos ∧
      ∀ c, c < Omp.clusterCount puntos eps minimoPuntos →
        leer (Omp.dbscan puntos eps minimoPuntos)
          ((Omp.semillas puntos eps minimoPuntos).getD c 0) = (c : Int)) := by
  constructor
  · rw [Serial.serial_dbscan_eq, Serial.serial_clusterCount_eq, Serial.serial_semillas_eq]
    have h := Serial.serial_inv_final puntos eps minimoPuntos
    exact ⟨Gen.inv_ids _ _ _ _ h, rfl, fun c hc => (h.semilla c hc).2.2.2⟩
  · rw [Omp.omp_dbscan_eq, Omp.omp_clusterCount_eq, Omp.omp_semillas_eq]
    have h := Omp.omp_inv_final puntos eps minimoPuntos
    exact ⟨Gen.inv_ids _ _ _ _ h, rfl, fun c hc => (h.semilla c hc).2.2.2⟩

/-- C8: with `minimoPuntos = 1` every point is a core point (serial test, and `esCore`
flag of the OpenMP precompute loop) and no label of the output of either variant is
Noise: every label is a cluster id `≥ 0`. -/
theorem dbscan_minPts_uno (puntos : List Point) (eps : ℚ) :
    (∀ i, Serial.core puntos eps 1 i = true) ∧
    (∀ i, i < puntos.length →
      (Omp.precalcular (List.range puntos.length) puntos eps 1).2.getD i 0 = 1) ∧
    (∀ l ∈ Serial.dbscan puntos eps 1, 0 ≤ l) ∧
    (∀ l ∈ Omp.dbscan puntos eps 1, 0 ≤ l) := by
  have hs : ∀ i, Serial.core puntos eps 1 i = true := by
    intro i
    simp [Serial.core]
  have ho : ∀ i, Omp.coreDe puntos eps 1 i = true := by
    intro i
    rw [Omp.coreDe_eq_serial puntos eps 1 (by omega) (by omega)]
    exact hs i
  refine ⟨hs, ?_, ?_, ?_⟩
  · intro i hi
    obtain ⟨_, _, _, b4⟩ := Omp.precalcular_spec (List.range puntos.length) puntos eps 1
    rw [b4 i]
    have : i ∈ List.range puntos.length ∧ i < puntos.length := ⟨by simpa using hi, hi⟩
    rw [if_pos this]
    have := ho i
    unfold Omp.coreDe at this
    unfold Omp.coreVal
    rw [if_pos (by simp)]
  · rw [Serial.serial_dbscan_eq]
    exact Gen.inv_sin_ruido _ _ _ _ (Serial.serial_inv_final puntos eps 1) (fun i _ => hs i)
  · rw [Omp.omp_dbscan_eq]
    exact Gen.inv_sin_ruido _ _ _ _ (Omp.omp_inv_final puntos eps 1) (fun i _ => ho i)

theorem Gen.enlace_symm (nb : Nat → List Nat) (core : Nat → Bool) (n : Nat)
    (hsym : Gen.Simetrica nb n) : Symmetric (Gen.enlace nb core n) := by
  rintro a b ⟨ha, hb, hca, hcb, hm⟩
  exact ⟨hb, ha, hcb, hca, (hsym a ha b hm).2⟩

theorem Gen.inv_nucleo_etiquetado (nb : Nat → List Nat) (core : Nat → Bool) (n : Nat)
    (st : List Int × List Nat) (h : Gen.Inv nb core n n st) (u : Nat) (hu : u < n)
    (hc : core u = true) : 0 ≤ leer st.1 u ∧ leer st.1 u < (st.2.length : Int) := by
  have h1 := h.visitado u hu
  have h2 := h.rango u hu
  have h3 : leer st.1 u ≠ -2 := by
    intro e
    have := (h.ruido u hu e).2
    rw [hc] at this
    exact Bool.noConfusion this
  omega

/-- Core points carry the same label exactly when they are linked by a chain of core
points. -/
theorem Gen.inv_componentes (nb : Nat → List Nat) (core : Nat → Bool) (n : Nat)
    (hsym : Gen.Simetrica nb n)
    (st : List Int × List Nat) (h : Gen.Inv nb core n n st) (u v : Nat)
    (hu : u < n) (hv : v < n) (hcu : core u = true) (hcv : core v = true) :
    leer st.1 u = leer st.1 v ↔ Relation.ReflTransGen (Gen.enlace nb core n) u v := by
  obtain ⟨h0, hlt⟩ := Gen.inv_nucleo_etiquetado nb core n st h u hu hcu
  constructor
  · intro e
    have hc : (leer st.1 u).toNat < st.2.length := by omega
    have hcast : (((leer st.1 u).toNat : Nat) : Int) = leer st.1 u := Int.toNat_of_nonneg h0
    have r1 := h.alcanza u hu hcu _ hc hcast.symm
    have r2 := h.alcanza v hv hcv _ hc (by rw [hcast]; exact e.symm)
    exact (Relation.ReflTransGen.symmetric (Gen.enlace_symm nb core n hsym) r1).trans r2
  · intro r
    clear hv hcv
    induction r with
    | refl => rfl
    | tail _ hab ih =>
      have := h.cerrado _ _ hab (by rw [← ih]; exact h0)
      rw [this, ih]

theorem reflTransGen_iff_cadena {α : Type} (r : α → α → Prop) (a b : α) :
    Relation.ReflTransGen r a b ↔
      ∃ l : List α, List.Chain r a l ∧ (a :: l).getLast (List.cons_ne_nil a l) = b := by
  constructor
  · exact List.exists_chain_of_relationReflTransGen
  · rintro ⟨l, h1, h2⟩
    exact List.relationReflTransGen_of_exists_chain l h1 h2

/-- C3: for `minimoPuntos ≥ 1` (a C `int`), in the output of both variants no core point
is labelled Noise (its label is a cluster id), and two core points `u`, `v` carry the same
label if and only if there is a chain `u = p0, p1, ..., pk = v` of core points with each
`p(t+1)` in `N(p(t))`. -/
theorem dbscan_nucleos_componentes (puntos : List Point) (eps : ℚ) (minimoPuntos : Int)
    (h1 : 1 ≤ minimoPuntos) (h2 : minimoPuntos ≤ 2147483647) :
    (∀ u, u < puntos.length → Serial.core puntos eps minimoPuntos u = true →
      0 ≤ leer (Serial.dbscan puntos eps minimoPuntos) u ∧
      0 ≤ leer (Omp.dbscan puntos eps minimoPuntos) u) ∧
    (∀ u v, u < puntos.length → v < puntos.length →
      Serial.core puntos eps minimoPuntos u = true →
      Serial.core puntos eps minimoPuntos v = true →
      ((leer (Serial.dbscan puntos eps minimoPuntos) u =
          leer (Serial.dbscan puntos eps minimoPuntos) v ↔
        ∃ l : List Nat, List.Chain (enlaceNucleo puntos eps minimoPuntos) u l ∧
          (u :: l).getLast (List.cons_ne_nil u l) = v) ∧
       (leer (Omp.dbscan puntos eps minimoPuntos) u =
          leer (Omp.dbscan puntos eps minimoPuntos) v ↔
        ∃ l : List Nat, List.Chain (enlaceNucleo puntos eps minimoPuntos) u l ∧
          (u :: l).getLast (List.cons_ne_nil u l) = v))) := by
  have ho : Omp.dbscan puntos eps minimoPuntos = Serial.dbscan puntos eps minimoPuntos := by
    rw [Omp.omp_dbscan_eq, Serial.serial_dbscan_eq,
      Omp.final_eq_serial puntos eps minimoPuntos (by omega) h2]
  rw [ho, Serial.serial_dbscan_eq]
  have h := Serial.serial_inv_final puntos eps minimoPuntos
  have hsym := Serial.nb_simetrica puntos eps
  constructor
  · intro u hu hc
    have := (Gen.inv_nucleo_etiquetado _ _ _ _ h u hu hc).1
    exact ⟨this, this⟩
  · intro u v hu hv hcu hcv
    have key := Gen.inv_componentes _ _ _ hsym _ h u v hu hv hcu hcv
    have hch := reflTransGen_iff_cadena (enlaceNucleo puntos eps minimoPuntos) u v
    have hrel : Gen.enlace (Serial.nb puntos eps) (Serial.core puntos eps minimoPuntos)
        puntos.length = enlaceNucleo puntos eps minimoPuntos := rfl
    rw [hrel] at key
    exact ⟨key.trans hch, key.trans hch⟩

theorem mem_getD (ss : List Nat) (u : Nat) (h : u ∈ ss) :
    ∃ c, c < ss.length ∧ ss.getD c 0 = u := by
  obtain ⟨c, hc, e⟩ := List.getElem_of_mem h
  exact ⟨c, hc, by rw [List.getD_eq_getElem ss 0 hc]; exact e⟩

theorem Gen.inv_borde (nb : Nat → List Nat) (core : Nat → Bool) (n : Nat)
    (hsym : Gen.Simetrica nb n)
    (st : List Int × List Nat) (h : Gen.Inv nb core n n st) (p u : Nat)
    (hp : p < n) (hcp : core p = false) (hu : u ∈ nb p) (hcu : core u = true)
    (hor : u < p ∨ u ∈ st.2) :
    0 ≤ leer st.1 p ∧ ∃ w, w ∈ nb p ∧ core w = true ∧ leer st.1 w = leer st.1 p := by
  obtain ⟨hun, hpu⟩ := hsym p hp u hu
  have h0 : 0 ≤ leer st.1 p := by
    rcases hor with h1 | h1
    · exact h.vecinoMenor u hun hun hcu p hpu h1
    · obtain ⟨c, hc, e⟩ := mem_getD st.2 u h1
      exact h.vecinoSemilla c hc p (by rw [e]; exact hpu)
  refine ⟨h0, ?_⟩
  rcases h.origen p hp h0 with h1 | ⟨w, hw, hcw, hm, hl⟩
  · rw [hcp] at h1
    exact Bool.noConfusion h1
  · exact ⟨w, (hsym w hw p hm).2, hcw, hl⟩

theorem Gen.inv_ruido_final (nb : Nat → List Nat) (core : Nat → Bool) (n : Nat)
    (hsym : Gen.Simetrica nb n)
    (st : List Int × List Nat) (h : Gen.Inv nb core n n st) (p : Nat)
    (hp : p < n) (hl : leer st.1 p = -2) :
    core p = false ∧ ∀ u ∈ nb p, core u = true → ¬ (u < p) ∧ u ∉ st.2 := by
  have hcp := (h.ruido p hp hl).2
  refine ⟨hcp, ?_⟩
  intro u hu hcu
  have key : ¬ (u < p ∨ u ∈ st.2) := by
    intro hor
    have := (Gen.inv_borde nb core n hsym st h p u hp hcp hu hcu hor).1
    omega
  exact ⟨fun a => key (Or.inl a), fun a => key (Or.inr a)⟩

theorem Gen.inv_semillas (nb : Nat → List Nat) (core : Nat → Bool) (n : Nat)
    (st : List Int × List Nat) (h : Gen.Inv nb core n n st) :
    (∀ c, c < st.2.length →
      st.2.getD c 0 < n ∧ core (st.2.getD c 0) = true ∧
      leer st.1 (st.2.getD c 0) = (c : Int) ∧
      ∀ u, u < n → core u = true → leer st.1 u = (c : Int) → st.2.getD c 0 ≤ u) ∧
    (∀ c d, c < d → d < st.2.length → st.2.getD c 0 < st.2.getD d 0) ∧
    (∀ u (c d : Nat), u < n → core u = true → leer st.1 u = (c : Int) → d < c →
      ∃ w, w < u ∧ core w = true ∧ leer st.1 w = (d : Int)) := by
  refine ⟨?_, h.creciente, ?_⟩
  · intro c hc
    obtain ⟨_, a2, a3, a4⟩ := h.semilla c hc
    exact ⟨a2, a3, a4, fun u hu hcu hl => h.primero u hu hcu c hc hl⟩
  · intro u c d hu hcu hl hdc
    have hc : c < st.2.length := by
      have := (Gen.inv_nucleo_etiquetado nb core n st h u hu hcu).2
      omega
    obtain ⟨_, _, a3, a4⟩ := h.semilla d (by omega)
    have b1 := h.creciente d c hdc hc
    have b2 := h.primero u hu hcu c hc hl
    exact ⟨st.2.getD d 0, by omega, a3, a4⟩

theorem Gen.inv_aislado (nb : Nat → List Nat) (core : Nat → Bool) (n : Nat)
    (hsym : Gen.Simetrica nb n)
    (st : List Int × List Nat) (h : Gen.Inv nb core n n st) (p : Nat)
    (hp : p < n) (hcp : core p = false) (hnil : nb p = []) : leer st.1 p = -2 := by
  have h1 := h.visitado p hp
  have h2 := h.rango p hp
  by_contra hne
  have h0 : 0 ≤ leer st.1 p := by omega
  rcases h.origen p hp h0 with h3 | ⟨u, hu, _, hm, _⟩
  · rw [hcp] at h3
    exact Bool.noConfusion h3
  · have := (hsym u hu p hm).2
    rw [hnil] at this
    exact List.not_mem_nil _ this

theorem Serial.core_aislado (puntos : List Point) (eps : ℚ) (minimoPuntos : Int)
    (h1 : 2 ≤ minimoPuntos) (p : Nat) (hnil : vecinosObj puntos p eps = []) :
    Serial.core puntos eps minimoPuntos p = false := by
  unfold Serial.core
  rw [hnil]
  simp
  omega

theorem aislado_ruido (puntos : List Point) (eps : ℚ) (minimoPuntos : Int)
    (h1 : 2 ≤ minimoPuntos) (h2 : minimoPuntos ≤ 2147483647) (p : Nat)
    (hp : p < puntos.length) (hnil : vecinosObj puntos p eps = []) :
    leer (Serial.dbscan puntos eps minimoPuntos) p = -2 ∧
      leer (Omp.dbscan puntos eps minimoPuntos) p = -2 := by
  have ho : Omp.dbscan puntos eps minimoPuntos = Serial.dbscan puntos eps minimoPuntos := by
    rw [Omp.omp_dbscan_eq, Serial.serial_dbscan_eq,
      Omp.final_eq_serial puntos eps minimoPuntos (by omega) h2]
  rw [ho, Serial.serial_dbscan_eq]
  have := Gen.inv_aislado _ _ _ (Serial.nb_simetrica puntos eps) _
    (Serial.serial_inv_final puntos eps minimoPuntos) p hp
    (Serial.core_aislado puntos eps minimoPuntos h1 p hnil) hnil
  exact ⟨this, this⟩

theorem vecinosObj_uno (pt : Point) (eps : ℚ) : vecinosObj [pt] 0 eps = [] := by
  apply List.eq_nil_iff_forall_not_mem.2
  intro j hj
  rw [mem_vecinosObj] at hj
  have : j < 1 := by simpa using hj.1
  exact hj.2.1 (by omega)

theorem lista_uno (out : List Int) (x : Int) (hlen : out.length = 1) (h : leer out 0 = x) :
    out = [x] := by
  match out, hlen with
  | [a], _ =>
    simp [leer] at h
    rw [h]

/-- C4, counterexample: with the points at 0, 2, 1, 3 on a line (index order), `eps = 1`
and `minimoPuntos = 3`, both variants return `[-2, 0, 0, 0]`: point 0 is non-core, its
eps-neighbour 2 is a core point, and point 0 is labelled Noise. -/
theorem dbscan_borde_ruido :
    Serial.dbscan puntosBorde 1 3 = [-2, 0, 0, 0] ∧
    Omp.dbscan puntosBorde 1 3 = [-2, 0, 0, 0] ∧
    Serial.core puntosBorde 1 3 0 = false ∧
    2 ∈ vecinosObj puntosBorde 0 1 ∧
    Serial.core puntosBorde 1 3 2 = true ∧
    ¬ bordeAsignado puntosBorde 1 3 (Serial.dbscan puntosBorde 1 3) ∧
    ¬ bordeAsignado puntosBorde 1 3 (Omp.dbscan puntosBorde 1 3) := by
  refine ⟨by decide!, by decide!, by decide!, by decide!, by decide!, ?_, ?_⟩
  · intro h
    exact h 0 (by decide) (by decide!) ⟨2, by decide!, by decide!⟩ (by decide!)
  · intro h
    exact h 0 (by decide) (by decide!) ⟨2, by decide!, by decide!⟩ (by decide!)

/-- C4 as amended: for `minimoPuntos ≥ 1` (a C `int`), in both variants a non-core point
with a core eps-neighbour that has a lower index or is the seed of a cluster gets a
cluster id, the id of one of its core eps-neighbours; a point labelled Noise is non-core
and none of its core eps-neighbours has a lower index or is a seed. -/
theorem dbscan_borde_asignado_si (puntos : List Point) (eps : ℚ) (minimoPuntos : Int)
    (h1 : 1 ≤ minimoPuntos) (h2 : minimoPuntos ≤ 2147483647) :
    bordeAsignadoSi puntos eps minimoPuntos (Serial.dbscan puntos eps minimoPuntos)
      (Serial.semillas puntos eps minimoPuntos) ∧
    bordeAsignadoSi puntos eps minimoPuntos (Omp.dbscan puntos eps minimoPuntos)
      (Omp.semillas puntos eps minimoPuntos) := by
  have hf := Omp.final_eq_serial puntos eps minimoPuntos (by omega) h2
  rw [Omp.omp_dbscan_eq, Omp.omp_semillas_eq, hf, Serial.serial_dbscan_eq, Serial.serial_semillas_eq]
  have h := Serial.serial_inv_final puntos eps minimoPuntos
  have hsym := Serial.nb_simetrica puntos eps
  have key : bordeAsignadoSi puntos eps minimoPuntos (Serial.final puntos eps minimoPuntos).1
      (Serial.final puntos eps minimoPuntos).2 := by
    constructor
    · intro p u hp hcp hu hcu hor
      exact Gen.inv_borde _ _ _ hsym _ h p u hp hcp hu hcu hor
    · intro p hp hl
      exact Gen.inv_ruido_final _ _ _ hsym _ h p hp hl
  exact ⟨key, key⟩

/-- C6: for `minimoPuntos ≥ 1` (a C `int`), in both variants the seed of every cluster `c`
is the lowest-index core point labelled `c`, the seeds increase strictly with the cluster
id, and a core point labelled `c` is preceded, for every `d < c`, by a core point of lower
index labelled `d`. -/
theorem dbscan_semillas_en_orden (puntos : List Point) (eps : ℚ) (minimoPuntos : Int)
    (h1 : 1 ≤ minimoPuntos) (h2 : minimoPuntos ≤ 2147483647) :
    (Serial.semillas puntos eps minimoPuntos).length =
      Serial.clusterCount puntos eps minimoPuntos ∧
    semillasEnOrden puntos eps minimoPuntos (Serial.dbscan puntos eps minimoPuntos)
      (Serial.semillas puntos eps minimoPuntos) ∧
    (Omp.semillas puntos eps minimoPuntos).length =
      Omp.clusterCount puntos eps minimoPuntos ∧
    semillasEnOrden puntos eps minimoPuntos (Omp.dbscan puntos eps minimoPuntos)
      (Omp.semillas puntos eps minimoPuntos) := by
  have hf := Omp.final_eq_serial puntos eps minimoPuntos (by omega) h2
  rw [Omp.omp_dbscan_eq, Omp.omp_semillas_eq, Omp.omp_clusterCount_eq, hf, Serial.serial_dbscan_eq,
    Serial.serial_semillas_eq, Serial.serial_clusterCount_eq]
  have key := Gen.inv_semillas _ _ _ _ (Serial.serial_inv_final puntos eps minimoPuntos)
  exact ⟨rfl, key, rfl, key⟩

/-- C7: the precompute loop of the OpenMP variant executed in any order `orden` (a
permutation of `0..n-1`) writes, at every index `i`, `vecinosObj(puntos, i, eps)` and the
core flag of `i`, which depend on `(puntos, eps, minimoPuntos, i)` only; so it produces
the same two arrays as the loop in index order, and `dbscan` returns the same labels. -/
theorem dbscan_omp_orden (orden : List Nat) (puntos : List Point) (eps : ℚ)
    (minimoPuntos : Int) (hperm : orden.Perm (List.range puntos.length)) :
    (∀ i, i < puntos.length →
      (Omp.precalcular orden puntos eps minimoPuntos).1.getD i [] = vecinosObj puntos i eps ∧
      (Omp.precalcular orden puntos eps minimoPuntos).2.getD i 0 =
        Omp.coreVal puntos eps minimoPuntos i) ∧
    Omp.precalcular orden puntos eps minimoPuntos =
      Omp.precalcular (List.range puntos.length) puntos eps minimoPuntos ∧
    Omp.dbscanEstadoCon orden puntos eps minimoPuntos =
      Omp.dbscanEstado puntos eps minimoPuntos ∧
    (Omp.dbscanEstadoCon orden puntos eps minimoPuntos).1 =
      Omp.dbscan puntos eps minimoPuntos := by
  have he := Omp.precalcular_orden orden puntos eps minimoPuntos hperm
  have hd : Omp.dbscanEstadoCon orden puntos eps minimoPuntos =
      Omp.dbscanEstado puntos eps minimoPuntos := by
    unfold Omp.dbscanEstado Omp.dbscanEstadoCon
    rw [he]
  refine ⟨?_, he, hd, by rw [hd]; rfl⟩
  intro i hi
  obtain ⟨_, _, a3, a4⟩ := Omp.precalcular_spec orden puntos eps minimoPuntos
  have hm : i ∈ orden ∧ i < puntos.length := ⟨hperm.mem_iff.2 (by simpa using hi), hi⟩
  rw [a3 i, a4 i, if_pos hm, if_pos hm]
  exact ⟨rfl, rfl⟩

/-- C9: for `minimoPuntos ≥ 2` (a C `int`), every point whose neighbour list is empty is
labelled Noise (-2) by both variants; a single point gives `[-2]`; and the scenario
`[(0,0), (0.01,0), (0.02,0), (5,5)]`, `eps = 0.05`, `minimoPuntos = 3` gives
`[0, 0, 0, -2]`. -/
theorem dbscan_aislado_ruido (puntos : List Point) (eps : ℚ) (minimoPuntos : Int)
    (h1 : 2 ≤ minimoPuntos) (h2 : minimoPuntos ≤ 2147483647) :
    (∀ p, p < puntos.length → vecinosObj puntos p eps = [] →
      leer (Serial.dbscan puntos eps minimoPuntos) p = -2 ∧
      leer (Omp.dbscan puntos eps minimoPuntos) p = -2) ∧
    (∀ pt : Point, Serial.dbscan [pt] eps minimoPuntos = [-2] ∧
      Omp.dbscan [pt] eps minimoPuntos = [-2]) ∧
    Serial.dbscan puntosEscenario (5 / 100) 3 = [0, 0, 0, -2] ∧
    Omp.dbscan puntosEscenario (5 / 100) 3 = [0, 0, 0, -2] := by
  refine ⟨fun p hp hnil => aislado_ruido puntos eps minimoPuntos h1 h2 p hp hnil, ?_,
    by decide!, by decide!⟩
  intro pt
  have h := aislado_ruido [pt] eps minimoPuntos h1 h2 0 (by simp) (vecinosObj_uno pt eps)
  constructor
  · apply lista_uno _ _ _ h.1
    rw [Serial.serial_dbscan_eq]
    exact (Serial.serial_inv_final [pt] eps minimoPuntos).largo
  · apply lista_uno _ _ _ h.2
    rw [Omp.omp_dbscan_eq]
    exact (Omp.omp_inv_final [pt] eps minimoPuntos).largo

/-! ## Witnesses -/

/-- Witness of C2 on the scenario of the spec. -/
theorem dbscan_omp_eq_serial_witness :
    (1 : Int) ≤ 3 ∧ (3 : Int) ≤ 2147483647 ∧
    Omp.dbscan puntosEscenario (5 / 100) 3 = Serial.dbscan puntosEscenario (5 / 100) 3 :=
  ⟨by decide, by decide,
    dbscan_omp_eq_serial puntosEscenario (5 / 100) 3 (by decide) (by decide)⟩

/-- Witness of C3 on the scenario of the spec: the core point 0 has a cluster id. -/
theorem dbscan_nucleos_componentes_witness :
    (1 : Int) ≤ 3 ∧ (3 : Int) ≤ 2147483647 ∧
    Serial.core puntosEscenario (5 / 100) 3 0 = true ∧
    0 ≤ leer (Serial.dbscan puntosEscenario (5 / 100) 3) 0 ∧
    0 ≤ leer (Omp.dbscan puntosEscenario (5 / 100) 3) 0 :=
  ⟨by decide, by decide, by decide!,
    (dbscan_nucleos_componentes puntosEscenario (5 / 100) 3 (by decide) (by decide)).1 0
      (by decide) (by decide!)⟩

/-- Witness of the amended C4 on the line of four points. -/
theorem dbscan_borde_asignado_si_witness :
    (1 : Int) ≤ 3 ∧ (3 : Int) ≤ 2147483647 ∧
    bordeAsignadoSi puntosBorde 1 3 (Serial.dbscan puntosBorde 1 3)
      (Serial.semillas puntosBorde 1 3) ∧
    bordeAsignadoSi puntosBorde 1 3 (Omp.dbscan puntosBorde 1 3)
      (Omp.semillas puntosBorde 1 3) :=
  ⟨by decide, by decide, dbscan_borde_asignado_si puntosBorde 1 3 (by decide) (by decide)⟩

/-- Witness of C6 on the line of four points. -/
theorem dbscan_semillas_en_orden_witness :
    (1 : Int) ≤ 3 ∧ (3 : Int) ≤ 2147483647 ∧
    semillasEnOrden puntosBorde 1 3 (Serial.dbscan puntosBorde 1 3)
      (Serial.semillas puntosBorde 1 3) :=
  ⟨by decide, by decide,
    (dbscan_semillas_en_orden puntosBorde 1 3 (by decide) (by decide)).2.1⟩

/-- Witness of C7: the precompute iterations of the scenario in the order 3, 1, 0, 2. -/
theorem dbscan_omp_orden_witness :
    [3, 1, 0, 2].Perm (List.range puntosEscenario.length) ∧
    (Omp.dbscanEstadoCon [3, 1, 0, 2] puntosEscenario (5 / 100) 3).1 =
      Omp.dbscan puntosEscenario (5 / 100) 3 :=
  ⟨by decide,
    (dbscan_omp_orden [3, 1, 0, 2] puntosEscenario (5 / 100) 3 (by decide)).2.2.2⟩

/-- Witness of C9: the isolated point 3 of the scenario. -/
theorem dbscan_aislado_ruido_witness :
    (2 : Int) ≤ 3 ∧ (3 : Int) ≤ 2147483647 ∧
    vecinosObj puntosEscenario 3 (5 / 100) = [] ∧
    leer (Serial.dbscan puntosEscenario (5 / 100) 3) 3 = -2 ∧
    leer (Omp.dbscan puntosEscenario (5 / 100) 3) 3 = -2 :=
  ⟨by decide, by decide, by decide!,
    (dbscan_aislado_ruido puntosEscenario (5 / 100) 3 (by decide) (by decide)).1 3
      (by decide) (by decide!)⟩

/-! ## Symmetry of the neighbour query -/

/-- C18: the neighbour relation of `vecinosObj` is symmetric and irreflexive on valid
indices, and `distancia_euclidiana` is symmetric in its arguments. -/
theorem vecinosObj_simetrica (puntos : List Point) (eps : ℚ) (i j : Nat)
    (hi : i < puntos.length) (hj : j < puntos.length) :
    (j ∈ vecinosObj puntos i eps ↔ i ∈ vecinosObj puntos j eps) ∧
    i ∉ vecinosObj puntos i eps ∧
    (∀ p1 p2 : Point, distancia_euclidiana p1 p2 = distancia_euclidiana p2 p1) := by
  refine ⟨⟨vecinosObj_symm puntos eps i j hi, vecinosObj_symm puntos eps j i hj⟩, ?_,
    distancia_comm⟩
  intro h
  exact ((mem_vecinosObj puntos i eps i).1 h).2.1 rfl

/-- Witness of C18 on the scenario of the spec: points 0 and 1 are neighbours of each
other. -/
theorem vecinosObj_simetrica_witness :
    0 < puntosEscenario.length ∧ 1 < puntosEscenario.length ∧
    (1 ∈ vecinosObj puntosEscenario 0 (5 / 100) ↔ 0 ∈ vecinosObj puntosEscenario 1 (5 / 100)) ∧
    0 ∉ vecinosObj puntosEscenario 0 (5 / 100) :=
  ⟨by decide, by decide,
    (vecinosObj_simetrica puntosEscenario (5 / 100) 0 1 (by decide) (by decide)).1,
    (vecinosObj_simetrica puntosEscenario (5 / 100) 0 1 (by decide) (by decide)).2.1⟩

/-- C20: on the points 0, 10, 10.5, 11, 1, 2 of the x-axis with `eps = 1` and
`minimoPuntos = 3` both variants return `[1, 0, 0, 0, 1, 1]`: index 0 carries the id 1 and
the id 0 occurs for the first time at the later index 1, so the ids do not occur for the
first time in increasing order. -/
theorem dbscan_ids_no_en_orden :
    Serial.dbscan puntosOrden 1 3 = [1, 0, 0, 0, 1, 1] ∧
    Omp.dbscan puntosOrden 1 3 = [1, 0, 0, 0, 1, 1] ∧
    (∃ a b, a < b ∧ b < puntosOrden.length ∧
      leer (Serial.dbscan puntosOrden 1 3) a = 1 ∧
      leer (Serial.dbscan puntosOrden 1 3) b = 0 ∧
      ∀ k, k < b → leer (Serial.dbscan puntosOrden 1 3) k ≠ 0) := by
  have h1 : Serial.dbscan puntosOrden 1 3 = [1, 0, 0, 0, 1, 1] := by decide!
  refine ⟨h1, by decide!, 0, 1, by decide, by decide, ?_, ?_, ?_⟩
  · rw [h1]; decide
  · rw [h1]; decide
  · intro k hk
    have : k = 0 := by omega
    rw [h1, this]
    decide

/-! ## Soundness of cluster membership; negative `minimoPuntos` -/

theorem Gen.inv_pertenencia (nb : Nat → List Nat) (core : Nat → Bool) (n : Nat)
    (hsym : Gen.Simetrica nb n)
    (st : List Int × List Nat) (h : Gen.Inv nb core n n st) (p : Nat) (hp : p < n)
    (h0 : 0 ≤ leer st.1 p) :
    core p = true ∨ ∃ u, u ∈ nb p ∧ core u = true ∧ leer st.1 u = leer st.1 p := by
  rcases h.origen p hp h0 with h1 | ⟨u, hu, hcu, hm, hl⟩
  · left; exact h1
  · right; exact ⟨u, (hsym u hu p hm).2, hcu, hl⟩

theorem Gen.inv_sin_nucleo_cerca (nb : Nat → List Nat) (core : Nat → Bool) (n : Nat)
    (hsym : Gen.Simetrica nb n)
    (st : List Int × List Nat) (h : Gen.Inv nb core n n st) (p : Nat) (hp : p < n)
    (hcp : core p = false) (hnb : ∀ u ∈ nb p, core u = false) : leer st.1 p = -2 := by
  have h1 := h.visitado p hp
  have h2 := h.rango p hp
  by_contra hne
  have h0 : 0 ≤ leer st.1 p := by omega
  rcases Gen.inv_pertenencia nb core n hsym st h p hp h0 with h3 | ⟨u, hu, hcu, _⟩
  · rw [hcp] at h3
    exact Bool.noConfusion h3
  · rw [hnb u hu] at hcu
    exact Bool.noConfusion hcu

theorem Gen.inv_todo_ruido (nb : Nat → List Nat) (core : Nat → Bool) (n : Nat)
    (hsym : Gen.Simetrica nb n)
    (st : List Int × List Nat) (h : Gen.Inv nb core n n st)
    (hcore : ∀ i, core i = false) : ∀ l ∈ st.1, l = -2 := by
  intro l hl
  obtain ⟨v, hv, hlv⟩ := mem_leer st.1 l hl
  rw [h.largo] at hv
  rw [← hlv]
  exact Gen.inv_sin_nucleo_cerca nb core n hsym st h v hv (hcore v) (fun u _ => hcore u)

theorem vecinosObj_length_le (puntos : List Point) (i : Nat) (eps : ℚ) :
    (vecinosObj puntos i eps).length ≤ puntos.length := by
  rw [vecinosObj_eq_filter]
  have := List.length_filter_le (esVecino puntos i eps) (List.range puntos.length)
  simpa using this

theorem Omp.coreDe_negativo (puntos : List Point) (eps : ℚ) (minimoPuntos : Int)
    (hlen : puntos.length < 2 ^ 31) (hneg : minimoPuntos < 0)
    (hint : -2147483648 ≤ minimoPuntos) (i : Nat) :
    Omp.coreDe puntos eps minimoPuntos i = false := by
  unfold Omp.coreDe
  have h1 := vecinosObj_length_le puntos i eps
  have h2 : minimoPuntos % 2 ^ 64 = minimoPuntos + 2 ^ 64 := by
    rw [← Int.add_mul_emod_self_left minimoPuntos (2 ^ 64) 1, mul_one]
    exact Int.emod_eq_of_lt (by omega) (by omega)
  rw [h2]
  simp only [decide_eq_false_iff_not, not_le, ge_iff_le]
  have h3 : ((vecinosObj puntos i eps).length : Int) < 2 ^ 31 := by
    have : (vecinosObj puntos i eps).length < 2 ^ 31 := by omega
    exact_mod_cast this
  omega

theorem Omp.esCore_eq (puntos : List Point) (eps : ℚ) (minimoPuntos : Int) (i : Nat)
    (hi : i < puntos.length) :
    (Omp.precalcular (List.range puntos.length) puntos eps minimoPuntos).2.getD i 0 =
      if Omp.coreDe puntos eps minimoPuntos i = true then 1 else 0 := by
  obtain ⟨_, _, _, b4⟩ :=
    Omp.precalcular_spec (List.range puntos.length) puntos eps minimoPuntos
  rw [b4 i]
  have : i ∈ List.range puntos.length ∧ i < puntos.length := ⟨by simpa using hi, hi⟩
  rw [if_pos this]
  unfold Omp.coreVal Omp.coreDe
  by_cases hc : (((vecinosObj puntos i eps).length : Int) + 1) ≥ minimoPuntos % 2 ^ 64
  · simp [hc]
  · simp [hc]

/-- C13: for `minimoPuntos ≥ 1` (a C `int`), in the output of both variants every point
whose label is a cluster id is a core point or has, within `eps`, a core point with the
same label; so a non-core point with no core point among its eps-neighbours is labelled
Noise. -/
theorem dbscan_pertenencia_correcta (puntos : List Point) (eps : ℚ) (minimoPuntos : Int)
    (h1 : 1 ≤ minimoPuntos) (h2 : minimoPuntos ≤ 2147483647) :
    (∀ p, p < puntos.length → 0 ≤ leer (Serial.dbscan puntos eps minimoPuntos) p →
      Serial.core puntos eps minimoPuntos p = true ∨
      ∃ u, u ∈ vecinosObj puntos p eps ∧ Serial.core puntos eps minimoPuntos u = true ∧
        leer (Serial.dbscan puntos eps minimoPuntos) u =
          leer (Serial.dbscan puntos eps minimoPuntos) p) ∧
    (∀ p, p < puntos.length → 0 ≤ leer (Omp.dbscan puntos eps minimoPuntos) p →
      Serial.core puntos eps minimoPuntos p = true ∨
      ∃ u, u ∈ vecinosObj puntos p eps ∧ Serial.core puntos eps minimoPuntos u = true ∧
        leer (Omp.dbscan puntos eps minimoPuntos) u =
          leer (Omp.dbscan puntos eps minimoPuntos) p) ∧
    (∀ p, p < puntos.length → Serial.core puntos eps minimoPuntos p = false →
      (∀ u ∈ vecinosObj puntos p eps, Serial.core puntos eps minimoPuntos u = false) →
      leer (Serial.dbscan puntos eps minimoPuntos) p = -2 ∧
      leer (Omp.dbscan puntos eps minimoPuntos) p = -2) := by
  have ho : Omp.dbscan puntos eps minimoPuntos = Serial.dbscan puntos eps minimoPuntos := by
    rw [Omp.omp_dbscan_eq, Serial.serial_dbscan_eq,
      Omp.final_eq_serial puntos eps minimoPuntos (by omega) h2]
  rw [ho, Serial.serial_dbscan_eq]
  have h := Serial.serial_inv_final puntos eps minimoPuntos
  have hsym := Serial.nb_simetrica puntos eps
  have key : ∀ p, p < puntos.length → 0 ≤ leer (Serial.final puntos eps minimoPuntos).1 p →
      Serial.core puntos eps minimoPuntos p = true ∨
      ∃ u, u ∈ vecinosObj puntos p eps ∧ Serial.core puntos eps minimoPuntos u = true ∧
        leer (Serial.final puntos eps minimoPuntos).1 u =
          leer (Serial.final puntos eps minimoPuntos).1 p :=
    fun p hp h0 => Gen.inv_pertenencia _ _ _ hsym _ h p hp h0
  refine ⟨key, key, ?_⟩
  intro p hp hcp hnb
  have := Gen.inv_sin_nucleo_cerca _ _ _ hsym _ h p hp hcp hnb
  exact ⟨this, this⟩

/-- Witness of C13 on the line of four points with `minimoPuntos = 3`. -/
theorem dbscan_pertenencia_correcta_witness :
    (1 : Int) ≤ 3 ∧ (3 : Int) ≤ 2147483647 ∧
    (Serial.core puntosBorde 1 3 3 = true ∨
      ∃ u, u ∈ vecinosObj puntosBorde 3 1 ∧ Serial.core puntosBorde 1 3 u = true ∧
        leer (Serial.dbscan puntosBorde 1 3) u = leer (Serial.dbscan puntosBorde 1 3) 3) :=
  ⟨by decide, by decide,
    (dbscan_pertenencia_correcta puntosBorde 1 3 (by decide) (by decide)).1 3 (by decide)
      (by decide!)⟩

/-- C19: for a non-empty sequence of fewer than `2^31` points and a negative
`minimoPuntos` (a C `int`, so at least -2147483648), the serial variant treats every point
as core and returns no Noise label, the OpenMP variant sets no `esCore` flag and returns
-2 for every point, and the two label arrays differ; for `minimoPuntos = 0` both treat
every point as core. -/
theorem dbscan_minPts_negativo (puntos : List Point) (eps : ℚ) (minimoPuntos : Int)
    (hne : puntos ≠ []) (hlen : puntos.length < 2 ^ 31) (hneg : minimoPuntos < 0)
    (hint : -2147483648 ≤ minimoPuntos) :
    (∀ i, Serial.core puntos eps minimoPuntos i = true) ∧
    (∀ l ∈ Serial.dbscan puntos eps minimoPuntos, 0 ≤ l) ∧
    (∀ i, i < puntos.length →
      (Omp.precalcular (List.range puntos.length) puntos eps minimoPuntos).2.getD i 0 = 0) ∧
    (∀ l ∈ Omp.dbscan puntos eps minimoPuntos, l = -2) ∧
    Serial.dbscan puntos eps minimoPuntos ≠ Omp.dbscan puntos eps minimoPuntos ∧
    (∀ i, Serial.core puntos eps 0 i = true) ∧
    (∀ i, i < puntos.length →
      (Omp.precalcular (List.range puntos.length) puntos eps 0).2.getD i 0 = 1) := by
  have hs : ∀ i, Serial.core puntos eps minimoPuntos i = true := by
    intro i
    unfold Serial.core
    simp only [decide_eq_true_eq, ge_iff_le]
    omega
  have ho := Omp.coreDe_negativo puntos eps minimoPuntos hlen hneg hint
  have hS : ∀ l ∈ Serial.dbscan puntos eps minimoPuntos, 0 ≤ l := by
    rw [Serial.serial_dbscan_eq]
    exact Gen.inv_sin_ruido _ _ _ _ (Serial.serial_inv_final puntos eps minimoPuntos)
      (fun i _ => hs i)
  have hO : ∀ l ∈ Omp.dbscan puntos eps minimoPuntos, l = -2 := by
    rw [Omp.omp_dbscan_eq]
    exact Gen.inv_todo_ruido _ _ _ (Serial.nb_simetrica puntos eps) _
      (Omp.omp_inv_final puntos eps minimoPuntos) ho
  have hs0 : ∀ i, Serial.core puntos eps 0 i = true := by
    intro i
    unfold Serial.core
    simp only [decide_eq_true_eq, ge_iff_le]
    omega
  refine ⟨hs, hS, ?_, hO, ?_, hs0, ?_⟩
  · intro i hi
    rw [Omp.esCore_eq puntos eps minimoPuntos i hi, ho i]
    simp
  · intro e
    have hpos : 0 < puntos.length := List.length_pos.2 hne
    have hl : (Serial.dbscan puntos eps minimoPuntos).length = puntos.length := by
      rw [Serial.serial_dbscan_eq]
      exact (Serial.serial_inv_final puntos eps minimoPuntos).largo
    have hm := leer_mem (Serial.dbscan puntos eps minimoPuntos) 0 (by omega)
    have a := hS _ hm
    rw [e] at hm
    have b := hO _ hm
    rw [← e] at b
    omega
  · intro i hi
    rw [Omp.esCore_eq puntos eps 0 i hi,
      Omp.coreDe_eq_serial puntos eps 0 (le_refl _) (by omega) i, hs0 i]
    simp

/-- Witness of C19: the scenario of the spec with `minimoPuntos = -1`. -/
theorem dbscan_minPts_negativo_witness :
    puntosEscenario ≠ [] ∧ puntosEscenario.length < 2 ^ 31 ∧ (-1 : Int) < 0 ∧
    (-2147483648 : Int) ≤ -1 ∧
    Serial.dbscan puntosEscenario (5 / 100) (-1) ≠ Omp.dbscan puntosEscenario (5 / 100) (-1) :=
  ⟨by decide, by decide, by decide, by decide,
    (dbscan_minPts_negativo puntosEscenario (5 / 100) (-1) (by decide) (by decide)
      (by decide) (by decide)).2.2.2.2.1⟩

/-! ## One expansion and one outer iteration: which labels change, and how -/

/-- A point labelled Noise when a cluster is started: it takes the new id if it is in
the neighbour list of the seed, and stays Noise otherwise. -/
theorem Gen.expandir_semilla_ruido (nb : Nat → List Nat) (core : Nat → Bool) (cid : Nat)
    (cp : List Int) (i w : Nat) (hi : leer cp i = -1) (hw : leer cp w = -2) :
    (w ∈ nb i → leer (Gen.expandir nb core cid (cp.set i (cid : Int)) (nb i)) w = (cid : Int)) ∧
    (w ∉ nb i → leer (Gen.expandir nb core cid (cp.set i (cid : Int)) (nb i)) w = -2) := by
  have hwi : i ≠ w := by
    intro e
    rw [e] at hi
    omega
  have hcp1 : leer (cp.set i (cid : Int)) w = -2 := by
    rw [leer_set_ne cp w i cid hwi]
    exact hw
  constructor
  · intro hm
    have h0 := Gen.expandir_cola nb core cid (cp.set i (cid : Int)) (nb i) w hm
    rcases Gen.expandir_frame nb core cid (cp.set i (cid : Int)) (nb i) w with h1 | h1
    · rw [hcp1] at h1
      omega
    · exact h1.2
  · intro hm
    exact Gen.expandir_ruido nb core cid (cp.set i (cid : Int)) (nb i) w hcp1 hm

theorem Gen.paso_frame (nb : Nat → List Nat) (core : Nat → Bool)
    (g : List Int × List Nat) (i u : Nat) :
    leer (Gen.paso nb core g i).1 u = leer g.1 u ∨
    (leer g.1 u = -1 ∧ leer (Gen.paso nb core g i).1 u = -2) ∨
    (leer g.1 u < 0 ∧ leer (Gen.paso nb core g i).1 u = (g.2.length : Int)) := by
  unfold Gen.paso
  by_cases hk : leer g.1 i = -1
  · have hlen : i < g.1.length := leer_lt_of_neg g.1 i (by omega)
    by_cases hc : core i = true
    · rw [if_pos hk, if_pos hc]
      simp only
      have hf := Gen.expandir_frame nb core g.2.length (g.1.set i (g.2.length : Int)) (nb i) u
      rw [leer_set g.1 u i _ hlen] at hf
      by_cases e : u = i
      · subst e
        rw [if_pos rfl] at hf
        right; right
        refine ⟨by omega, ?_⟩
        rcases hf with h1 | h1
        · exact h1
        · exact h1.2
      · rw [if_neg e] at hf
        rcases hf with h1 | h1
        · left; exact h1
        · right; right; exact h1
    · rw [if_pos hk, if_neg hc]
      simp only
      rw [leer_set g.1 u i _ hlen]
      by_cases e : u = i
      · subst e
        rw [if_pos rfl]
        right; left
        exact ⟨hk, rfl⟩
      · rw [if_neg e]
        left; rfl
  · rw [if_neg hk]
    left; rfl

/-- Along the outer loop every label follows the allowed transitions, and a cluster id is
never overwritten. -/
theorem Gen.estado_mono (nb : Nat → List Nat) (core : Nat → Bool) (n : Nat)
    (hsym : Gen.Simetrica nb n) (j k u : Nat) (hjk : j ≤ k) (hk : k ≤ n) (hu : u < n) :
    transicionValida (leer (Gen.estado nb core n j).1 u) (leer (Gen.estado nb core n k).1 u) ∧
    (0 ≤ leer (Gen.estado nb core n j).1 u →
      leer (Gen.estado nb core n k).1 u = leer (Gen.estado nb core n j).1 u) := by
  induction k, hjk using Nat.le_induction with
  | base => exact ⟨Or.inl rfl, fun _ => rfl⟩
  | succ k hjk ih =>
    obtain ⟨ih1, ih2⟩ := ih (by omega)
    have hr := (Gen.inv_estado nb core n hsym k (by omega)).rango u hu
    have hf := Gen.paso_frame nb core (Gen.estado nb core n k) k u
    rw [← Gen.estado_succ] at hf
    unfold transicionValida at ih1 ⊢
    constructor
    · omega
    · intro h0
      have := ih2 h0
      omega

theorem Serial.serial_estadoTras_eq (puntos : List Point) (eps : ℚ) (minimoPuntos : Int) (k : Nat) :
    Serial.estadoTras puntos eps minimoPuntos k =
      Gen.proy (Gen.estado (Serial.nb puntos eps) (Serial.core puntos eps minimoPuntos)
        puntos.length k) := by
  unfold Serial.estadoTras Gen.estado
  exact Serial.serial_foldl_eq_gen puntos eps minimoPuntos _
    (List.replicate puntos.length (-1), [])

theorem Omp.omp_estadoTras_eq (puntos : List Point) (eps : ℚ) (minimoPuntos : Int) (k : Nat) :
    Omp.estadoTras puntos eps minimoPuntos k =
      Gen.proy (Gen.estado (Serial.nb puntos eps) (Omp.coreDe puntos eps minimoPuntos)
        puntos.length k) := by
  unfold Omp.estadoTras
  simp only
  have h1 := Omp.omp_foldl_eq_gen
    (Omp.precalcular (List.range puntos.length) puntos eps minimoPuntos).1
    (Omp.precalcular (List.range puntos.length) puntos eps minimoPuntos).2
    (List.range k) (List.replicate puntos.length (-1), [])
  simp only [Gen.proy, List.length_nil] at h1
  rw [h1]
  change Gen.proy (Gen.estado _ _ puntos.length k) = _
  congr 1
  apply Gen.estado_congr
  · intro i hi
    obtain ⟨_, _, b3, _⟩ :=
      Omp.precalcular_spec (List.range puntos.length) puntos eps minimoPuntos
    unfold Omp.nb Serial.nb
    rw [b3 i]
    simp [hi]
  · intro i hi
    unfold Omp.core
    rw [Omp.esCore_eq puntos eps minimoPuntos i hi]
    by_cases hc : Omp.coreDe puntos eps minimoPuntos i = true
    · simp [hc]
    · simp [hc]

theorem Serial.paso_frame_serial (puntos : List Point) (eps : ℚ) (minimoPuntos : Int)
    (st : List Int × Nat) (i u : Nat) :
    leer (Serial.paso puntos eps minimoPuntos st i).1 u = leer st.1 u ∨
    (leer st.1 u = -1 ∧ leer (Serial.paso puntos eps minimoPuntos st i).1 u = -2) ∨
    (leer st.1 u < 0 ∧ leer (Serial.paso puntos eps minimoPuntos st i).1 u = (st.2 : Int)) := by
  have hg : st = Gen.proy (st.1, List.replicate st.2 0) := by
    simp [Gen.proy]
  have := Gen.paso_frame (Serial.nb puntos eps) (Serial.core puntos eps minimoPuntos)
    (st.1, List.replicate st.2 0) i u
  rw [hg, Serial.serial_paso_eq_gen]
  simpa [Gen.proy] using this

theorem Omp.paso_frame_omp (vecinosLista : List (List Nat)) (esCore : List Int)
    (st : List Int × Nat) (i u : Nat) :
    leer (Omp.paso vecinosLista esCore st i).1 u = leer st.1 u ∨
    (leer st.1 u = -1 ∧ leer (Omp.paso vecinosLista esCore st i).1 u = -2) ∨
    (leer st.1 u < 0 ∧ leer (Omp.paso vecinosLista esCore st i).1 u = (st.2 : Int)) := by
  have hg : st = Gen.proy (st.1, List.replicate st.2 0) := by
    simp [Gen.proy]
  have := Gen.paso_frame (Omp.nb vecinosLista) (Omp.core esCore)
    (st.1, List.replicate st.2 0) i u
  rw [hg, Omp.omp_paso_eq_gen]
  simpa [Gen.proy] using this

/-- C14: when the outer loop starts a cluster at index `i` (label -1, core test passed)
in a state with label array `st.1` and `clusterID = st.2`, a point `w` labelled Noise at
that moment has the label `st.2` after the iteration if it is in the neighbour list of
`i`, and is still Noise if it is not, whatever other points the drain labels; in both
variants. -/
theorem dbscan_ruido_asimetrico (puntos : List Point) (eps : ℚ) (minimoPuntos : Int)
    (vecinosLista : List (List Nat)) (esCore : List Int)
    (st : List Int × Nat) (i w : Nat) (hi : leer st.1 i = -1) (hw : leer st.1 w = -2) :
    (¬ (((vecinosObj puntos i eps).length : Int) + 1 < minimoPuntos) →
      (Serial.paso puntos eps minimoPuntos st i).2 = st.2 + 1 ∧
      (w ∈ vecinosObj puntos i eps →
        leer (Serial.paso puntos eps minimoPuntos st i).1 w = (st.2 : Int)) ∧
      (w ∉ vecinosObj puntos i eps →
        leer (Serial.paso puntos eps minimoPuntos st i).1 w = -2)) ∧
    (esCore.getD i 0 ≠ 0 →
      (Omp.paso vecinosLista esCore st i).2 = st.2 + 1 ∧
      (w ∈ vecinosLista.getD i [] →
        leer (Omp.paso vecinosLista esCore st i).1 w = (st.2 : Int)) ∧
      (w ∉ vecinosLista.getD i [] →
        leer (Omp.paso vecinosLista esCore st i).1 w = -2)) := by
  constructor
  · intro hc
    have hp : Serial.paso puntos eps minimoPuntos st i =
        (Serial.expandir puntos eps minimoPuntos st.2 (st.1.set i (st.2 : Int))
          (vecinosObj puntos i eps), st.2 + 1) := by
      unfold Serial.paso
      rw [if_pos hi]
      simp only
      rw [if_neg hc]
    rw [hp, Serial.serial_expandir_eq_gen]
    have := Gen.expandir_semilla_ruido (Serial.nb puntos eps)
      (Serial.core puntos eps minimoPuntos) st.2 st.1 i w hi hw
    exact ⟨rfl, this.1, this.2⟩
  · intro hc
    have hp : Omp.paso vecinosLista esCore st i =
        (Omp.expandir vecinosLista esCore st.2 (st.1.set i (st.2 : Int))
          (vecinosLista.getD i []), st.2 + 1) := by
      unfold Omp.paso
      rw [if_pos hi, if_neg hc]
    rw [hp, Omp.omp_expandir_eq_gen]
    have := Gen.expandir_semilla_ruido (Omp.nb vecinosLista) (Omp.core esCore) st.2 st.1 i w
      hi hw
    exact ⟨rfl, this.1, this.2⟩

/-- Witness of C14 on the line of four points, in the state reached after the first outer
iteration: the seed is index 1, the Noise point 0 is not its neighbour and stays Noise,
although it is a neighbour of the core point 2, which receives the id 0. -/
theorem dbscan_ruido_asimetrico_witness :
    Serial.estadoTras puntosBorde 1 3 1 = ([-2, -1, -1, -1], 0) ∧
    leer ([-2, -1, -1, -1] : List Int) 1 = -1 ∧ leer ([-2, -1, -1, -1] : List Int) 0 = -2 ∧
    ¬ (((vecinosObj puntosBorde 1 1).length : Int) + 1 < 3) ∧
    0 ∉ vecinosObj puntosBorde 1 1 ∧
    0 ∈ vecinosObj puntosBorde 2 1 ∧ Serial.core puntosBorde 1 3 2 = true ∧
    leer (Serial.paso puntosBorde 1 3 ([-2, -1, -1, -1], 0) 1).1 2 = 0 ∧
    leer (Serial.paso puntosBorde 1 3 ([-2, -1, -1, -1], 0) 1).1 0 = -2 :=
  ⟨by decide!, by decide, by decide, by decide!, by decide!, by decide!, by decide!,
    by decide!,
    ((dbscan_ruido_asimetrico puntosBorde 1 3 [] [] ([-2, -1, -1, -1], 0) 1 0 (by decide)
      (by decide)).1 (by decide!)).2.2 (by decide!)⟩

/-- C15: in both variants, one run of the `while` loop leaves a label as it is or turns
a negative label into the current cluster id; one iteration of the outer loop leaves a
label as it is, turns -1 into -2, or turns a negative label into the current cluster id;
between two moments of the outer loop every label follows one of the transitions
Unvisited to Noise, Unvisited to cluster id, Noise to cluster id (-1 is never written, -2
only over -1), and a label that is a cluster id never changes again. -/
theorem dbscan_transiciones (puntos : List Point) (eps : ℚ) (minimoPuntos : Int) :
    (∀ (cid : Nat) (cp : List Int) (q : List Nat) (u : Nat),
      leer (Serial.expandir puntos eps minimoPuntos cid cp q) u = leer cp u ∨
      (leer cp u < 0 ∧
        leer (Serial.expandir puntos eps minimoPuntos cid cp q) u = (cid : Int))) ∧
    (∀ (vecinosLista : List (List Nat)) (esCore : List Int) (cid : Nat) (cp : List Int)
      (q : List Nat) (u : Nat),
      leer (Omp.expandir vecinosLista esCore cid cp q) u = leer cp u ∨
      (leer cp u < 0 ∧ leer (Omp.expandir vecinosLista esCore cid cp q) u = (cid : Int))) ∧
    (∀ (st : List Int × Nat) (i u : Nat),
      leer (Serial.paso puntos eps minimoPuntos st i).1 u = leer st.1 u ∨
      (leer st.1 u = -1 ∧ leer (Serial.paso puntos eps minimoPuntos st i).1 u = -2) ∨
      (leer st.1 u < 0 ∧
        leer (Serial.paso puntos eps minimoPuntos st i).1 u = (st.2 : Int))) ∧
    (∀ (vecinosLista : List (List Nat)) (esCore : List Int) (st : List Int × Nat) (i u : Nat),
      leer (Omp.paso vecinosLista esCore st i).1 u = leer st.1 u ∨
      (leer st.1 u = -1 ∧ leer (Omp.paso vecinosLista esCore st i).1 u = -2) ∨
      (leer st.1 u < 0 ∧ leer (Omp.paso vecinosLista esCore st i).1 u = (st.2 : Int))) ∧
    (∀ j k u, j ≤ k → k ≤ puntos.length → u < puntos.length →
      transicionValida (leer (Serial.estadoTras puntos eps minimoPuntos j).1 u)
        (leer (Serial.estadoTras puntos eps minimoPuntos k).1 u) ∧
      (0 ≤ leer (Serial.estadoTras puntos eps minimoPuntos j).1 u →
        leer (Serial.estadoTras puntos eps minimoPuntos k).1 u =
          leer (Serial.estadoTras puntos eps minimoPuntos j).1 u)) ∧
    (∀ j k u, j ≤ k → k ≤ puntos.length → u < puntos.length →
      transicionValida (leer (Omp.estadoTras puntos eps minimoPuntos j).1 u)
        (leer (Omp.estadoTras puntos eps minimoPuntos k).1 u) ∧
      (0 ≤ leer (Omp.estadoTras puntos eps minimoPuntos j).1 u →
        leer (Omp.estadoTras puntos eps minimoPuntos k).1 u =
          leer (Omp.estadoTras puntos eps minimoPuntos j).1 u)) ∧
    Serial.estadoTras puntos eps minimoPuntos 0 = (List.replicate puntos.length (-1), 0) ∧
    Serial.estadoTras puntos eps minimoPuntos puntos.length =
      Serial.dbscanEstado puntos eps minimoPuntos ∧
    Omp.estadoTras puntos eps minimoPuntos 0 = (List.replicate puntos.length (-1), 0) ∧
    Omp.estadoTras puntos eps minimoPuntos puntos.length =
      Omp.dbscanEstado puntos eps minimoPuntos := by
  refine ⟨?_, ?_, ?_, ?_, ?_, ?_, rfl, rfl, rfl, rfl⟩
  · intro cid cp q u
    rw [Serial.serial_expandir_eq_gen]
    exact Gen.expandir_frame _ _ cid cp q u
  · intro vl ec cid cp q u
    rw [Omp.omp_expandir_eq_gen]
    exact Gen.expandir_frame _ _ cid cp q u
  · exact Serial.paso_frame_serial puntos eps minimoPuntos
  · exact Omp.paso_frame_omp
  · intro j k u hjk hk hu
    rw [Serial.serial_estadoTras_eq, Serial.serial_estadoTras_eq]
    exact Gen.estado_mono _ _ _ (Serial.nb_simetrica puntos eps) j k u hjk hk hu
  · intro j k u hjk hk hu
    rw [Omp.omp_estadoTras_eq, Omp.omp_estadoTras_eq]
    exact Gen.estado_mono _ _ _ (Serial.nb_simetrica puntos eps) j k u hjk hk hu

/-! ## Checked runs: no access out of range, and the iteration budget that suffices -/

theorem getElem?_eq_leer (cp : List Int) (v : Nat) (h : v < cp.length) :
    cp[v]? = some (leer cp v) := by
  simp [leer, List.getD_eq_getElem?_getD, List.getElem?_eq_getElem h]

theorem Gen.potencial_set (nb : Nat → List Nat) (core : Nat → Bool) (cp : List Int)
    (v cid : Nat) (h : leer cp v < 0) :
    Gen.potencial nb core (cp.set v (cid : Int)) +
      (if core v = true then (nb v).length else 0) = Gen.potencial nb core cp := by
  have hv : v < cp.length := leer_lt_of_neg cp v h
  have hmem : v ∈ Finset.range cp.length := Finset.mem_range.2 hv
  unfold Gen.potencial
  rw [List.length_set]
  rw [← Finset.add_sum_erase _ _ hmem, ← Finset.add_sum_erase (Finset.range cp.length) _ hmem]
  have hsum : Finset.sum ((Finset.range cp.length).erase v)
      (fun u => if leer (cp.set v (cid : Int)) u < 0 ∧ core u = true then (nb u).length else 0) =
      Finset.sum ((Finset.range cp.length).erase v)
      (fun u => if leer cp u < 0 ∧ core u = true then (nb u).length else 0) := by
    apply Finset.sum_congr rfl
    intro u hu
    have hne : v ≠ u := fun e => (Finset.mem_erase.1 hu).1 e.symm
    rw [leer_set_ne cp u v cid hne]
  rw [hsum, leer_set_eq cp v cid hv]
  have hc : ¬ ((cid : Int) < 0) := by omega
  by_cases hcore : core v = true
  · simp [hc, h, hcore]
    omega
  · simp [hc, hcore]

/-- The checked `while` loop never accesses an index out of range, returns the labels of
the unchecked loop whenever it returns, and does return when the budget is at least the
length of the queue plus the pushes still possible. -/
theorem Gen.expandirN_spec (nb : Nat → List Nat) (core : Nat → Bool)
    (f : Nat → Except Fallo (Option (List Nat))) (cid n : Nat)
    (hf : ∀ v, v < n → f v = .ok (if core v = true then some (nb v) else none))
    (hb : ∀ v, v < n → ∀ w ∈ nb v, w < n)
    (fuel : Nat) (cp : List Int) (q : List Nat) (hlen : cp.length = n)
    (hq : ∀ v ∈ q, v < n) :
    (Gen.expandirN f cid fuel cp q = .ok (Gen.expandir nb core cid cp q) ∨
      Gen.expandirN f cid fuel cp q = .error Fallo.sinFuel) ∧
    (q.length + Gen.potencial nb core cp ≤ fuel →
      Gen.expandirN f cid fuel cp q = .ok (Gen.expandir nb core cid cp q)) := by
  induction fuel generalizing cp q with
  | zero =>
    cases q with
    | nil =>
      have : Gen.expandirN f cid 0 cp [] = .ok (Gen.expandir nb core cid cp []) := by
        rw [Gen.expandir_nil]; rfl
      exact ⟨Or.inl this, fun _ => this⟩
    | cons v q1 =>
      refine ⟨Or.inr rfl, ?_⟩
      intro hbound
      simp at hbound
  | succ fuel ih =>
    cases q with
    | nil =>
      have : Gen.expandirN f cid (fuel + 1) cp [] = .ok (Gen.expandir nb core cid cp []) := by
        rw [Gen.expandir_nil]; rfl
      exact ⟨Or.inl this, fun _ => this⟩
    | cons v q1 =>
      have hv : v < n := hq v (List.mem_cons_self _ _)
      have hq1 : ∀ w ∈ q1, w < n := fun w hw => hq w (List.mem_cons_of_mem _ hw)
      have hget := getElem?_eq_leer cp v (by omega)
      rw [Gen.expandir_cons]
      by_cases hneg : leer cp v < 0
      · have hpot := Gen.potencial_set nb core cp v cid hneg
        have hlen1 : (cp.set v (cid : Int)).length = n := by simpa using hlen
        by_cases hc : core v = true
        · have hall : (nb v).all (fun w => decide (w < (cp.set v (cid : Int)).length)) = true := by
            rw [List.all_eq_true]
            intro w hw
            rw [hlen1]
            simpa using hb v hv w hw
          have hstep : Gen.expandirN f cid (fuel + 1) cp (v :: q1) =
              Gen.expandirN f cid fuel (cp.set v (cid : Int))
                (q1 ++ (nb v).filter (fun w => decide (leer (cp.set v (cid : Int)) w = -1))) := by
            rw [Gen.expandirN]
            simp only [hget, hneg, if_true, hf v hv, hc, hall]
          have hsig : Gen.siguiente nb core cid cp v q1 =
              (cp.set v (cid : Int),
                q1 ++ (nb v).filter (fun w => decide (leer (cp.set v (cid : Int)) w = -1))) := by
            unfold Gen.siguiente
            rw [if_pos hneg, if_pos hc]
          rw [hstep, hsig]
          have hq2 : ∀ w ∈ q1 ++ (nb v).filter
              (fun w => decide (leer (cp.set v (cid : Int)) w = -1)), w < n := by
            intro w hw
            rcases List.mem_append.1 hw with h1 | h1
            · exact hq1 w h1
            · exact hb v hv w (List.mem_of_mem_filter h1)
          obtain ⟨a, b⟩ := ih (cp.set v (cid : Int)) _ hlen1 hq2
          refine ⟨a, ?_⟩
          intro hbound
          apply b
          have hfl := List.length_filter_le
            (fun w => decide (leer (cp.set v (cid : Int)) w = -1)) (nb v)
          rw [if_pos hc] at hpot
          simp only [List.length_cons, List.length_append] at hbound ⊢
          omega
        · have hstep : Gen.expandirN f cid (fuel + 1) cp (v :: q1) =
              Gen.expandirN f cid fuel (cp.set v (cid : Int)) q1 := by
            rw [Gen.expandirN]
            simp only [hget, hneg, if_true, hf v hv, hc]
            rfl
          have hsig : Gen.siguiente nb core cid cp v q1 = (cp.set v (cid : Int), q1) := by
            unfold Gen.siguiente
            rw [if_pos hneg, if_neg hc]
          rw [hstep, hsig]
          obtain ⟨a, b⟩ := ih (cp.set v (cid : Int)) q1 hlen1 hq1
          refine ⟨a, ?_⟩
          intro hbound
          apply b
          rw [if_neg hc] at hpot
          simp only [List.length_cons] at hbound
          omega
      · have hstep : Gen.expandirN f cid (fuel + 1) cp (v :: q1) =
            Gen.expandirN f cid fuel cp q1 := by
          rw [Gen.expandirN]
          simp only [hget, hneg, if_false]
        have hsig : Gen.siguiente nb core cid cp v q1 = (cp, q1) := by
          unfold Gen.siguiente
          rw [if_neg hneg]
        rw [hstep, hsig]
        obtain ⟨a, b⟩ := ih cp q1 hlen hq1
        refine ⟨a, ?_⟩
        intro hbound
        apply b
        simp only [List.length_cons] at hbound
        omega

theorem Gen.potencial_semilla (nb : Nat → List Nat) (core : Nat → Bool) (cp : List Int)
    (i cid : Nat) (hi : i < cp.length) :
    (nb i).length + Gen.potencial nb core (cp.set i (cid : Int)) ≤
      Finset.sum (Finset.range cp.length) (fun v => (nb v).length) := by
  have hmem : i ∈ Finset.range cp.length := Finset.mem_range.2 hi
  unfold Gen.potencial
  rw [List.length_set]
  rw [← Finset.add_sum_erase _ _ hmem, ← Finset.add_sum_erase (Finset.range cp.length) _ hmem]
  have hc : ¬ ((cid : Int) < 0) := by omega
  have h0 : (if leer (cp.set i (cid : Int)) i < 0 ∧ core i = true then (nb i).length else 0)
      = 0 := by
    rw [leer_set_eq cp i cid hi]
    simp [hc]
  rw [h0, zero_add]
  apply Nat.add_le_add_left
  apply Finset.sum_le_sum
  intro u _
  split
  · exact le_refl _
  · exact Nat.zero_le _

theorem Gen.potencial_le (nb : Nat → List Nat) (core : Nat → Bool) (cp : List Int) :
    Gen.potencial nb core cp ≤
      Finset.sum (Finset.range cp.length) (fun v => (nb v).length) := by
  unfold Gen.potencial
  apply Finset.sum_le_sum
  intro u _
  split
  · exact le_refl _
  · exact Nat.zero_le _

theorem Gen.pasoOk_spec (nb : Nat → List Nat) (core : Nat → Bool)
    (f : Nat → Except Fallo (Option (List Nat))) (n : Nat)
    (hf : ∀ v, v < n → f v = .ok (if core v = true then some (nb v) else none))
    (hb : ∀ v, v < n → ∀ w ∈ nb v, w < n)
    (fuel : Nat) (st : List Int × List Nat) (i : Nat) (hlen : st.1.length = n) (hi : i < n) :
    (Gen.pasoOk f fuel st i = .ok (Gen.paso nb core st i) ∨
      Gen.pasoOk f fuel st i = .error Fallo.sinFuel) ∧
    (Finset.sum (Finset.range n) (fun v => (nb v).length) ≤ fuel →
      Gen.pasoOk f fuel st i = .ok (Gen.paso nb core st i)) := by
  have hget := getElem?_eq_leer st.1 i (by omega)
  unfold Gen.pasoOk Gen.paso
  simp only [hget]
  by_cases hk : leer st.1 i = -1
  · simp only [hk, if_true, hf i hi]
    by_cases hc : core i = true
    · simp only [hc, if_true]
      have hlen1 : (st.1.set i (st.2.length : Int)).length = n := by simpa using hlen
      obtain ⟨a, b⟩ := Gen.expandirN_spec nb core f st.2.length n hf hb fuel
        (st.1.set i (st.2.length : Int)) (nb i) hlen1 (hb i hi)
      constructor
      · rcases a with a | a
        · left; rw [a]
        · right; rw [a]
      · intro hbound
        have hs := Gen.potencial_semilla nb core st.1 i st.2.length (by omega)
        rw [hlen] at hs
        rw [b (by omega)]
    · simp only [hc]
      exact ⟨Or.inl (by simp), fun _ => by simp⟩
  · simp only [hk, if_false]
    exact ⟨Or.inl trivial, fun _ => trivial⟩

theorem Gen.bucleOk_spec (nb : Nat → List Nat) (core : Nat → Bool)
    (f : Nat → Except Fallo (Option (List Nat))) (n : Nat)
    (hf : ∀ v, v < n → f v = .ok (if core v = true then some (nb v) else none))
    (hb : ∀ v, v < n → ∀ w ∈ nb v, w < n)
    (fuel : Nat) (l : List Nat) (st : List Int × List Nat) (hlen : st.1.length = n)
    (hl : ∀ i ∈ l, i < n) :
    (Gen.bucleOk f fuel l st = .ok (l.foldl (Gen.paso nb core) st) ∨
      Gen.bucleOk f fuel l st = .error Fallo.sinFuel) ∧
    (Finset.sum (Finset.range n) (fun v => (nb v).length) ≤ fuel →
      Gen.bucleOk f fuel l st = .ok (l.foldl (Gen.paso nb core) st)) := by
  induction l generalizing st with
  | nil => exact ⟨Or.inl rfl, fun _ => rfl⟩
  | cons i t ih =>
    have hi : i < n := hl i (List.mem_cons_self _ _)
    have ht : ∀ j ∈ t, j < n := fun j hj => hl j (List.mem_cons_of_mem _ hj)
    obtain ⟨a, b⟩ := Gen.pasoOk_spec nb core f n hf hb fuel st i hlen hi
    have hlen1 : (Gen.paso nb core st i).1.length = n := by
      rw [Gen.paso_length]; exact hlen
    obtain ⟨c, d⟩ := ih (Gen.paso nb core st i) hlen1 ht
    rw [List.foldl_cons]
    constructor
    · rcases a with a | a
      · rw [Gen.bucleOk, a]
        exact c
      · right
        rw [Gen.bucleOk, a]
    · intro hbound
      rw [Gen.bucleOk, b hbound]
      exact d hbound

theorem getElem?_eq_leerPunto (puntos : List Point) (i : Nat) (h : i < puntos.length) :
    puntos[i]? = some (leerPunto puntos i) := by
  simp [leerPunto, List.getD_eq_getElem?_getD, List.getElem?_eq_getElem h]

theorem vecinosOk_foldl (puntos : List Point) (idxObj : Nat) (eps2 : ℚ)
    (hidx : idxObj < puntos.length) (l : List Nat) (hl : ∀ i ∈ l, i < puntos.length)
    (acc : List Nat) :
    l.foldl (vecinosPasoOk puntos idxObj eps2) (.ok acc) =
      .ok (l.foldl (vecinosPaso puntos idxObj eps2) acc) := by
  induction l generalizing acc with
  | nil => rfl
  | cons a t ih =>
    have ha : a < puntos.length := hl a (List.mem_cons_self _ _)
    have hstep : vecinosPasoOk puntos idxObj eps2 (.ok acc) a =
        .ok (vecinosPaso puntos idxObj eps2 acc a) := by
      unfold vecinosPasoOk vecinosPaso
      simp only [getElem?_eq_leerPunto puntos idxObj hidx, getElem?_eq_leerPunto puntos a ha]
      by_cases h1 : idxObj = a
      · simp [h1]
      · by_cases h2 : distancia_euclidiana (leerPunto puntos idxObj) (leerPunto puntos a) ≤ eps2
        · simp [h1, h2]
        · simp [h1, h2]
    rw [List.foldl_cons, List.foldl_cons, hstep]
    exact ih (fun i hi => hl i (List.mem_cons_of_mem _ hi)) _

/-- With a valid query index every access of `vecinosObj` is in range. -/
theorem vecinosObjOk_eq (puntos : List Point) (idxObj : Nat) (eps : ℚ)
    (hidx : idxObj < puntos.length) :
    vecinosObjOk puntos idxObj eps = .ok (vecinosObj puntos idxObj eps) := by
  unfold vecinosObjOk vecinosObj
  exact vecinosOk_foldl puntos idxObj (eps * eps) hidx _
    (fun i hi => List.mem_range.1 hi) []

theorem Serial.serial_vecinosSi_eq (puntos : List Point) (eps : ℚ) (minimoPuntos : Int) (v : Nat)
    (hv : v < puntos.length) :
    Serial.vecinosSi puntos eps minimoPuntos v =
      .ok (if Serial.core puntos eps minimoPuntos v = true then some (Serial.nb puntos eps v)
        else none) := by
  unfold Serial.vecinosSi Serial.core Serial.nb
  rw [vecinosObjOk_eq puntos v eps hv]
  by_cases hc : ((vecinosObj puntos v eps).length : Int) + 1 ≥ minimoPuntos
  · simp [hc]
  · simp [hc]

theorem Serial.serial_expandirN_eq_gen (puntos : List Point) (eps : ℚ) (minimoPuntos : Int)
    (cid fuel : Nat) (cp : List Int) (q : List Nat) :
    Serial.expandirN puntos eps minimoPuntos cid fuel cp q =
      Gen.expandirN (Serial.vecinosSi puntos eps minimoPuntos) cid fuel cp q := by
  induction fuel generalizing cp q with
  | zero =>
    cases q with
    | nil => rfl
    | cons v q1 => rfl
  | succ fuel ih =>
    cases q with
    | nil => rfl
    | cons v q1 =>
      rw [Serial.expandirN, Gen.expandirN]
      cases hget : cp[v]? with
      | none => rfl
      | some l =>
        simp only
        by_cases hneg : l < 0
        · simp only [hneg, if_true]
          cases hvo : vecinosObjOk puntos v eps with
          | error e =>
            have hsi : Serial.vecinosSi puntos eps minimoPuntos v = .error e := by
              unfold Serial.vecinosSi; rw [hvo]
            simp only [hsi]
          | ok vec =>
            simp only
            by_cases hc : (vec.length : Int) + 1 ≥ minimoPuntos
            · have hsi : Serial.vecinosSi puntos eps minimoPuntos v = .ok (some vec) := by
                unfold Serial.vecinosSi; rw [hvo]; simp only [hc, if_true]
              simp only [hc, if_true, ih, hsi]
            · have hsi : Serial.vecinosSi puntos eps minimoPuntos v = .ok none := by
                unfold Serial.vecinosSi; rw [hvo]; simp only [hc, if_false]
              simp only [hc, if_false, ih, hsi]
        · simp only [hneg, if_false, ih]

theorem Serial.serial_pasoOk_eq_gen (puntos : List Point) (eps : ℚ) (minimoPuntos : Int)
    (fuel : Nat) (g : List Int × List Nat) (i : Nat) :
    Serial.pasoOk puntos eps minimoPuntos fuel (Gen.proy g) i =
      Except.map Gen.proy (Gen.pasoOk (Serial.vecinosSi puntos eps minimoPuntos) fuel g i) := by
  unfold Serial.pasoOk Gen.pasoOk Gen.proy
  simp only
  cases hget : g.1[i]? with
  | none => rfl
  | some l =>
    simp only
    by_cases hk : l = -1
    · simp only [hk, if_true]
      cases hvo : vecinosObjOk puntos i eps with
      | error e =>
        have hsi : Serial.vecinosSi puntos eps minimoPuntos i = .error e := by
          unfold Serial.vecinosSi; rw [hvo]
        simp only [hsi]
        rfl
      | ok vec =>
        simp only
        by_cases hc : (vec.length : Int) + 1 < minimoPuntos
        · have hc2 : ¬ ((vec.length : Int) + 1 ≥ minimoPuntos) := by omega
          have hsi : Serial.vecinosSi puntos eps minimoPuntos i = .ok none := by
            unfold Serial.vecinosSi; rw [hvo]; simp only [hc2, if_false]
          simp only [hc, if_true, hsi]
          rfl
        · have hc2 : (vec.length : Int) + 1 ≥ minimoPuntos := by omega
          have hsi : Serial.vecinosSi puntos eps minimoPuntos i = .ok (some vec) := by
            unfold Serial.vecinosSi; rw [hvo]; simp only [hc2, if_true]
          simp only [hc, if_false, hsi, Serial.serial_expandirN_eq_gen]
          cases Gen.expandirN (Serial.vecinosSi puntos eps minimoPuntos) g.2.length fuel
              (g.1.set i (g.2.length : Int)) vec with
          | error e => rfl
          | ok cp => simp [Except.map]
    · simp only [hk, if_false]
      rfl

theorem Serial.serial_bucleOk_eq_gen (puntos : List Point) (eps : ℚ) (minimoPuntos : Int)
    (fuel : Nat) (l : List Nat) (g : List Int × List Nat) :
    Serial.bucleOk puntos eps minimoPuntos fuel l (Gen.proy g) =
      Except.map Gen.proy (Gen.bucleOk (Serial.vecinosSi puntos eps minimoPuntos) fuel l g) := by
  induction l generalizing g with
  | nil => rfl
  | cons i t ih =>
    rw [Serial.bucleOk, Gen.bucleOk, Serial.serial_pasoOk_eq_gen]
    cases Gen.pasoOk (Serial.vecinosSi puntos eps minimoPuntos) fuel g i with
    | error e => rfl
    | ok st1 =>
      simp only [Except.map]
      exact ih st1

theorem lista_suma_rango (g : Nat → Nat) (n : Nat) :
    ((List.range n).map g).sum = Finset.sum (Finset.range n) g := by
  induction n with
  | zero => simp
  | succ n ih =>
    rw [List.range_succ, List.map_append, List.sum_append, Finset.sum_range_succ, ih]
    simp

/-- The checked serial `dbscan` never fails on an access out of range; it returns the
labels of `dbscan` when the budget is at least the sum of the lengths of the neighbour
lists. -/
theorem Serial.serial_dbscanOk_spec (puntos : List Point) (eps : ℚ) (minimoPuntos : Int)
    (fuel : Nat) :
    (Serial.dbscanOk puntos eps minimoPuntos fuel = .ok (Serial.dbscan puntos eps minimoPuntos) ∨
      Serial.dbscanOk puntos eps minimoPuntos fuel = .error Fallo.sinFuel) ∧
    (sumaVecinos puntos eps ≤ fuel →
      Serial.dbscanOk puntos eps minimoPuntos fuel =
        .ok (Serial.dbscan puntos eps minimoPuntos)) := by
  have hinit : ((List.replicate puntos.length (-1), 0) : List Int × Nat) =
      Gen.proy (List.replicate puntos.length (-1), []) := rfl
  obtain ⟨a, b⟩ := Gen.bucleOk_spec (Serial.nb puntos eps)
    (Serial.core puntos eps minimoPuntos) (Serial.vecinosSi puntos eps minimoPuntos)
    puntos.length (Serial.serial_vecinosSi_eq puntos eps minimoPuntos)
    (fun v _ w hw => vecinosObj_lt puntos eps v w hw) fuel (List.range puntos.length)
    (List.replicate puntos.length (-1), []) (by simp) (fun i hi => List.mem_range.1 hi)
  have hsum : sumaVecinos puntos eps =
      Finset.sum (Finset.range puntos.length) (fun v => (Serial.nb puntos eps v).length) :=
    lista_suma_rango _ _
  have hd : Serial.dbscan puntos eps minimoPuntos =
      ((List.range puntos.length).foldl (Gen.paso (Serial.nb puntos eps)
        (Serial.core puntos eps minimoPuntos)) (List.replicate puntos.length (-1), [])).1 := by
    rw [Serial.serial_dbscan_eq]
    rfl
  unfold Serial.dbscanOk
  simp only
  rw [hinit, Serial.serial_bucleOk_eq_gen, hd]
  constructor
  · rcases a with a | a
    · left; rw [a]; rfl
    · right; rw [a]; rfl
  · intro hbound
    rw [b (by rw [← hsum]; exact hbound)]
    rfl

theorem Omp.precalcPaso_length (puntos : List Point) (eps : ℚ) (minimoPuntos : Int)
    (st : List (List Nat) × List Int) (i : Nat) :
    (Omp.precalcPaso puntos eps minimoPuntos st i).1.length = st.1.length ∧
    (Omp.precalcPaso puntos eps minimoPuntos st i).2.length = st.2.length := by
  unfold Omp.precalcPaso
  simp only
  split <;> simp

theorem Omp.precalcPasoOk_eq (puntos : List Point) (eps : ℚ) (minimoPuntos : Int)
    (st : List (List Nat) × List Int) (i : Nat) (hi : i < puntos.length)
    (h1 : st.1.length = puntos.length) (h2 : st.2.length = puntos.length) :
    Omp.precalcPasoOk puntos eps minimoPuntos st i =
      .ok (Omp.precalcPaso puntos eps minimoPuntos st i) := by
  have hget : (st.1.set i (vecinosObj puntos i eps)).getD i [] = vecinosObj puntos i eps := by
    simp [List.getD_eq_getElem?_getD, List.getElem?_set, h1, hi]
  unfold Omp.precalcPasoOk Omp.precalcPaso
  simp only [h1, h2, hi, if_true, vecinosObjOk_eq puntos i eps hi, hget]
  split <;> rfl

theorem Omp.precalcularOk_eq (puntos : List Point) (eps : ℚ) (minimoPuntos : Int)
    (l : List Nat) (hl : ∀ i ∈ l, i < puntos.length) (st : List (List Nat) × List Int)
    (h1 : st.1.length = puntos.length) (h2 : st.2.length = puntos.length) :
    Omp.precalcularOk puntos eps minimoPuntos l st =
      .ok (l.foldl (Omp.precalcPaso puntos eps minimoPuntos) st) := by
  induction l generalizing st with
  | nil => rfl
  | cons i t ih =>
    have hi : i < puntos.length := hl i (List.mem_cons_self _ _)
    rw [Omp.precalcularOk, Omp.precalcPasoOk_eq puntos eps minimoPuntos st i hi h1 h2,
      List.foldl_cons]
    obtain ⟨a, b⟩ := Omp.precalcPaso_length puntos eps minimoPuntos st i
    exact ih (fun j hj => hl j (List.mem_cons_of_mem _ hj)) _ (by rw [a, h1]) (by rw [b, h2])

theorem Omp.omp_vecinosSi_eq (vecinosLista : List (List Nat)) (esCore : List Int) (n v : Nat)
    (h1 : vecinosLista.length = n) (h2 : esCore.length = n) (hv : v < n) :
    Omp.vecinosSi vecinosLista esCore v =
      .ok (if Omp.core esCore v = true then some (Omp.nb vecinosLista v) else none) := by
  have hg1 : vecinosLista[v]? = some (vecinosLista.getD v []) := by
    simp [List.getD_eq_getElem?_getD, List.getElem?_eq_getElem (by omega : v < vecinosLista.length)]
  have hg2 : esCore[v]? = some (esCore.getD v 0) := by
    simp [List.getD_eq_getElem?_getD, List.getElem?_eq_getElem (by omega : v < esCore.length)]
  unfold Omp.vecinosSi Omp.core Omp.nb
  rw [hg2]
  simp only
  generalize vecinosLista.getD v [] = vec at hg1 ⊢
  generalize esCore.getD v 0 = c
  by_cases hc : c = 0
  · subst hc
    simp
  · rw [if_pos hc, hg1]
    simp [hc]

theorem Omp.omp_expandirN_eq_gen (vecinosLista : List (List Nat)) (esCore : List Int)
    (cid fuel : Nat) (cp : List Int) (q : List Nat) :
    Omp.expandirN vecinosLista esCore cid fuel cp q =
      Gen.expandirN (Omp.vecinosSi vecinosLista esCore) cid fuel cp q := by
  induction fuel generalizing cp q with
  | zero =>
    cases q with
    | nil => rfl
    | cons v q1 => rfl
  | succ fuel ih =>
    cases q with
    | nil => rfl
    | cons v q1 =>
      rw [Omp.expandirN, Gen.expandirN]
      cases hget : cp[v]? with
      | none => rfl
      | some l =>
        simp only
        by_cases hneg : l < 0
        · simp only [hneg, if_true]
          cases hec : esCore[v]? with
          | none =>
            have hsi : Omp.vecinosSi vecinosLista esCore v = .error Fallo.fueraDeRango := by
              unfold Omp.vecinosSi; rw [hec]
            simp only [hsi]
          | some c =>
            simp only
            by_cases hc : c = 0
            · have hsi : Omp.vecinosSi vecinosLista esCore v = .ok none := by
                unfold Omp.vecinosSi; rw [hec]; simp [hc]
              simp only [hc, ne_eq, not_true_eq_false, if_false, hsi, ih]
            · cases hvl : vecinosLista[v]? with
              | none =>
                have hsi : Omp.vecinosSi vecinosLista esCore v = .error Fallo.fueraDeRango := by
                  unfold Omp.vecinosSi; rw [hec]; simp [hc, hvl]
                simp only [hc, ne_eq, not_false_eq_true, if_true, hsi]
              | some vec =>
                have hsi : Omp.vecinosSi vecinosLista esCore v = .ok (some vec) := by
                  unfold Omp.vecinosSi; rw [hec]; simp [hc, hvl]
                simp only [hc, ne_eq, not_false_eq_true, if_true, hsi, ih]
        · simp only [hneg, if_false, ih]

theorem Omp.omp_pasoOk_eq_gen (vecinosLista : List (List Nat)) (esCore : List Int)
    (fuel : Nat) (g : List Int × List Nat) (i : Nat) :
    Omp.pasoOk vecinosLista esCore fuel (Gen.proy g) i =
      Except.map Gen.proy (Gen.pasoOk (Omp.vecinosSi vecinosLista esCore) fuel g i) := by
  unfold Omp.pasoOk Gen.pasoOk Gen.proy
  simp only
  cases hget : g.1[i]? with
  | none => rfl
  | some l =>
    simp only
    by_cases hk : l = -1
    · simp only [hk, if_true]
      cases hec : esCore[i]? with
      | none =>
        have hsi : Omp.vecinosSi vecinosLista esCore i = .error Fallo.fueraDeRango := by
          unfold Omp.vecinosSi; rw [hec]
        simp only [hsi]
        rfl
      | some c =>
        simp only
        by_cases hc : c = 0
        · have hsi : Omp.vecinosSi vecinosLista esCore i = .ok none := by
            unfold Omp.vecinosSi; rw [hec]; simp [hc]
          simp only [hc, if_true, hsi]
          rfl
        · cases hvl : vecinosLista[i]? with
          | none =>
            have hsi : Omp.vecinosSi vecinosLista esCore i = .error Fallo.fueraDeRango := by
              unfold Omp.vecinosSi; rw [hec]; simp [hc, hvl]
            simp only [hc, if_false, hsi]
            rfl
          | some vec =>
            have hsi : Omp.vecinosSi vecinosLista esCore i = .ok (some vec) := by
              unfold Omp.vecinosSi; rw [hec]; simp [hc, hvl]
            simp only [hc, if_false, hsi, Omp.omp_expandirN_eq_gen]
            cases Gen.expandirN (Omp.vecinosSi vecinosLista esCore) g.2.length fuel
                (g.1.set i (g.2.length : Int)) vec with
            | error e => rfl
            | ok cp => simp [Except.map]
    · simp only [hk, if_false]
      rfl

theorem Omp.omp_bucleOk_eq_gen (vecinosLista : List (List Nat)) (esCore : List Int)
    (fuel : Nat) (l : List Nat) (g : List Int × List Nat) :
    Omp.bucleOk vecinosLista esCore fuel l (Gen.proy g) =
      Except.map Gen.proy (Gen.bucleOk (Omp.vecinosSi vecinosLista esCore) fuel l g) := by
  induction l generalizing g with
  | nil => rfl
  | cons i t ih =>
    rw [Omp.bucleOk, Gen.bucleOk, Omp.omp_pasoOk_eq_gen]
    cases Gen.pasoOk (Omp.vecinosSi vecinosLista esCore) fuel g i with
    | error e => rfl
    | ok st1 =>
      simp only [Except.map]
      exact ih st1

/-- The checked OpenMP `dbscan` never fails on an access out of range; it returns the
labels of `dbscan` when the budget is at least the sum of the lengths of the neighbour
lists. -/
theorem Omp.omp_dbscanOk_spec (puntos : List Point) (eps : ℚ) (minimoPuntos : Int)
    (fuel : Nat) :
    (Omp.dbscanOk puntos eps minimoPuntos fuel = .ok (Omp.dbscan puntos eps minimoPuntos) ∨
      Omp.dbscanOk puntos eps minimoPuntos fuel = .error Fallo.sinFuel) ∧
    (sumaVecinos puntos eps ≤ fuel →
      Omp.dbscanOk puntos eps minimoPuntos fuel = .ok (Omp.dbscan puntos eps minimoPuntos)) := by
  have hinit : ((List.replicate puntos.length (-1), 0) : List Int × Nat) =
      Gen.proy (List.replicate puntos.length (-1), []) := rfl
  obtain ⟨p1, p2, p3, _⟩ :=
    Omp.precalcular_spec (List.range puntos.length) puntos eps minimoPuntos
  have hnb : ∀ v, v < puntos.length →
      Omp.nb (Omp.precalcular (List.range puntos.length) puntos eps minimoPuntos).1 v =
        vecinosObj puntos v eps := by
    intro v hv
    unfold Omp.nb
    rw [p3 v]
    simp [hv]
  have hpre : Omp.precalcularOk puntos eps minimoPuntos (List.range puntos.length)
      (List.replicate puntos.length [], List.replicate puntos.length 0) =
      .ok (Omp.precalcular (List.range puntos.length) puntos eps minimoPuntos) := by
    unfold Omp.precalcular
    exact Omp.precalcularOk_eq puntos eps minimoPuntos _ (fun i hi => List.mem_range.1 hi) _
      (by simp) (by simp)
  obtain ⟨a, b⟩ := Gen.bucleOk_spec
    (Omp.nb (Omp.precalcular (List.range puntos.length) puntos eps minimoPuntos).1)
    (Omp.core (Omp.precalcular (List.range puntos.length) puntos eps minimoPuntos).2)
    (Omp.vecinosSi (Omp.precalcular (List.range puntos.length) puntos eps minimoPuntos).1
      (Omp.precalcular (List.range puntos.length) puntos eps minimoPuntos).2)
    puntos.length
    (fun v hv => Omp.omp_vecinosSi_eq _ _ puntos.length v p1 p2 hv)
    (fun v hv w hw => by
      rw [hnb v hv] at hw
      exact vecinosObj_lt puntos eps v w hw)
    fuel (List.range puntos.length)
    (List.replicate puntos.length (-1), []) (by simp) (fun i hi => List.mem_range.1 hi)
  have hsum : sumaVecinos puntos eps =
      Finset.sum (Finset.range puntos.length) (fun v =>
        (Omp.nb (Omp.precalcular (List.range puntos.length) puntos eps minimoPuntos).1
          v).length) := by
    unfold sumaVecinos
    rw [lista_suma_rango]
    apply Finset.sum_congr rfl
    intro v hv
    rw [hnb v (Finset.mem_range.1 hv)]
  have hd : Omp.dbscan puntos eps minimoPuntos =
      ((List.range puntos.length).foldl (Gen.paso
        (Omp.nb (Omp.precalcular (List.range puntos.length) puntos eps minimoPuntos).1)
        (Omp.core (Omp.precalcular (List.range puntos.length) puntos eps minimoPuntos).2))
        (List.replicate puntos.length (-1), [])).1 := by
    unfold Omp.dbscan Omp.dbscanEstado
    rw [Omp.dbscanEstadoCon_eq_gen]
    rfl
  unfold Omp.dbscanOk
  simp only [hpre]
  rw [hinit, Omp.omp_bucleOk_eq_gen, hd]
  constructor
  · rcases a with a | a
    · left; rw [a]; rfl
    · right; rw [a]; rfl
  · intro hbound
    rw [b (by rw [← hsum]; exact hbound)]
    rfl

theorem Serial.expandirN_semilla (puntos : List Point) (eps : ℚ) (minimoPuntos : Int)
    (cid : Nat) (cp : List Int) (i : Nat) (hlen : cp.length = puntos.length)
    (hi : i < puntos.length) :
    Serial.expandirN puntos eps minimoPuntos cid (sumaVecinos puntos eps)
        (cp.set i (cid : Int)) (vecinosObj puntos i eps) =
      .ok (Serial.expandir puntos eps minimoPuntos cid (cp.set i (cid : Int))
        (vecinosObj puntos i eps)) := by
  rw [Serial.serial_expandirN_eq_gen, Serial.serial_expandir_eq_gen]
  have hsum : sumaVecinos puntos eps =
      Finset.sum (Finset.range puntos.length) (fun v => (Serial.nb puntos eps v).length) :=
    lista_suma_rango _ _
  have hs := Gen.potencial_semilla (Serial.nb puntos eps)
    (Serial.core puntos eps minimoPuntos) cp i cid (by omega)
  rw [hlen, ← hsum] at hs
  exact (Gen.expandirN_spec (Serial.nb puntos eps) (Serial.core puntos eps minimoPuntos)
    (Serial.vecinosSi puntos eps minimoPuntos) cid puntos.length
    (Serial.serial_vecinosSi_eq puntos eps minimoPuntos)
    (fun v _ w hw => vecinosObj_lt puntos eps v w hw) (sumaVecinos puntos eps)
    (cp.set i (cid : Int)) (vecinosObj puntos i eps) (by simpa using hlen)
    (fun w hw => vecinosObj_lt puntos eps i w hw)).2 hs

/-- C16: `dbscan` terminates in both variants: with a budget, for each `while` loop, of
as many iterations as the sum of the lengths of the `n` neighbour lists, the checked run
returns, and returns the labels of `dbscan`; one expansion seeded at a valid index drains
its queue within that budget; the outer loop runs over the `n` indices `0..n-1`. -/
theorem dbscan_termina (puntos : List Point) (eps : ℚ) (minimoPuntos : Int) :
    Serial.dbscanOk puntos eps minimoPuntos (sumaVecinos puntos eps) =
      .ok (Serial.dbscan puntos eps minimoPuntos) ∧
    Omp.dbscanOk puntos eps minimoPuntos (sumaVecinos puntos eps) =
      .ok (Omp.dbscan puntos eps minimoPuntos) ∧
    (∀ fuel, sumaVecinos puntos eps ≤ fuel →
      Serial.dbscanOk puntos eps minimoPuntos fuel =
        .ok (Serial.dbscan puntos eps minimoPuntos) ∧
      Omp.dbscanOk puntos eps minimoPuntos fuel = .ok (Omp.dbscan puntos eps minimoPuntos)) ∧
    (∀ (cid : Nat) (cp : List Int) (i : Nat), cp.length = puntos.length →
      i < puntos.length →
      Serial.expandirN puntos eps minimoPuntos cid (sumaVecinos puntos eps)
          (cp.set i (cid : Int)) (vecinosObj puntos i eps) =
        .ok (Serial.expandir puntos eps minimoPuntos cid (cp.set i (cid : Int))
          (vecinosObj puntos i eps))) ∧
    (List.range puntos.length).length = puntos.length := by
  refine ⟨(Serial.serial_dbscanOk_spec puntos eps minimoPuntos _).2 (le_refl _),
    (Omp.omp_dbscanOk_spec puntos eps minimoPuntos _).2 (le_refl _), ?_, ?_, List.length_range _⟩
  · intro fuel hfuel
    exact ⟨(Serial.serial_dbscanOk_spec puntos eps minimoPuntos fuel).2 hfuel,
      (Omp.omp_dbscanOk_spec puntos eps minimoPuntos fuel).2 hfuel⟩
  · intro cid cp i hlen hi
    exact Serial.expandirN_semilla puntos eps minimoPuntos cid cp i hlen hi

/-- C17: in both variants no array access of `dbscan` is out of range: whatever the
iteration budget, the checked run never stops on an access out of range, and with a
sufficient budget it runs to the end and returns the labels of `dbscan`; the indices
pushed into the queue come from `vecinosObj` results or precomputed neighbour lists,
which hold indices below `n` only; `vecinosObj` with a valid query index accesses
`puntos` in range; and the `while` loop exits on the empty queue without reading its
front. -/
theorem dbscan_accesos_en_rango (puntos : List Point) (eps : ℚ) (minimoPuntos : Int)
    (fuel : Nat) :
    Serial.dbscanOk puntos eps minimoPuntos fuel ≠ .error Fallo.fueraDeRango ∧
    Omp.dbscanOk puntos eps minimoPuntos fuel ≠ .error Fallo.fueraDeRango ∧
    (∃ completo, Serial.dbscanOk puntos eps minimoPuntos completo =
        .ok (Serial.dbscan puntos eps minimoPuntos) ∧
      Omp.dbscanOk puntos eps minimoPuntos completo = .ok (Omp.dbscan puntos eps minimoPuntos)) ∧
    (∀ i j, j ∈ vecinosObj puntos i eps → j < puntos.length) ∧
    (∀ i j, j ∈ (Omp.precalcular (List.range puntos.length) puntos eps
      minimoPuntos).1.getD i [] → j < puntos.length) ∧
    (∀ idx, idx < puntos.length →
      vecinosObjOk puntos idx eps = .ok (vecinosObj puntos idx eps)) ∧
    (∀ (cid : Nat) (cp : List Int),
      Serial.expandirN puntos eps minimoPuntos cid fuel cp [] = .ok cp) ∧
    (∀ (vecinosLista : List (List Nat)) (esCore : List Int) (cid : Nat) (cp : List Int),
      Omp.expandirN vecinosLista esCore cid fuel cp [] = .ok cp) := by
  refine ⟨?_, ?_, ⟨sumaVecinos puntos eps,
      (Serial.serial_dbscanOk_spec puntos eps minimoPuntos _).2 (le_refl _),
      (Omp.omp_dbscanOk_spec puntos eps minimoPuntos _).2 (le_refl _)⟩,
    fun i j h => vecinosObj_lt puntos eps i j h, ?_,
    fun idx h => vecinosObjOk_eq puntos idx eps h, ?_, ?_⟩
  · rcases (Serial.serial_dbscanOk_spec puntos eps minimoPuntos fuel).1 with h | h
    · rw [h]; intro e; cases e
    · rw [h]; intro e; cases e
  · rcases (Omp.omp_dbscanOk_spec puntos eps minimoPuntos fuel).1 with h | h
    · rw [h]; intro e; cases e
    · rw [h]; intro e; cases e
  · intro i j hj
    obtain ⟨_, _, p3, _⟩ :=
      Omp.precalcular_spec (List.range puntos.length) puntos eps minimoPuntos
    rw [p3 i] at hj
    split at hj
    · exact vecinosObj_lt puntos eps i j hj
    · exact absurd hj (List.not_mem_nil _)
  · intro cid cp
    cases fuel <;> rfl
  · intro vl ec cid cp
    cases fuel <;> rfl

/-! ## The neighbour query in binary64 arithmetic -/

theorem vecinos64_foldl (puntos : List Point64) (idxObj : Nat) (eps : Doble) (l acc : List Nat) :
    l.foldl (vecinosPaso64 puntos idxObj (Doble.mult eps eps)) acc =
      acc ++ l.filter (esVecino64 puntos idxObj eps) := by
  induction l generalizing acc with
  | nil => simp
  | cons a t ih =>
    rw [List.foldl_cons, ih]
    unfold vecinosPaso64 esVecino64
    by_cases h1 : idxObj = a
    · simp [h1]
    · by_cases h2 : Doble.le (distancia_euclidiana64 (leerPunto64 puntos idxObj)
          (leerPunto64 puntos a)) (Doble.mult eps eps) = true
      · simp [h1, h2]
      · simp [h1, h2]

theorem vecinosObj64_eq_filter (puntos : List Point64) (idxObj : Nat) (eps : Doble) :
    vecinosObj64 puntos idxObj eps =
      (List.range puntos.length).filter (esVecino64 puntos idxObj eps) := by
  unfold vecinosObj64
  simp only [vecinos64_foldl, List.nil_append]

theorem mem_vecinosObj64 (puntos : List Point64) (idxObj : Nat) (eps : Doble) (j : Nat) :
    j ∈ vecinosObj64 puntos idxObj eps ↔
      j < puntos.length ∧ j ≠ idxObj ∧
        Doble.le (distancia_euclidiana64 (leerPunto64 puntos idxObj) (leerPunto64 puntos j))
          (Doble.mult eps eps) = true := by
  rw [vecinosObj64_eq_filter]
  simp only [List.mem_filter, List.mem_range, esVecino64, Bool.and_eq_true, decide_eq_true_eq]
  constructor
  · rintro ⟨a, b, c⟩
    exact ⟨a, fun e => b e.symm, c⟩
  · rintro ⟨a, b, c⟩
    exact ⟨a, fun e => b e.symm, c⟩

theorem vecinosObj64_sorted (puntos : List Point64) (idxObj : Nat) (eps : Doble) :
    (vecinosObj64 puntos idxObj eps).Sorted (· < ·) := by
  rw [vecinosObj64_eq_filter]
  exact List.Pairwise.filter _ (List.pairwise_lt_range _)

theorem Doble.le_self (a : Doble) (h : a ≠ Doble.nan) : Doble.le a a = true := by
  cases a with
  | fin x => simp [Doble.le]
  | inf s => cases s <;> rfl
  | nan => exact absurd rfl h

theorem redondear_neg (x : ℚ) : redondear (-x) = Doble.neg (redondear x) := by
  unfold redondear
  by_cases h0 : x = 0
  · subst h0
    simp [Doble.neg]
  · have h1 : -x ≠ 0 := neg_ne_zero.2 h0
    rw [if_neg h0, if_neg h1]
    have hn : (-x).num.natAbs = x.num.natAbs := by simp
    have hd : (-x).den = x.den := by simp
    rw [hn, hd]
    have hs : decide (-x < 0) = !decide (x < 0) := by
      rcases lt_or_gt_of_ne h0 with h | h
      · have h2 : ¬ (-x < 0) := by linarith
        simp [h, h2]
      · have h2 : -x < 0 := by linarith
        have h3 : ¬ (x < 0) := by linarith
        simp [h2, h3]
    cases redondearPos x.num.natAbs x.den with
    | none => simp only [Doble.neg, hs]
    | some v =>
      simp only [Doble.neg]
      rcases lt_or_gt_of_ne h0 with h | h
      · have h2 : ¬ (-x < 0) := by linarith
        simp [h, h2]
      · have h2 : -x < 0 := by linarith
        have h3 : ¬ (x < 0) := by linarith
        simp [h2, h3]

theorem Doble.neg_neg (a : Doble) : Doble.neg (Doble.neg a) = a := by
  cases a with
  | fin x => simp [Doble.neg]
  | inf s => simp [Doble.neg]
  | nan => rfl

theorem Doble.suma_comm (a b : Doble) : Doble.suma a b = Doble.suma b a := by
  cases a with
  | fin x =>
    cases b with
    | fin y => simp [Doble.suma, add_comm]
    | inf t => rfl
    | nan => rfl
  | inf s =>
    cases b with
    | fin y => rfl
    | inf t => cases s <;> cases t <;> rfl
    | nan => rfl
  | nan => cases b <;> rfl

theorem Doble.neg_suma (a b : Doble) :
    Doble.neg (Doble.suma a b) = Doble.suma (Doble.neg a) (Doble.neg b) := by
  cases a with
  | fin x =>
    cases b with
    | fin y =>
      show Doble.neg (redondear (x + y)) = redondear (-x + -y)
      rw [← redondear_neg]
      congr 1
      ring
    | inf t => rfl
    | nan => rfl
  | inf s =>
    cases b with
    | fin y => rfl
    | inf t => cases s <;> cases t <;> rfl
    | nan => rfl
  | nan => cases b <;> rfl

theorem Doble.resta_neg (a b : Doble) : Doble.resta a b = Doble.neg (Doble.resta b a) := by
  unfold Doble.resta
  rw [Doble.neg_suma, Doble.neg_neg, Doble.suma_comm]

theorem Doble.mult_neg_neg (a : Doble) :
    Doble.mult (Doble.neg a) (Doble.neg a) = Doble.mult a a := by
  cases a with
  | fin x => simp [Doble.mult, Doble.neg]
  | inf s => cases s <;> rfl
  | nan => rfl

theorem distancia64_comm (p1 p2 : Point64) :
    distancia_euclidiana64 p1 p2 = distancia_euclidiana64 p2 p1 := by
  unfold distancia_euclidiana64
  rw [Doble.resta_neg p1.x p2.x, Doble.resta_neg p1.y p2.y, Doble.mult_neg_neg,
    Doble.mult_neg_neg]

theorem redondearPos_nonneg (p q : Nat) (v : ℚ) (h : redondearPos p q = some v) : 0 ≤ v := by
  unfold redondearPos at h
  simp only at h
  split_ifs at h <;>
    first
    | exact Option.noConfusion h
    | (have h2 := Option.some.inj h
       rw [← h2]
       positivity)

theorem redondear_noNegativo (x : ℚ) (hx : 0 ≤ x) : (redondear x).noNegativo := by
  unfold redondear
  by_cases h0 : x = 0
  · rw [if_pos h0]
    exact Or.inr (Or.inr ⟨0, le_refl _, rfl⟩)
  · rw [if_neg h0]
    have hneg : ¬ (x < 0) := not_lt.2 hx
    cases hr : redondearPos x.num.natAbs x.den with
    | none =>
      simp only [hneg, decide_False]
      exact Or.inr (Or.inl rfl)
    | some v =>
      simp only [hneg, if_false]
      exact Or.inr (Or.inr ⟨v, redondearPos_nonneg _ _ v hr, rfl⟩)

theorem Doble.mult_self_noNegativo (a : Doble) : (Doble.mult a a).noNegativo := by
  cases a with
  | fin x =>
    simp only [Doble.mult]
    exact redondear_noNegativo _ (mul_self_nonneg x)
  | inf s => cases s <;> exact Or.inr (Or.inl rfl)
  | nan => exact Or.inl rfl

theorem Doble.suma_nan_izq (b : Doble) : Doble.suma Doble.nan b = Doble.nan := by
  cases b <;> rfl

theorem Doble.suma_noNegativo (a b : Doble) (ha : a.noNegativo) (hb : b.noNegativo) :
    (Doble.suma a b).noNegativo := by
  rcases ha with rfl | rfl | ⟨x, hx, rfl⟩
  · exact Or.inl (Doble.suma_nan_izq b)
  · rcases hb with rfl | rfl | ⟨y, hy, rfl⟩
    · exact Or.inl rfl
    · exact Or.inr (Or.inl rfl)
    · exact Or.inr (Or.inl rfl)
  · rcases hb with rfl | rfl | ⟨y, hy, rfl⟩
    · exact Or.inl rfl
    · exact Or.inr (Or.inl rfl)
    · simp only [Doble.suma]
      exact redondear_noNegativo _ (add_nonneg hx hy)

theorem distancia64_noNegativo (p1 p2 : Point64) :
    (distancia_euclidiana64 p1 p2).noNegativo := by
  unfold distancia_euclidiana64
  exact Doble.suma_noNegativo _ _ (Doble.mult_self_noNegativo _) (Doble.mult_self_noNegativo _)

theorem Doble.le_cero_iff (d : Doble) (h : d.noNegativo) :
    Doble.le d (Doble.fin 0) = true ↔ d = Doble.fin 0 := by
  rcases h with rfl | rfl | ⟨x, hx, rfl⟩
  · simp [Doble.le]
  · simp [Doble.le]
  · simp only [Doble.le, decide_eq_true_eq, Doble.fin.injEq]
    constructor
    · intro h; exact le_antisymm h hx
    · intro h; rw [h]

theorem Doble.cero_le_cuadrado (eps : Doble) (h : eps ≠ Doble.nan) :
    Doble.le (Doble.fin 0) (Doble.mult eps eps) = true := by
  have hn := Doble.mult_self_noNegativo eps
  cases eps with
  | fin e =>
    rcases hn with h1 | h1 | ⟨x, hx, h1⟩
    · rw [h1]
      simp only [Doble.mult] at h1
      -- the square of a finite value is not NaN
      unfold redondear at h1
      split at h1
      · exact Doble.noConfusion h1
      · split at h1 <;> exact Doble.noConfusion h1
    · rw [h1]; rfl
    · rw [h1]; simpa [Doble.le] using hx
  | inf s => cases s <;> rfl
  | nan => exact absurd rfl h

theorem redondear_cero : redondear 0 = Doble.fin 0 := by
  unfold redondear
  rw [if_pos rfl]

theorem distancia64_mismo (a b : ℚ) :
    distancia_euclidiana64 ⟨Doble.fin a, Doble.fin b⟩ ⟨Doble.fin a, Doble.fin b⟩ =
      Doble.fin 0 := by
  unfold distancia_euclidiana64 Doble.resta
  simp only [Doble.neg, Doble.suma, add_neg_cancel, redondear_cero, Doble.mult, mul_zero,
    add_zero]

theorem Doble.le_nan_izq (b : Doble) : Doble.le Doble.nan b = false := by
  cases b <;> rfl

theorem Doble.cuadrado_no_nan (eps : Doble) (h : eps ≠ Doble.nan) :
    Doble.mult eps eps ≠ Doble.nan := by
  intro hn
  have h1 := Doble.cero_le_cuadrado eps h
  rw [hn] at h1
  exact Bool.noConfusion h1

theorem Doble.no_nan_de_le (a b : Doble) (h : Doble.le a b = true) : a ≠ Doble.nan := by
  intro hn
  rw [hn, Doble.le_nan_izq] at h
  exact Bool.noConfusion h

theorem Doble.no_nan_de_lt (a b : Doble) (h : Doble.lt a b = true) : b ≠ Doble.nan := by
  intro hn
  unfold Doble.lt at h
  rw [hn, Bool.and_eq_true] at h
  have h1 := h.1
  cases a <;> exact Bool.noConfusion h1

theorem vecinosObj64_neg (puntos : List Point64) (q : Nat) (eps : Doble) :
    vecinosObj64 puntos q eps = vecinosObj64 puntos q (Doble.neg eps) := by
  unfold vecinosObj64
  simp only [Doble.mult_neg_neg]

theorem vecinosObj64_symm (puntos : List Point64) (eps : Doble) (i j : Nat)
    (hi : i < puntos.length) (hj : j < puntos.length) :
    j ∈ vecinosObj64 puntos i eps ↔ i ∈ vecinosObj64 puntos j eps := by
  rw [mem_vecinosObj64, mem_vecinosObj64, distancia64_comm]
  constructor
  · rintro ⟨a, b, c⟩
    exact ⟨hi, fun e => b e.symm, c⟩
  · rintro ⟨a, b, c⟩
    exact ⟨hj, fun e => b e.symm, c⟩

/-- C10, counterexample: on the binary64 values (0,0) and (1, 2^-27) with radius 1 the
source returns index 1, because the computed squared distance fl(1 + 2^-54) is 1.0, while
the exact squared distance 1 + 2^-54 exceeds eps² = 1; the list the claim describes is
empty. -/
theorem vecinosObj64_no_exacto :
    0 < puntosCasi.length ∧ Doble.lt (Doble.fin 0) (Doble.fin 1) = true ∧
    puntosCasi.all Point64.representable = true ∧
    vecinosObj64 puntosCasi 0 (Doble.fin 1) = [1] ∧
    ¬ (distanciaExacta (leerPunto64 puntosCasi 0) (leerPunto64 puntosCasi 1) ≤
        (Doble.fin 1).exacto ^ 2) ∧
    vecinosExactos puntosCasi 0 (Doble.fin 1) = [] ∧
    vecinosObj64 puntosCasi 0 (Doble.fin 1) ≠ vecinosExactos puntosCasi 0 (Doble.fin 1) := by
  refine ⟨by decide, by decide!, by decide!, by decide!, by decide!, by decide!, by decide!⟩

/-- C10 as amended: for a valid query index `q` and a radius `eps > 0`, `vecinosObj`
returns exactly the indices `j < n`, `j ≠ q`, for which the squared distance computed in
binary64 arithmetic is `<=` the computed `eps * eps`, in strictly increasing order (hence
each once); `q` itself is never returned; a point whose computed squared distance equals
the computed `eps * eps` is returned; and whenever both computed values are the exact
ones, the test is the exact closed-ball test of the claim. -/
theorem vecinosObj64_spec (puntos : List Point64) (q : Nat) (eps : Doble)
    (hq : q < puntos.length) (heps : Doble.lt (Doble.fin 0) eps = true) :
    (∀ j, j ∈ vecinosObj64 puntos q eps ↔
      (j < puntos.length ∧ j ≠ q ∧
        Doble.le (distancia_euclidiana64 (leerPunto64 puntos q) (leerPunto64 puntos j))
          (Doble.mult eps eps) = true)) ∧
    (vecinosObj64 puntos q eps).Sorted (· < ·) ∧
    (vecinosObj64 puntos q eps).Nodup ∧
    q ∉ vecinosObj64 puntos q eps ∧
    (∀ j, j < puntos.length → j ≠ q →
      distancia_euclidiana64 (leerPunto64 puntos q) (leerPunto64 puntos j) =
        Doble.mult eps eps →
      j ∈ vecinosObj64 puntos q eps) ∧
    (∀ j, j < puntos.length → j ≠ q →
      distancia_euclidiana64 (leerPunto64 puntos q) (leerPunto64 puntos j) =
        Doble.fin (distanciaExacta (leerPunto64 puntos q) (leerPunto64 puntos j)) →
      Doble.mult eps eps = Doble.fin (eps.exacto ^ 2) →
      (j ∈ vecinosObj64 puntos q eps ↔
        distanciaExacta (leerPunto64 puntos q) (leerPunto64 puntos j) ≤ eps.exacto ^ 2)) := by
  have hmem := mem_vecinosObj64 puntos q eps
  refine ⟨hmem, vecinosObj64_sorted puntos q eps, (vecinosObj64_sorted puntos q eps).nodup,
    fun h => ((hmem q).1 h).2.1 rfl, ?_, ?_⟩
  · intro j hj hne he
    refine (hmem j).2 ⟨hj, hne, ?_⟩
    rw [he]
    exact Doble.le_self _ (Doble.cuadrado_no_nan eps (Doble.no_nan_de_lt _ _ heps))
  · intro j hj hne hd he
    rw [hmem j, hd, he]
    simp only [Doble.le, decide_eq_true_eq]
    constructor
    · rintro ⟨_, _, c⟩
      exact c
    · intro c
      exact ⟨hj, hne, c⟩

/-- Witness of the amended C10: radius 5 on the points (0,0), (3,4), (6,8); the point
(3,4), at computed squared distance 25 = 5 * 5, is a neighbour of point 0. -/
theorem vecinosObj64_spec_witness :
    0 < puntosTerna.length ∧ Doble.lt (Doble.fin 0) (Doble.fin 5) = true ∧
    1 ∈ vecinosObj64 puntosTerna 0 (Doble.fin 5) ∧
    (vecinosObj64 puntosTerna 0 (Doble.fin 5)).Sorted (· < ·) :=
  ⟨by decide, by decide!,
    (vecinosObj64_spec puntosTerna 0 (Doble.fin 5) (by decide) (by decide!)).2.2.2.2.1 1
      (by decide) (by decide) (by decide!),
    (vecinosObj64_spec puntosTerna 0 (Doble.fin 5) (by decide) (by decide!)).2.1⟩

/-- C11, counterexample: with radius 0 the second of two coincident points is returned;
with radius 0 a point at distance 2^-600 is returned, its computed squared distance
underflowing to 0; and with radius -1 the point (1, 2^-27) is returned. In each case the
radius is `<= 0` and the result is not the empty list. -/
theorem vecinosObj64_radio_no_positivo :
    0 < puntosIguales64.length ∧ Doble.le (Doble.fin 0) (Doble.fin 0) = true ∧
    vecinosObj64 puntosIguales64 0 (Doble.fin 0) = [1] ∧
    vecinosObj64 puntosIguales64 0 (Doble.fin 0) ≠ [] ∧
    puntosDiminutos.all Point64.representable = true ∧
    vecinosObj64 puntosDiminutos 0 (Doble.fin 0) = [1] ∧
    0 < puntosCasi.length ∧ Doble.le (Doble.fin (-1)) (Doble.fin 0) = true ∧
    puntosCasi.all Point64.representable = true ∧
    vecinosObj64 puntosCasi 0 (Doble.fin (-1)) = [1] ∧
    vecinosObj64 puntosCasi 0 (Doble.fin (-1)) ≠ [] := by
  refine ⟨by decide, by decide!, by decide!, by decide!, by decide!, by decide!, by decide,
    by decide!, by decide!, by decide!, by decide!⟩

/-- C11 as amended: for a valid query index `q` and a radius `eps <= 0`, `vecinosObj`
returns the list it returns for the radius `-eps`: exactly the indices `j ≠ q` whose
squared distance to point `q`, computed in binary64 arithmetic, is `<=` the computed
`eps * eps` (for `eps = 0`: is 0). `q` itself is never returned, every other point with
the same finite coordinates as point `q` is returned, and the result is the empty list
exactly when no other point passes that test. -/
theorem vecinosObj64_radio_no_positivo_si (puntos : List Point64) (q : Nat) (eps : Doble)
    (hq : q < puntos.length) (heps : Doble.le eps (Doble.fin 0) = true) :
    vecinosObj64 puntos q eps = vecinosObj64 puntos q (Doble.neg eps) ∧
    q ∉ vecinosObj64 puntos q eps ∧
    (∀ j, j ∈ vecinosObj64 puntos q eps ↔
      (j < puntos.length ∧ j ≠ q ∧
        Doble.le (distancia_euclidiana64 (leerPunto64 puntos q) (leerPunto64 puntos j))
          (Doble.mult eps eps) = true)) ∧
    (eps = Doble.fin 0 → ∀ j, j ∈ vecinosObj64 puntos q eps ↔
      (j < puntos.length ∧ j ≠ q ∧
        distancia_euclidiana64 (leerPunto64 puntos q) (leerPunto64 puntos j) = Doble.fin 0)) ∧
    (∀ j a b, j < puntos.length → j ≠ q →
      leerPunto64 puntos q = ⟨Doble.fin a, Doble.fin b⟩ →
      leerPunto64 puntos j = ⟨Doble.fin a, Doble.fin b⟩ →
      j ∈ vecinosObj64 puntos q eps) ∧
    (vecinosObj64 puntos q eps = [] ↔
      ∀ j, j < puntos.length → j ≠ q →
        Doble.le (distancia_euclidiana64 (leerPunto64 puntos q) (leerPunto64 puntos j))
          (Doble.mult eps eps) = false) := by
  have hmem := mem_vecinosObj64 puntos q eps
  refine ⟨vecinosObj64_neg puntos q eps, fun h => ((hmem q).1 h).2.1 rfl, hmem, ?_, ?_, ?_⟩
  · intro h0 j
    rw [hmem j, h0]
    have hz : Doble.mult (Doble.fin 0) (Doble.fin 0) = Doble.fin 0 := by
      simp only [Doble.mult, mul_zero, redondear_cero]
    rw [hz, Doble.le_cero_iff _ (distancia64_noNegativo _ _)]
  · intro j a b hj hne hpq hpj
    refine (hmem j).2 ⟨hj, hne, ?_⟩
    rw [hpq, hpj, distancia64_mismo]
    exact Doble.cero_le_cuadrado eps (Doble.no_nan_de_le _ _ heps)
  · constructor
    · intro hnil j hj hne
      cases hc : Doble.le (distancia_euclidiana64 (leerPunto64 puntos q) (leerPunto64 puntos j))
          (Doble.mult eps eps) with
      | false => rfl
      | true =>
        have hin : j ∈ vecinosObj64 puntos q eps := (hmem j).2 ⟨hj, hne, hc⟩
        rw [hnil] at hin
        exact absurd hin (List.not_mem_nil j)
    · intro hall
      apply List.eq_nil_iff_forall_not_mem.2
      intro j hj
      obtain ⟨a, b, c⟩ := (hmem j).1 hj
      rw [hall j a b] at c
      exact Bool.noConfusion c

/-- Witness of the amended C11: radius 0 on two coincident points. -/
theorem vecinosObj64_radio_no_positivo_si_witness :
    0 < puntosIguales64.length ∧ Doble.le (Doble.fin 0) (Doble.fin 0) = true ∧
    vecinosObj64 puntosIguales64 0 (Doble.fin 0) =
      vecinosObj64 puntosIguales64 0 (Doble.neg (Doble.fin 0)) ∧
    1 ∈ vecinosObj64 puntosIguales64 0 (Doble.fin 0) :=
  ⟨by decide, by decide!,
    (vecinosObj64_radio_no_positivo_si puntosIguales64 0 (Doble.fin 0) (by decide)
      (by decide!)).1,
    (vecinosObj64_radio_no_positivo_si puntosIguales64 0 (Doble.fin 0) (by decide)
      (by decide!)).2.2.2.2.1 1 0 0 (by decide) (by decide) rfl rfl⟩

/-- Sample roundings: 1/10; ties to even at 1 + 2^-53 and 1 + 3 * 2^-53; the least
subnormal 2^-1074 and the tie 2^-1075 below it; the largest finite value and the
overflow threshold 2^1024 - 2^970. -/
theorem redondear_ejemplos :
    redondear (1 / 10) = Doble.fin (3602879701896397 / 2 ^ 55) ∧
    redondear (1 + 1 / 2 ^ 53) = Doble.fin 1 ∧
    redondear (1 + 3 / 2 ^ 53) = Doble.fin (1 + 1 / 2 ^ 51) ∧
    redondear (1 / 2 ^ 1074) = Doble.fin (1 / 2 ^ 1074) ∧
    redondear (1 / 2 ^ 1075) = Doble.fin 0 ∧
    redondear (3 / 2 ^ 1075) = Doble.fin (1 / 2 ^ 1073) ∧
    redondear (2 ^ 1024 - 2 ^ 971) = Doble.fin (2 ^ 1024 - 2 ^ 971) ∧
    redondear (2 ^ 1024 - 2 ^ 970 - 1) = Doble.fin (2 ^ 1024 - 2 ^ 971) ∧
    redondear (2 ^ 1024 - 2 ^ 970) = Doble.inf false ∧
    redondear (-(2 ^ 1024)) = Doble.inf true := by
  refine ⟨by decide!, by decide!, by decide!, by decide!, by decide!, by decide!, by decide!,
    by decide!, by decide!, by decide!⟩
